import Mathlib

/-!
Verification of the coreference / PAS document builder of kyoto-reader.

The Python source keeps a document-wide table of mentions (keyed by the
document-wide tag id dtid) and a table of entities (keyed by the entity id
eid).  A Mention object stores the certain and uncertain entity ids it refers
to; an Entity object stores the certain and uncertain mentions referring to
it.  All mutation goes through Entity.add_mention / Entity.remove_mention,
Document._create_mention, Document._create_entity, Document._merge_entities
and Document._delete_entity (src/kyoto_reader/coreference.py and
src/kyoto_reader/document.py).

We embed this shallowly: the two tables become association lists keyed by
dtid / eid, Python set objects become duplicate-free lists (iteration order
of Python sets is unspecified; the list order is a determinization that no
proved statement depends on), and each mutating method becomes a state
transformer on the whole document state.  Object aliasing in Python (an
Entity holds references to Mention objects) is modelled by storing ids and
re-reading the table at every access, exactly where the Python code
dereferences the objects.
-/

/-- Python set.add on a duplicate-free list: append unless present. -/
def insertL (x : Nat) (l : List Nat) : List Nat :=
  if x ∈ l then l else l ++ [x]

/-- Python set.remove / discard on a list: drop every occurrence. -/
def removeL (x : Nat) (l : List Nat) : List Nat :=
  l.filter (fun y => y ≠ x)

/-- Model of coreference.Mention: the base phrase data the coreference code
reads (dtid and the 用言 / 体言 feature tags) plus the certain (eids) and
uncertain (eids_unc) entity-id sets. -/
structure Mention where
  dtid : Nat
  featYougen : Bool
  featTaigen : Bool
  eids : List Nat
  eids_unc : List Nat
deriving Repr, DecidableEq

/-- Model of coreference.Entity: entity id, optional exophor label, certain
and uncertain mention sets (stored as dtids), and the tri-state 体言 / 用言
flags. -/
structure Entity where
  eid : Nat
  exophor : Option String
  mentions : List Nat
  mentions_unc : List Nat
  taigen : Option Bool
  yougen : Option Bool
deriving Repr, DecidableEq

/-- The document state mutated by the coreference resolver: the mention
table (Document.mentions), the entity table (Document.entities, an
insertion-ordered dict) and the eids held by the SpecialArgument objects of
all predicate-argument structures (the only Special Argument field the
merge code touches). -/
structure DocState where
  mentions : List Mention
  entities : List Entity
  specialArgs : List Nat
deriving Repr, DecidableEq

/-- Replace, in an association list keyed by the Nat-valued function key,
every entry sharing the key of v by v.  With duplicate-free keys this is the
dict write-back table[key v] = v. -/
def updBy {α : Type} (key : α → Nat) (v : α) (l : List α) : List α :=
  l.map (fun x => if key x = key v then v else x)

def DocState.findMention (st : DocState) (dtid : Nat) : Option Mention :=
  st.mentions.find? (fun m => m.dtid == dtid)

def DocState.findEntity (st : DocState) (eid : Nat) : Option Entity :=
  st.entities.find? (fun e => e.eid == eid)

/-- Write back a mutated Mention object: replace the table entry with its
dtid. -/
def DocState.setMention (st : DocState) (m : Mention) : DocState :=
  { st with mentions := updBy (fun x => x.dtid) m st.mentions }

/-- Write back a mutated Entity object: replace the table entry with its
eid. -/
def DocState.setEntity (st : DocState) (e : Entity) : DocState :=
  { st with entities := updBy (fun x => x.eid) e st.entities }

/-- Mention.is_uncertain_to: False iff the entity id is among the certain
eids (the Python method asserts membership in eids_unc otherwise). -/
def Mention.is_uncertain_to (m : Mention) (eid : Nat) : Bool :=
  decide (eid ∉ m.eids)

/-- Entity.remove_mention, acting on the entity and the mention object. -/
def Entity.remove_mention (e : Entity) (m : Mention) : Entity × Mention :=
  let p1 :=
    if m.dtid ∈ e.mentions then
      ({ e with mentions := removeL m.dtid e.mentions },
       { m with eids := removeL e.eid m.eids })
    else (e, m)
  if m.dtid ∈ p1.1.mentions_unc then
    ({ p1.1 with mentions_unc := removeL m.dtid p1.1.mentions_unc },
     { p1.2 with eids_unc := removeL e.eid p1.2.eids_unc })
  else p1

/-- The flag update at the end of Entity.add_mention:
yougen = (yougen is not False) and (用言 in mention.tag.features), and
likewise for taigen. -/
def Entity.upd_flags (e : Entity) (m : Mention) : Entity :=
  { e with
    yougen := some ((e.yougen != some false) && m.featYougen),
    taigen := some ((e.taigen != some false) && m.featTaigen) }

/-- Entity.add_mention.  Uncertain adds are a no-op when the mention is
already linked either way; certain adds first drop an uncertain link, then
register the certain one.  Both mutating paths recompute the tri-state
flags. -/
def Entity.add_mention (e : Entity) (m : Mention) (uncertain : Bool) : Entity × Mention :=
  if uncertain then
    if m.dtid ∈ e.mentions ∨ m.dtid ∈ e.mentions_unc then (e, m)
    else
      let m' := { m with eids_unc := insertL e.eid m.eids_unc }
      let e' := { e with mentions_unc := insertL m.dtid e.mentions_unc }
      (e'.upd_flags m, m')
  else
    let p := if m.dtid ∈ e.mentions_unc then e.remove_mention m else (e, m)
    let m' := { p.2 with eids := insertL e.eid p.2.eids }
    let e' := { p.1 with mentions := insertL m.dtid p.1.mentions }
    (e'.upd_flags m, m')

/-- Entity.add_mention lifted to the document state: dereference the two
objects, mutate them, write both back.  (In Python the caller always holds
live objects; missing keys cannot occur there, so they are a no-op here.) -/
def DocState.add_mention (st : DocState) (eid dtid : Nat) (uncertain : Bool) : DocState :=
  match st.findEntity eid, st.findMention dtid with
  | some e, some m =>
      let p := e.add_mention m uncertain
      (st.setEntity p.1).setMention p.2
  | _, _ => st

/-- Entity.remove_mention lifted to the document state. -/
def DocState.remove_mention (st : DocState) (eid dtid : Nat) : DocState :=
  match st.findEntity eid, st.findMention dtid with
  | some e, some m =>
      let p := e.remove_mention m
      (st.setEntity p.1).setMention p.2
  | _, _ => st

/-- The three productive exophor labels that Document._create_entity never
deduplicates. -/
def productiveExophors : List String := ["不特定:人", "不特定:物", "不特定:状況"]

/-- Eid allocation of Document._create_entity: a colliding requested eid is
replaced by max(existing)+1; an absent or negative request allocates
max(existing)+1 (or 0 when no entity exists); any other requested eid is
used as is. -/
def allocEid (eids : List Nat) (reqEid : Option Int) : Nat :=
  match reqEid with
  | some r =>
      if 0 ≤ r ∧ r.toNat ∈ eids then (eids.foldl max 0) + 1
      else if r < 0 then (if eids.isEmpty then 0 else (eids.foldl max 0) + 1)
      else r.toNat
  | none => if eids.isEmpty then 0 else (eids.foldl max 0) + 1

/-- The singleton lookup of Document._create_entity: a truthy non-productive
exophor label is searched among the existing entities. -/
def DocState.dedupEntity (st : DocState) (exophor : Option String) : Option Entity :=
  match exophor with
  | some exo =>
      if exo ≠ "" ∧ exo ∉ productiveExophors then
        st.entities.find? (fun e => e.exophor == some exo)
      else none
  | none => none

/-- Document._create_entity.  When the singleton lookup succeeds the found
entity is returned unchanged; otherwise a new entity with freshly allocated
eid is appended to the entity table.  Returns the state together with the
eid of the returned entity. -/
def DocState.create_entity (st : DocState) (exophor : Option String) (reqEid : Option Int) :
    DocState × Nat :=
  match st.dedupEntity exophor with
  | some e => (st, e.eid)
  | none =>
      let eid := allocEid (st.entities.map (fun e => e.eid)) reqEid
      ({ st with entities := st.entities ++ [⟨eid, exophor, [], [], none, none⟩] }, eid)

/-- The base-phrase data Document._create_mention reads. -/
structure BPInfo where
  dtid : Nat
  featYougen : Bool
  featTaigen : Bool
deriving Repr, DecidableEq

/-- Document._create_mention: on a fresh dtid, register a new mention, make
a brand-new entity for it and link them certainly; otherwise leave the
state alone (the registered mention is returned in Python). -/
def DocState.create_mention (st : DocState) (bp : BPInfo) : DocState :=
  if (st.findMention bp.dtid).isSome then st
  else
    let st1 : DocState := { st with mentions := st.mentions ++ [⟨bp.dtid, bp.featYougen, bp.featTaigen, [], []⟩] }
    let p := st1.create_entity none none
    p.1.add_mention p.2 bp.dtid false

/-- Document._delete_entity: remove the entity from every one of its
mentions (iterating a snapshot of all_mentions, as the Python for-loop
does), then pop it from the entity table. -/
def DocState.delete_entity (st : DocState) (eid : Nat) : DocState :=
  match st.findEntity eid with
  | none => st
  | some e =>
      let st1 := (e.mentions ++ e.mentions_unc).foldl (fun s d => s.remove_mention eid d) st
      { st1 with entities := st1.entities.filter (fun x => x.eid != eid) }

/-- Document._merge_entities.  Parameters are the dtids of the source and
(optional) target mention and the eids of the source and target entity; in
Python these arrive as live objects out of the document tables, which the
model re-reads at exactly the program points where the Python code
dereferences them. -/
def DocState.merge_entities (st : DocState) (srcDtid : Nat) (tgtDtid : Option Nat)
    (seEid teEid : Nat) (uncertain : Bool) : DocState :=
  let uncertain_tgt : Bool :=
    match tgtDtid with
    | some td =>
        match st.findMention td with
        | some tm => tm.is_uncertain_to teEid
        | none => false
    | none => false
  let uncertain_src : Bool :=
    match st.findMention srcDtid with
    | some sm => sm.is_uncertain_to seEid
    | none => false
  if seEid = teEid then
    if uncertain then st
    else
      let st1 :=
        if (!uncertain_src) && uncertain_tgt then
          match tgtDtid with
          | some td => st.add_mention seEid td false
          | none => st
        else st
      if uncertain_src && (!uncertain_tgt) then st1.add_mention seEid srcDtid false else st1
  else
    let st1 :=
      match tgtDtid with
      | some td => st.add_mention seEid td (uncertain || uncertain_src)
      | none => st
    let st2 := st1.add_mention teEid srcDtid (uncertain || uncertain_tgt)
    if uncertain_src || uncertain || uncertain_tgt then st2
    else
      match st2.findEntity seEid, st2.findEntity teEid with
      | some se2, some te2 =>
          if se2.exophor.isSome ∧ te2.exophor.isSome ∧ se2.exophor ≠ te2.exophor then st2
          else
            let st3 := if se2.exophor = none then st2.setEntity { se2 with exophor := te2.exophor } else st2
            let st4 := (te2.mentions ++ te2.mentions_unc).foldl (fun s d =>
                let unc : Bool :=
                  match s.findMention d with
                  | some tm => tm.is_uncertain_to teEid
                  | none => true
                s.add_mention seEid d unc) st3
            let st5 := { st4 with specialArgs := st4.specialArgs.map (fun x => if x = teEid then seEid else x) }
            st5.delete_entity teEid
      | _, _ => st2

/-- Pas.add_special_argument, restricted to the field the merge code
rewrites: record the eid carried by one more SpecialArgument. -/
def DocState.add_special_arg (st : DocState) (eid : Nat) : DocState :=
  { st with specialArgs := st.specialArgs ++ [eid] }

/-- The empty document state before _analyze_rel / _analyze_pas runs. -/
def DocState.init : DocState := ⟨[], [], []⟩

/-- The states a document can be in during and after construction: every
mutation of the mention / entity tables performed by _analyze_rel,
_analyze_pas and _add_corefs is one of these operations. -/
inductive Reach : DocState → Prop where
  | init : Reach DocState.init
  | create_mention (st : DocState) (bp : BPInfo) :
      Reach st → Reach (st.create_mention bp)
  | create_entity (st : DocState) (exo : Option String) (req : Option Int) :
      Reach st → Reach (st.create_entity exo req).1
  | add_mention (st : DocState) (eid dtid : Nat) (unc : Bool) :
      Reach st → Reach (st.add_mention eid dtid unc)
  | delete_entity (st : DocState) (eid : Nat) :
      Reach st → Reach (st.delete_entity eid)
  | add_special_arg (st : DocState) (eid : Nat) :
      Reach st → Reach (st.add_special_arg eid)
  | merge (st : DocState) (srcDtid : Nat) (tgtDtid : Option Nat) (seEid teEid : Nat) (unc : Bool) :
      Reach st → Reach (st.merge_entities srcDtid tgtDtid seEid teEid unc)

/-! ### Generic lemmas about keyed association lists -/

section KeyedList

variable {α : Type} (key : α → Nat)

theorem find?_key_mem {l : List α} {k : Nat} {x : α}
    (h : l.find? (fun y => key y == k) = some x) : x ∈ l ∧ key x = k := by
  refine ⟨List.mem_of_find?_eq_some h, ?_⟩
  have := List.find?_some h
  simpa using this

theorem find?_key_isSome_iff {l : List α} {k : Nat} :
    (l.find? (fun y => key y == k)).isSome ↔ k ∈ l.map key := by
  rw [List.find?_isSome]
  constructor
  · rintro ⟨x, hx, hpx⟩
    simp only [beq_iff_eq] at hpx
    exact hpx ▸ List.mem_map_of_mem key hx
  · intro hk
    rcases List.mem_map.mp hk with ⟨x, hx, hkx⟩
    exact ⟨x, hx, by simp [hkx]⟩

theorem updBy_nil (v : α) : updBy key v [] = [] := rfl

theorem updBy_cons (v a : α) (l : List α) :
    updBy key v (a :: l) = (if key a = key v then v else a) :: updBy key v l := rfl

theorem map_key_updBy (v : α) (l : List α) :
    (updBy key v l).map key = l.map key := by
  induction l with
  | nil => rfl
  | cons a l ih =>
      rw [updBy_cons, List.map_cons, List.map_cons, ih]
      by_cases h : key a = key v
      · simp [h]
      · simp [h]

theorem find?_updBy_self {l : List α} {v : α}
    (h : (l.find? (fun y => key y == key v)).isSome) :
    (updBy key v l).find? (fun y => key y == key v) = some v := by
  induction l with
  | nil => simp at h
  | cons a l ih =>
      rw [updBy_cons]
      by_cases ha : key a = key v
      · simp [ha]
      · have h' : (l.find? (fun y => key y == key v)).isSome := by
          rw [List.find?_cons_of_neg _ (by simpa using ha)] at h
          exact h
        rw [if_neg ha, List.find?_cons_of_neg _ (by simpa using ha)]
        exact ih h'

theorem find?_updBy_ne {l : List α} {v : α} {k : Nat} (h : k ≠ key v) :
    (updBy key v l).find? (fun y => key y == k) = l.find? (fun y => key y == k) := by
  induction l with
  | nil => rfl
  | cons a l ih =>
      rw [updBy_cons]
      by_cases ha : key a = key v
      · have hak : ¬ key a = k := by rw [ha]; exact fun hh => h hh.symm
        have hvk : ¬ key v = k := fun hh => h hh.symm
        rw [if_pos ha, List.find?_cons_of_neg _ (by simpa using hvk),
          List.find?_cons_of_neg _ (by simpa using hak)]
        exact ih
      · by_cases hak : key a = k
        · rw [if_neg ha, List.find?_cons_of_pos _ (by simpa using hak),
            List.find?_cons_of_pos _ (by simpa using hak)]
        · rw [if_neg ha, List.find?_cons_of_neg _ (by simpa using hak),
            List.find?_cons_of_neg _ (by simpa using hak)]
          exact ih

theorem updBy_eq_of_find?_none {l : List α} {v : α}
    (h : l.find? (fun y => key y == key v) = none) : updBy key v l = l := by
  rw [List.find?_eq_none] at h
  induction l with
  | nil => rfl
  | cons a l ih =>
      have ha : ¬ key a = key v := by
        have := h a (List.mem_cons_self a l)
        simpa using this
      have ih' := ih (fun x hx => h x (List.mem_cons_of_mem a hx))
      rw [updBy_cons, if_neg ha, ih']

theorem mem_updBy_of_mem_ne {l : List α} {v x : α} (hx : x ∈ l)
    (h : key x ≠ key v) : x ∈ updBy key v l := by
  induction l with
  | nil => simp at hx
  | cons a l ih =>
      rw [updBy_cons]
      rcases List.mem_cons.mp hx with hx | hx
      · subst hx
        rw [if_neg h]
        exact List.mem_cons_self _ _
      · exact List.mem_cons_of_mem _ (ih hx)

theorem mem_updBy_elim {l : List α} {v x : α} (hx : x ∈ updBy key v l) :
    x = v ∨ (x ∈ l ∧ key x ≠ key v) := by
  induction l with
  | nil => simp [updBy_nil] at hx
  | cons a l ih =>
      rw [updBy_cons] at hx
      rcases List.mem_cons.mp hx with hx | hx
      · by_cases ha : key a = key v
        · rw [if_pos ha] at hx
          exact Or.inl hx
        · rw [if_neg ha] at hx
          exact Or.inr ⟨hx ▸ List.mem_cons_self a l, hx ▸ ha⟩
      · rcases ih hx with h | ⟨h1, h2⟩
        · exact Or.inl h
        · exact Or.inr ⟨List.mem_cons_of_mem _ h1, h2⟩

theorem mem_updBy_self {l : List α} {v : α}
    (h : (l.find? (fun y => key y == key v)).isSome) : v ∈ updBy key v l := by
  have := find?_updBy_self key h
  exact List.mem_of_find?_eq_some this

theorem find?_filter_ne {l : List α} {k k0 : Nat} (h : k ≠ k0) :
    (l.filter (fun y => key y != k0)).find? (fun y => key y == k) =
      l.find? (fun y => key y == k) := by
  induction l with
  | nil => rfl
  | cons a l ih =>
      rw [List.filter_cons]
      by_cases ha : key a = k0
      · have hak : ¬ key a = k := fun hh => h (hh ▸ ha)
        rw [if_neg (by simp [ha]), List.find?_cons_of_neg _ (by simpa using hak)]
        exact ih
      · rw [if_pos (by simpa using ha)]
        by_cases hak : key a = k
        · rw [List.find?_cons_of_pos _ (by simpa using hak),
            List.find?_cons_of_pos _ (by simpa using hak)]
        · rw [List.find?_cons_of_neg _ (by simpa using hak),
            List.find?_cons_of_neg _ (by simpa using hak)]
          exact ih

theorem find?_filter_self {l : List α} {k0 : Nat} :
    (l.filter (fun y => key y != k0)).find? (fun y => key y == k0) = none := by
  rw [List.find?_eq_none]
  intro x hx
  have := List.of_mem_filter hx
  simpa using this

theorem find?_key_unique {l : List α} (hnd : (l.map key).Nodup) {k : Nat} {x y : α}
    (hfind : l.find? (fun z => key z == k) = some x) (hy : y ∈ l) (hky : key y = k) :
    y = x := by
  induction l with
  | nil => simp at hfind
  | cons a l ih =>
      simp only [List.map_cons, List.nodup_cons] at hnd
      rcases List.mem_cons.mp hy with hy | hy
      · subst hy
        have : key y = k := hky
        rw [List.find?_cons_of_pos _ (by simpa using this)] at hfind
        exact (Option.some.inj hfind).symm ▸ rfl
      · by_cases ha : key a = k
        · exfalso
          exact hnd.1 (ha ▸ hky ▸ List.mem_map_of_mem key hy)
        · rw [List.find?_cons_of_neg _ (by simpa using ha)] at hfind
          exact ih hnd.2 hfind hy

end KeyedList

/-! ### Lemmas about the set primitives -/

theorem mem_insertL {x y : Nat} {l : List Nat} : y ∈ insertL x l ↔ y ∈ l ∨ y = x := by
  unfold insertL
  by_cases h : x ∈ l
  · rw [if_pos h]
    constructor
    · exact Or.inl
    · rintro (hy | rfl)
      · exact hy
      · exact h
  · rw [if_neg h]
    simp

theorem mem_insertL_self {x : Nat} {l : List Nat} : x ∈ insertL x l :=
  mem_insertL.mpr (Or.inr rfl)

theorem mem_removeL {x y : Nat} {l : List Nat} : y ∈ removeL x l ↔ y ∈ l ∧ y ≠ x := by
  unfold removeL
  simp [List.mem_filter]

theorem removeL_eq_of_not_mem {x : Nat} {l : List Nat} (h : x ∉ l) : removeL x l = l := by
  unfold removeL
  apply List.filter_eq_self.mpr
  intro a ha
  simp only [ne_eq, decide_eq_true_eq]
  exact fun hax => h (hax ▸ ha)

theorem insertL_nodup {x : Nat} {l : List Nat} (h : l.Nodup) : (insertL x l).Nodup := by
  unfold insertL
  by_cases hx : x ∈ l
  · rwa [if_pos hx]
  · rw [if_neg hx]
    simpa [List.nodup_append] using ⟨h, fun hmem => hx hmem⟩

theorem removeL_nodup {x : Nat} {l : List Nat} (h : l.Nodup) : (removeL x l).Nodup :=
  h.filter _

/-! ### Characterizations of Entity.add_mention and Entity.remove_mention -/

theorem Entity.remove_mention_char (e : Entity) (m : Mention)
    (h1 : m.dtid ∈ e.mentions ↔ e.eid ∈ m.eids)
    (h2 : m.dtid ∈ e.mentions_unc ↔ e.eid ∈ m.eids_unc) :
    e.remove_mention m =
      ({ e with mentions := removeL m.dtid e.mentions,
                mentions_unc := removeL m.dtid e.mentions_unc },
       { m with eids := removeL e.eid m.eids,
                eids_unc := removeL e.eid m.eids_unc }) := by
  unfold Entity.remove_mention
  by_cases hm : m.dtid ∈ e.mentions
  · rw [if_pos hm]
    by_cases hu : m.dtid ∈ e.mentions_unc
    · simp only [if_pos hu]
    · rw [if_neg hu, removeL_eq_of_not_mem hu, removeL_eq_of_not_mem (fun hh => absurd (h2.mpr hh) hu)]
  · rw [if_neg hm]
    rw [removeL_eq_of_not_mem hm, removeL_eq_of_not_mem (fun hh => absurd (h1.mpr hh) hm)]
    by_cases hu : m.dtid ∈ e.mentions_unc
    · simp only [if_pos hu]
    · rw [if_neg hu, removeL_eq_of_not_mem hu, removeL_eq_of_not_mem (fun hh => absurd (h2.mpr hh) hu)]

theorem Entity.add_mention_unc_noop (e : Entity) (m : Mention)
    (h : m.dtid ∈ e.mentions ∨ m.dtid ∈ e.mentions_unc) :
    e.add_mention m true = (e, m) := by
  unfold Entity.add_mention
  rw [if_pos rfl, if_pos h]

theorem Entity.add_mention_unc_fresh (e : Entity) (m : Mention)
    (h : ¬ (m.dtid ∈ e.mentions ∨ m.dtid ∈ e.mentions_unc)) :
    e.add_mention m true =
      ({ e with mentions_unc := insertL m.dtid e.mentions_unc,
                yougen := some ((e.yougen != some false) && m.featYougen),
                taigen := some ((e.taigen != some false) && m.featTaigen) },
       { m with eids_unc := insertL e.eid m.eids_unc }) := by
  unfold Entity.add_mention Entity.upd_flags
  rw [if_pos rfl, if_neg h]

theorem Entity.add_mention_cert_notunc (e : Entity) (m : Mention)
    (h : m.dtid ∉ e.mentions_unc) :
    e.add_mention m false =
      ({ e with mentions := insertL m.dtid e.mentions,
                yougen := some ((e.yougen != some false) && m.featYougen),
                taigen := some ((e.taigen != some false) && m.featTaigen) },
       { m with eids := insertL e.eid m.eids }) := by
  unfold Entity.add_mention Entity.upd_flags
  rw [if_neg (by simp), if_neg h]

theorem Entity.add_mention_cert_unc (e : Entity) (m : Mention)
    (h : m.dtid ∈ e.mentions_unc)
    (h1 : m.dtid ∈ e.mentions ↔ e.eid ∈ m.eids)
    (h2 : m.dtid ∈ e.mentions_unc ↔ e.eid ∈ m.eids_unc) :
    e.add_mention m false =
      ({ e with mentions := insertL m.dtid (removeL m.dtid e.mentions),
                mentions_unc := removeL m.dtid e.mentions_unc,
                yougen := some ((e.yougen != some false) && m.featYougen),
                taigen := some ((e.taigen != some false) && m.featTaigen) },
       { m with eids := insertL e.eid (removeL e.eid m.eids),
                eids_unc := removeL e.eid m.eids_unc }) := by
  unfold Entity.add_mention Entity.upd_flags
  rw [if_neg (by simp), if_pos h, Entity.remove_mention_char e m h1 h2]

theorem Entity.remove_mention_proj (e : Entity) (m : Mention) :
    (e.remove_mention m).1.eid = e.eid ∧ (e.remove_mention m).2.dtid = m.dtid ∧
    (e.remove_mention m).1.exophor = e.exophor ∧
    (e.remove_mention m).2.featYougen = m.featYougen ∧
    (e.remove_mention m).2.featTaigen = m.featTaigen := by
  unfold Entity.remove_mention
  dsimp only
  split <;> split <;> simp

theorem Entity.add_mention_proj (e : Entity) (m : Mention) (unc : Bool) :
    (e.add_mention m unc).1.eid = e.eid ∧ (e.add_mention m unc).2.dtid = m.dtid ∧
    (e.add_mention m unc).1.exophor = e.exophor ∧
    (e.add_mention m unc).2.featYougen = m.featYougen ∧
    (e.add_mention m unc).2.featTaigen = m.featTaigen := by
  unfold Entity.add_mention Entity.upd_flags
  have hp := Entity.remove_mention_proj e m
  dsimp only
  split
  · split
    · simp
    · simp
  · split <;> simp_all

/-! ### Lookup behaviour of the state-level write-backs -/

theorem DocState.findEntity_setMention (st : DocState) (m : Mention) (x : Nat) :
    (st.setMention m).findEntity x = st.findEntity x := rfl

theorem DocState.findMention_setEntity (st : DocState) (e : Entity) (d : Nat) :
    (st.setEntity e).findMention d = st.findMention d := rfl

theorem DocState.specialArgs_setMention (st : DocState) (m : Mention) :
    (st.setMention m).specialArgs = st.specialArgs := rfl

theorem DocState.specialArgs_setEntity (st : DocState) (e : Entity) :
    (st.setEntity e).specialArgs = st.specialArgs := rfl

theorem DocState.findMention_setMention_self (st : DocState) {m : Mention}
    (h : (st.findMention m.dtid).isSome) :
    (st.setMention m).findMention m.dtid = some m :=
  find?_updBy_self (fun x : Mention => x.dtid) h

theorem DocState.findMention_setMention_ne (st : DocState) {m : Mention} {d : Nat}
    (h : d ≠ m.dtid) :
    (st.setMention m).findMention d = st.findMention d :=
  find?_updBy_ne (fun x : Mention => x.dtid) h

theorem DocState.findEntity_setEntity_self (st : DocState) {e : Entity}
    (h : (st.findEntity e.eid).isSome) :
    (st.setEntity e).findEntity e.eid = some e :=
  find?_updBy_self (fun x : Entity => x.eid) h

theorem DocState.findEntity_setEntity_ne (st : DocState) {e : Entity} {x : Nat}
    (h : x ≠ e.eid) :
    (st.setEntity e).findEntity x = st.findEntity x :=
  find?_updBy_ne (fun y : Entity => y.eid) h

theorem DocState.add_mention_eq (st : DocState) (eid dtid : Nat) (unc : Bool) {e : Entity}
    {m : Mention} (he : st.findEntity eid = some e) (hm : st.findMention dtid = some m) :
    st.add_mention eid dtid unc =
      (st.setEntity (e.add_mention m unc).1).setMention (e.add_mention m unc).2 := by
  unfold DocState.add_mention
  rw [he, hm]

theorem DocState.remove_mention_eq (st : DocState) (eid dtid : Nat) {e : Entity}
    {m : Mention} (he : st.findEntity eid = some e) (hm : st.findMention dtid = some m) :
    st.remove_mention eid dtid =
      (st.setEntity (e.remove_mention m).1).setMention (e.remove_mention m).2 := by
  unfold DocState.remove_mention
  rw [he, hm]

/-- The full lookup effect of a successful DocState.add_mention: the pair is
written back at its own keys, every other key is untouched. -/
theorem DocState.add_mention_find (st : DocState) (eid dtid : Nat) (unc : Bool) {e : Entity}
    {m : Mention} (he : st.findEntity eid = some e) (hm : st.findMention dtid = some m) :
    (st.add_mention eid dtid unc).findEntity eid = some (e.add_mention m unc).1 ∧
    (st.add_mention eid dtid unc).findMention dtid = some (e.add_mention m unc).2 ∧
    (∀ x, x ≠ eid → (st.add_mention eid dtid unc).findEntity x = st.findEntity x) ∧
    (∀ d, d ≠ dtid → (st.add_mention eid dtid unc).findMention d = st.findMention d) ∧
    (st.add_mention eid dtid unc).specialArgs = st.specialArgs := by
  have hkey := (find?_key_mem (fun y : Entity => y.eid) he).2
  have hkeym := (find?_key_mem (fun y : Mention => y.dtid) hm).2
  have hproj := Entity.add_mention_proj e m unc
  rw [DocState.add_mention_eq st eid dtid unc he hm]
  refine ⟨?_, ?_, ?_, ?_, rfl⟩
  · rw [DocState.findEntity_setMention]
    have : (st.findEntity (e.add_mention m unc).1.eid).isSome := by
      rw [hproj.1, hkey, he]; rfl
    have hres := DocState.findEntity_setEntity_self st this
    rwa [hproj.1, hkey] at hres
  · have : ((st.setEntity (e.add_mention m unc).1).findMention (e.add_mention m unc).2.dtid).isSome := by
      rw [DocState.findMention_setEntity, hproj.2.1, hkeym, hm]; rfl
    have hres := DocState.findMention_setMention_self _ this
    rwa [hproj.2.1, hkeym] at hres
  · intro x hx
    rw [DocState.findEntity_setMention]
    exact DocState.findEntity_setEntity_ne st (by rw [hproj.1, hkey]; exact hx)
  · intro d hd
    rw [DocState.findMention_setMention_ne _ (by rw [hproj.2.1, hkeym]; exact hd),
      DocState.findMention_setEntity]

theorem DocState.remove_mention_find (st : DocState) (eid dtid : Nat) {e : Entity}
    {m : Mention} (he : st.findEntity eid = some e) (hm : st.findMention dtid = some m) :
    (st.remove_mention eid dtid).findEntity eid = some (e.remove_mention m).1 ∧
    (st.remove_mention eid dtid).findMention dtid = some (e.remove_mention m).2 ∧
    (∀ x, x ≠ eid → (st.remove_mention eid dtid).findEntity x = st.findEntity x) ∧
    (∀ d, d ≠ dtid → (st.remove_mention eid dtid).findMention d = st.findMention d) ∧
    (st.remove_mention eid dtid).specialArgs = st.specialArgs := by
  have hkey := (find?_key_mem (fun y : Entity => y.eid) he).2
  have hkeym := (find?_key_mem (fun y : Mention => y.dtid) hm).2
  have hproj := Entity.remove_mention_proj e m
  rw [DocState.remove_mention_eq st eid dtid he hm]
  refine ⟨?_, ?_, ?_, ?_, rfl⟩
  · rw [DocState.findEntity_setMention]
    have : (st.findEntity (e.remove_mention m).1.eid).isSome := by
      rw [hproj.1, hkey, he]; rfl
    have hres := DocState.findEntity_setEntity_self st this
    rwa [hproj.1, hkey] at hres
  · have : ((st.setEntity (e.remove_mention m).1).findMention (e.remove_mention m).2.dtid).isSome := by
      rw [DocState.findMention_setEntity, hproj.2.1, hkeym, hm]; rfl
    have hres := DocState.findMention_setMention_self _ this
    rwa [hproj.2.1, hkeym] at hres
  · intro x hx
    rw [DocState.findEntity_setMention]
    exact DocState.findEntity_setEntity_ne st (by rw [hproj.1, hkey]; exact hx)
  · intro d hd
    rw [DocState.findMention_setMention_ne _ (by rw [hproj.2.1, hkeym]; exact hd),
      DocState.findMention_setEntity]

/-- Membership characterization of Entity.add_mention: keys other than the
pair are untouched, the pair stays synchronized, nodup and disjointness are
preserved, and the result sets only grow by the pair keys. -/
theorem Entity.add_mention_mem_char (e : Entity) (m : Mention) (unc : Bool)
    (h1 : m.dtid ∈ e.mentions ↔ e.eid ∈ m.eids)
    (h2 : m.dtid ∈ e.mentions_unc ↔ e.eid ∈ m.eids_unc) :
    (∀ d, d ≠ m.dtid →
      ((d ∈ (e.add_mention m unc).1.mentions ↔ d ∈ e.mentions) ∧
       (d ∈ (e.add_mention m unc).1.mentions_unc ↔ d ∈ e.mentions_unc))) ∧
    (∀ x, x ≠ e.eid →
      ((x ∈ (e.add_mention m unc).2.eids ↔ x ∈ m.eids) ∧
       (x ∈ (e.add_mention m unc).2.eids_unc ↔ x ∈ m.eids_unc))) ∧
    ((m.dtid ∈ (e.add_mention m unc).1.mentions ↔ e.eid ∈ (e.add_mention m unc).2.eids) ∧
     (m.dtid ∈ (e.add_mention m unc).1.mentions_unc ↔ e.eid ∈ (e.add_mention m unc).2.eids_unc)) ∧
    ((e.mentions.Nodup → (e.add_mention m unc).1.mentions.Nodup) ∧
     (e.mentions_unc.Nodup → (e.add_mention m unc).1.mentions_unc.Nodup)) ∧
    ((m.eids.Nodup → (e.add_mention m unc).2.eids.Nodup) ∧
     (m.eids_unc.Nodup → (e.add_mention m unc).2.eids_unc.Nodup)) ∧
    ((∀ d ∈ e.mentions, d ∉ e.mentions_unc) →
      ∀ d ∈ (e.add_mention m unc).1.mentions, d ∉ (e.add_mention m unc).1.mentions_unc) ∧
    ((∀ x ∈ m.eids, x ∉ m.eids_unc) →
      ∀ x ∈ (e.add_mention m unc).2.eids, x ∉ (e.add_mention m unc).2.eids_unc) ∧
    (∀ d ∈ (e.add_mention m unc).1.mentions, d = m.dtid ∨ d ∈ e.mentions) ∧
    (∀ d ∈ (e.add_mention m unc).1.mentions_unc, d = m.dtid ∨ d ∈ e.mentions_unc) ∧
    (∀ x ∈ (e.add_mention m unc).2.eids, x = e.eid ∨ x ∈ m.eids) ∧
    (∀ x ∈ (e.add_mention m unc).2.eids_unc, x = e.eid ∨ x ∈ m.eids_unc) := by
  cases unc with
  | true =>
      by_cases hmem : m.dtid ∈ e.mentions ∨ m.dtid ∈ e.mentions_unc
      · rw [Entity.add_mention_unc_noop e m hmem]
        refine ⟨fun d _ => ⟨Iff.rfl, Iff.rfl⟩, fun x _ => ⟨Iff.rfl, Iff.rfl⟩,
          ⟨h1, h2⟩, ⟨id, id⟩, ⟨id, id⟩, id, id,
          fun d hd => Or.inr hd, fun d hd => Or.inr hd,
          fun x hx => Or.inr hx, fun x hx => Or.inr hx⟩
      · rw [Entity.add_mention_unc_fresh e m hmem]
        push_neg at hmem
        refine ⟨?_, ?_, ?_, ?_, ?_, ?_, ?_, ?_, ?_, ?_, ?_⟩
        · intro d hd
          exact ⟨Iff.rfl, by simp [mem_insertL, hd]⟩
        · intro x hx
          exact ⟨Iff.rfl, by simp [mem_insertL, hx]⟩
        · refine ⟨?_, by simp [mem_insertL]⟩
          constructor
          · intro hc; exact absurd hc hmem.1
          · intro hc; exact absurd (h1.mpr hc) hmem.1
        · exact ⟨id, fun h => insertL_nodup h⟩
        · exact ⟨id, fun h => insertL_nodup h⟩
        · intro hdisj d hd hd'
          rcases mem_insertL.mp hd' with hd' | rfl
          · exact hdisj d hd hd'
          · exact hmem.1 hd
        · intro hdisj x hx hx'
          rcases mem_insertL.mp hx' with hx' | rfl
          · exact hdisj x hx hx'
          · exact hmem.1 (h1.mpr hx)
        · exact fun d hd => Or.inr hd
        · intro d hd
          rcases mem_insertL.mp hd with hd | rfl
          · exact Or.inr hd
          · exact Or.inl rfl
        · exact fun x hx => Or.inr hx
        · intro x hx
          rcases mem_insertL.mp hx with hx | rfl
          · exact Or.inr hx
          · exact Or.inl rfl
  | false =>
      by_cases hcu : m.dtid ∈ e.mentions_unc
      · rw [Entity.add_mention_cert_unc e m hcu h1 h2]
        refine ⟨?_, ?_, ?_, ?_, ?_, ?_, ?_, ?_, ?_, ?_, ?_⟩
        · intro d hd
          constructor
          · rw [mem_insertL, mem_removeL]
            constructor
            · rintro (⟨hh, _⟩ | rfl)
              · exact hh
              · exact absurd rfl hd
            · exact fun hh => Or.inl ⟨hh, hd⟩
          · rw [mem_removeL]
            constructor
            · exact fun hh => hh.1
            · exact fun hh => ⟨hh, hd⟩
        · intro x hx
          constructor
          · rw [mem_insertL, mem_removeL]
            constructor
            · rintro (⟨hh, _⟩ | rfl)
              · exact hh
              · exact absurd rfl hx
            · exact fun hh => Or.inl ⟨hh, hx⟩
          · rw [mem_removeL]
            constructor
            · exact fun hh => hh.1
            · exact fun hh => ⟨hh, hx⟩
        · constructor
          · simp [mem_insertL]
          · rw [mem_removeL, mem_removeL]
            simp
        · exact ⟨fun h => insertL_nodup (removeL_nodup h), fun h => removeL_nodup h⟩
        · exact ⟨fun h => insertL_nodup (removeL_nodup h), fun h => removeL_nodup h⟩
        · intro hdisj d hd hd'
          rw [mem_removeL] at hd'
          rcases mem_insertL.mp hd with hd | rfl
          · exact hdisj d (mem_removeL.mp hd).1 hd'.1
          · exact hd'.2 rfl
        · intro hdisj x hx hx'
          rw [mem_removeL] at hx'
          rcases mem_insertL.mp hx with hx | rfl
          · exact hdisj x (mem_removeL.mp hx).1 hx'.1
          · exact hx'.2 rfl
        · intro d hd
          rcases mem_insertL.mp hd with hd | rfl
          · exact Or.inr (mem_removeL.mp hd).1
          · exact Or.inl rfl
        · exact fun d hd => Or.inr (mem_removeL.mp hd).1
        · intro x hx
          rcases mem_insertL.mp hx with hx | rfl
          · exact Or.inr (mem_removeL.mp hx).1
          · exact Or.inl rfl
        · exact fun x hx => Or.inr (mem_removeL.mp hx).1
      · rw [Entity.add_mention_cert_notunc e m hcu]
        refine ⟨?_, ?_, ?_, ?_, ?_, ?_, ?_, ?_, ?_, ?_, ?_⟩
        · intro d hd
          exact ⟨by simp [mem_insertL, hd], Iff.rfl⟩
        · intro x hx
          exact ⟨by simp [mem_insertL, hx], Iff.rfl⟩
        · exact ⟨by simp [mem_insertL], h2⟩
        · exact ⟨fun h => insertL_nodup h, id⟩
        · exact ⟨fun h => insertL_nodup h, id⟩
        · intro hdisj d hd hd'
          rcases mem_insertL.mp hd with hd | rfl
          · exact hdisj d hd hd'
          · exact hcu hd'
        · intro hdisj x hx hx'
          rcases mem_insertL.mp hx with hx | rfl
          · exact hdisj x hx hx'
          · exact hcu (h2.mpr hx')
        · intro d hd
          rcases mem_insertL.mp hd with hd | rfl
          · exact Or.inr hd
          · exact Or.inl rfl
        · exact fun d hd => Or.inr hd
        · intro x hx
          rcases mem_insertL.mp hx with hx | rfl
          · exact Or.inr hx
          · exact Or.inl rfl
        · exact fun x hx => Or.inr hx

/-! ### The structural invariant of the document state -/

/-- Structural well-formedness of a document state: table keys are
duplicate-free, entity-to-mention and mention-to-entity links mirror each
other (bidirectional consistency), every eid stored in a mention is live,
every dtid stored in an entity is registered, certain and uncertain links
are mutually exclusive, and all link sets are duplicate-free. -/
def SInv (st : DocState) : Prop :=
  (st.mentions.map (fun m => m.dtid)).Nodup ∧
  (st.entities.map (fun e => e.eid)).Nodup ∧
  (∀ e ∈ st.entities, ∀ m ∈ st.mentions,
      (m.dtid ∈ e.mentions ↔ e.eid ∈ m.eids) ∧
      (m.dtid ∈ e.mentions_unc ↔ e.eid ∈ m.eids_unc)) ∧
  (∀ m ∈ st.mentions,
      (∀ x ∈ m.eids, (st.findEntity x).isSome) ∧
      (∀ x ∈ m.eids_unc, (st.findEntity x).isSome)) ∧
  (∀ e ∈ st.entities,
      (∀ d ∈ e.mentions, (st.findMention d).isSome) ∧
      (∀ d ∈ e.mentions_unc, (st.findMention d).isSome)) ∧
  (∀ e ∈ st.entities, ∀ d ∈ e.mentions, d ∉ e.mentions_unc) ∧
  (∀ m ∈ st.mentions, ∀ x ∈ m.eids, x ∉ m.eids_unc) ∧
  (∀ e ∈ st.entities, e.mentions.Nodup ∧ e.mentions_unc.Nodup) ∧
  (∀ m ∈ st.mentions, m.eids.Nodup ∧ m.eids_unc.Nodup)

theorem DocState.findEntity_isSome_iff (st : DocState) (x : Nat) :
    (st.findEntity x).isSome ↔ x ∈ st.entities.map (fun e => e.eid) := by
  unfold DocState.findEntity
  exact find?_key_isSome_iff (fun y : Entity => y.eid)

theorem DocState.findMention_isSome_iff (st : DocState) (d : Nat) :
    (st.findMention d).isSome ↔ d ∈ st.mentions.map (fun m => m.dtid) := by
  unfold DocState.findMention
  exact find?_key_isSome_iff (fun y : Mention => y.dtid)

theorem findEntity_of_mem {st : DocState} (hnd : (st.entities.map (fun e => e.eid)).Nodup)
    {e : Entity} (he : e ∈ st.entities) : st.findEntity e.eid = some e := by
  unfold DocState.findEntity
  have hs : (st.entities.find? (fun y => y.eid == e.eid)).isSome :=
    (find?_key_isSome_iff (fun y : Entity => y.eid)).mpr (List.mem_map_of_mem _ he)
  rcases Option.isSome_iff_exists.mp hs with ⟨e0, he0⟩
  rw [he0]
  exact congrArg some (find?_key_unique (fun y : Entity => y.eid) hnd he0 he rfl).symm

theorem findMention_of_mem {st : DocState} (hnd : (st.mentions.map (fun m => m.dtid)).Nodup)
    {m : Mention} (hm : m ∈ st.mentions) : st.findMention m.dtid = some m := by
  unfold DocState.findMention
  have hs : (st.mentions.find? (fun y => y.dtid == m.dtid)).isSome :=
    (find?_key_isSome_iff (fun y : Mention => y.dtid)).mpr (List.mem_map_of_mem _ hm)
  rcases Option.isSome_iff_exists.mp hs with ⟨m0, hm0⟩
  rw [hm0]
  exact congrArg some (find?_key_unique (fun y : Mention => y.dtid) hnd hm0 hm rfl).symm

/-- DocState.add_mention preserves the structural invariant, for arbitrary
arguments. -/
theorem sinv_add_mention (st : DocState) (eid dtid : Nat) (unc : Bool) (hinv : SInv st) :
    SInv (st.add_mention eid dtid unc) := by
  obtain ⟨hmnd, hend, hbic, hlive, hek, hedj, hmdj, hesn, hmsn⟩ := hinv
  cases he : st.findEntity eid with
  | none =>
      have : st.add_mention eid dtid unc = st := by
        unfold DocState.add_mention
        rw [he]
      rw [this]
      exact ⟨hmnd, hend, hbic, hlive, hek, hedj, hmdj, hesn, hmsn⟩
  | some e =>
  cases hm : st.findMention dtid with
  | none =>
      have : st.add_mention eid dtid unc = st := by
        unfold DocState.add_mention
        rw [he, hm]
      rw [this]
      exact ⟨hmnd, hend, hbic, hlive, hek, hedj, hmdj, hesn, hmsn⟩
  | some m =>
  obtain ⟨heMem, heKey⟩ := find?_key_mem (fun y : Entity => y.eid) he
  obtain ⟨hmMem, hmKey⟩ := find?_key_mem (fun y : Mention => y.dtid) hm
  obtain ⟨hbic1, hbic2⟩ := hbic e heMem m hmMem
  obtain ⟨hother, hotherx, hpair, hnde, hndm, hdje, hdjm, hsub1, hsub2, hsub3, hsub4⟩ :=
    Entity.add_mention_mem_char e m unc hbic1 hbic2
  obtain ⟨hprojE, hprojD, hprojX, hprojFY, hprojFT⟩ := Entity.add_mention_proj e m unc
  have hst : st.add_mention eid dtid unc =
      (st.setEntity (e.add_mention m unc).1).setMention (e.add_mention m unc).2 :=
    DocState.add_mention_eq st eid dtid unc he hm
  obtain ⟨hfe, hfm, hfex, hfmx, hfsp⟩ := DocState.add_mention_find st eid dtid unc he hm
  set p := e.add_mention m unc with hp
  have hments : (st.add_mention eid dtid unc).mentions = updBy (fun x => x.dtid) p.2 st.mentions := by
    rw [hst]; rfl
  have hents : (st.add_mention eid dtid unc).entities = updBy (fun x => x.eid) p.1 st.entities := by
    rw [hst]; rfl
  -- case split helpers for members of the new tables
  have hentElim : ∀ e0 ∈ (st.add_mention eid dtid unc).entities,
      e0 = p.1 ∨ (e0 ∈ st.entities ∧ e0.eid ≠ e.eid) := by
    intro e0 he0
    rw [hents] at he0
    rcases mem_updBy_elim (fun x : Entity => x.eid) he0 with h | ⟨h1, h2⟩
    · exact Or.inl h
    · exact Or.inr ⟨h1, by rwa [hprojE] at h2⟩
  have hmenElim : ∀ m0 ∈ (st.add_mention eid dtid unc).mentions,
      m0 = p.2 ∨ (m0 ∈ st.mentions ∧ m0.dtid ≠ m.dtid) := by
    intro m0 hm0
    rw [hments] at hm0
    rcases mem_updBy_elim (fun x : Mention => x.dtid) hm0 with h | ⟨h1, h2⟩
    · exact Or.inl h
    · exact Or.inr ⟨h1, by rwa [hprojD] at h2⟩
  refine ⟨?_, ?_, ?_, ?_, ?_, ?_, ?_, ?_, ?_⟩
  · rw [hments, map_key_updBy]; exact hmnd
  · rw [hents, map_key_updBy]; exact hend
  · -- bidirectional consistency
    intro e0 he0 m0 hm0
    rcases hentElim e0 he0 with rfl | ⟨he0m, he0ne⟩
    · rcases hmenElim m0 hm0 with rfl | ⟨hm0m, hm0ne⟩
      · rw [hprojE, hprojD]
        exact hpair
      · have hiff := hother m0.dtid hm0ne
        obtain ⟨hb1, hb2⟩ := hbic e heMem m0 hm0m
        rw [hprojE]
        exact ⟨hiff.1.trans hb1, hiff.2.trans hb2⟩
    · rcases hmenElim m0 hm0 with rfl | ⟨hm0m, hm0ne⟩
      · have hiff := hotherx e0.eid he0ne
        obtain ⟨hb1, hb2⟩ := hbic e0 he0m m hmMem
        rw [hprojD]
        exact ⟨hb1.trans hiff.1.symm, hb2.trans hiff.2.symm⟩
      · exact hbic e0 he0m m0 hm0m
  · -- liveness
    intro m0 hm0
    have hkeys : ∀ x, ((st.add_mention eid dtid unc).findEntity x).isSome ↔
        (st.findEntity x).isSome := by
      intro x
      rw [DocState.findEntity_isSome_iff, DocState.findEntity_isSome_iff, hents, map_key_updBy]
    rcases hmenElim m0 hm0 with rfl | ⟨hm0m, _⟩
    · constructor
      · intro x hx
        rcases hsub3 x hx with rfl | hx'
        · rw [hkeys, heKey, he]; rfl
        · rw [hkeys]
          exact (hlive m hmMem).1 x hx'
      · intro x hx
        rcases hsub4 x hx with rfl | hx'
        · rw [hkeys, heKey, he]; rfl
        · rw [hkeys]
          exact (hlive m hmMem).2 x hx'
    · exact ⟨fun x hx => (hkeys x).mpr ((hlive m0 hm0m).1 x hx),
        fun x hx => (hkeys x).mpr ((hlive m0 hm0m).2 x hx)⟩
  · -- entity link keys registered
    intro e0 he0
    have hkeys : ∀ d, ((st.add_mention eid dtid unc).findMention d).isSome ↔
        (st.findMention d).isSome := by
      intro d
      rw [DocState.findMention_isSome_iff, DocState.findMention_isSome_iff, hments, map_key_updBy]
    rcases hentElim e0 he0 with rfl | ⟨he0m, _⟩
    · constructor
      · intro d hd
        rcases hsub1 d hd with rfl | hd'
        · rw [hkeys, hmKey, hm]; rfl
        · rw [hkeys]
          exact (hek e heMem).1 d hd'
      · intro d hd
        rcases hsub2 d hd with rfl | hd'
        · rw [hkeys, hmKey, hm]; rfl
        · rw [hkeys]
          exact (hek e heMem).2 d hd'
    · exact ⟨fun d hd => (hkeys d).mpr ((hek e0 he0m).1 d hd),
        fun d hd => (hkeys d).mpr ((hek e0 he0m).2 d hd)⟩
  · -- entity-side disjointness
    intro e0 he0
    rcases hentElim e0 he0 with rfl | ⟨he0m, _⟩
    · exact hdje (hedj e heMem)
    · exact hedj e0 he0m
  · -- mention-side disjointness
    intro m0 hm0
    rcases hmenElim m0 hm0 with rfl | ⟨hm0m, _⟩
    · exact hdjm (hmdj m hmMem)
    · exact hmdj m0 hm0m
  · -- entity sets nodup
    intro e0 he0
    rcases hentElim e0 he0 with rfl | ⟨he0m, _⟩
    · exact ⟨hnde.1 (hesn e heMem).1, hnde.2 (hesn e heMem).2⟩
    · exact hesn e0 he0m
  · -- mention sets nodup
    intro m0 hm0
    rcases hmenElim m0 hm0 with rfl | ⟨hm0m, _⟩
    · exact ⟨hndm.1 (hmsn m hmMem).1, hndm.2 (hmsn m hmMem).2⟩
    · exact hmsn m0 hm0m

/-- DocState.remove_mention preserves the structural invariant. -/
theorem sinv_remove_mention (st : DocState) (eid dtid : Nat) (hinv : SInv st) :
    SInv (st.remove_mention eid dtid) := by
  obtain ⟨hmnd, hend, hbic, hlive, hek, hedj, hmdj, hesn, hmsn⟩ := hinv
  cases he : st.findEntity eid with
  | none =>
      have : st.remove_mention eid dtid = st := by
        unfold DocState.remove_mention
        rw [he]
      rw [this]
      exact ⟨hmnd, hend, hbic, hlive, hek, hedj, hmdj, hesn, hmsn⟩
  | some e =>
  cases hm : st.findMention dtid with
  | none =>
      have : st.remove_mention eid dtid = st := by
        unfold DocState.remove_mention
        rw [he, hm]
      rw [this]
      exact ⟨hmnd, hend, hbic, hlive, hek, hedj, hmdj, hesn, hmsn⟩
  | some m =>
  obtain ⟨heMem, heKey⟩ := find?_key_mem (fun y : Entity => y.eid) he
  obtain ⟨hmMem, hmKey⟩ := find?_key_mem (fun y : Mention => y.dtid) hm
  obtain ⟨hbic1, hbic2⟩ := hbic e heMem m hmMem
  have hchar := Entity.remove_mention_char e m hbic1 hbic2
  obtain ⟨hprojE, hprojD, hprojX, hprojFY, hprojFT⟩ := Entity.remove_mention_proj e m
  have hst : st.remove_mention eid dtid =
      (st.setEntity (e.remove_mention m).1).setMention (e.remove_mention m).2 :=
    DocState.remove_mention_eq st eid dtid he hm
  set p := e.remove_mention m with hp
  have hments : (st.remove_mention eid dtid).mentions = updBy (fun x => x.dtid) p.2 st.mentions := by
    rw [hst]; rfl
  have hents : (st.remove_mention eid dtid).entities = updBy (fun x => x.eid) p.1 st.entities := by
    rw [hst]; rfl
  have hp1 : p.1 = { e with mentions := removeL m.dtid e.mentions, mentions_unc := removeL m.dtid e.mentions_unc } := by rw [hchar]
  have hp2 : p.2 = { m with eids := removeL e.eid m.eids, eids_unc := removeL e.eid m.eids_unc } := by rw [hchar]
  have hentElim : ∀ e0 ∈ (st.remove_mention eid dtid).entities,
      e0 = p.1 ∨ (e0 ∈ st.entities ∧ e0.eid ≠ e.eid) := by
    intro e0 he0
    rw [hents] at he0
    rcases mem_updBy_elim (fun x : Entity => x.eid) he0 with h | ⟨h1, h2⟩
    · exact Or.inl h
    · exact Or.inr ⟨h1, by rwa [hprojE] at h2⟩
  have hmenElim : ∀ m0 ∈ (st.remove_mention eid dtid).mentions,
      m0 = p.2 ∨ (m0 ∈ st.mentions ∧ m0.dtid ≠ m.dtid) := by
    intro m0 hm0
    rw [hments] at hm0
    rcases mem_updBy_elim (fun x : Mention => x.dtid) hm0 with h | ⟨h1, h2⟩
    · exact Or.inl h
    · exact Or.inr ⟨h1, by rwa [hprojD] at h2⟩
  have hkeysE : ∀ x, ((st.remove_mention eid dtid).findEntity x).isSome ↔
      (st.findEntity x).isSome := by
    intro x
    rw [DocState.findEntity_isSome_iff, DocState.findEntity_isSome_iff, hents, map_key_updBy]
  have hkeysM : ∀ d, ((st.remove_mention eid dtid).findMention d).isSome ↔
      (st.findMention d).isSome := by
    intro d
    rw [DocState.findMention_isSome_iff, DocState.findMention_isSome_iff, hments, map_key_updBy]
  refine ⟨?_, ?_, ?_, ?_, ?_, ?_, ?_, ?_, ?_⟩
  · rw [hments, map_key_updBy]; exact hmnd
  · rw [hents, map_key_updBy]; exact hend
  · intro e0 he0 m0 hm0
    rcases hentElim e0 he0 with rfl | ⟨he0m, he0ne⟩
    · rcases hmenElim m0 hm0 with rfl | ⟨hm0m, hm0ne⟩
      · rw [hp1, hp2]
        simp only [mem_removeL]
        constructor
        · constructor
          · rintro ⟨hd, hdne⟩
            exact ⟨hbic1.mp hd, fun hh => hdne rfl⟩
          · rintro ⟨hx, hxne⟩
            exact ⟨hbic1.mpr hx, fun hh => hxne rfl⟩
        · constructor
          · rintro ⟨hd, hdne⟩
            exact ⟨hbic2.mp hd, fun hh => hdne rfl⟩
          · rintro ⟨hx, hxne⟩
            exact ⟨hbic2.mpr hx, fun hh => hxne rfl⟩
      · obtain ⟨hb1, hb2⟩ := hbic e heMem m0 hm0m
        rw [hp1]
        simp only [mem_removeL]
        constructor
        · constructor
          · rintro ⟨hd, _⟩
            exact hb1.mp hd
          · intro hx
            exact ⟨hb1.mpr hx, hm0ne⟩
        · constructor
          · rintro ⟨hd, _⟩
            exact hb2.mp hd
          · intro hx
            exact ⟨hb2.mpr hx, hm0ne⟩
    · rcases hmenElim m0 hm0 with rfl | ⟨hm0m, hm0ne⟩
      · obtain ⟨hb1, hb2⟩ := hbic e0 he0m m hmMem
        rw [hp2]
        simp only [mem_removeL]
        constructor
        · constructor
          · intro hd
            exact ⟨hb1.mp hd, he0ne⟩
          · rintro ⟨hx, _⟩
            exact hb1.mpr hx
        · constructor
          · intro hd
            exact ⟨hb2.mp hd, he0ne⟩
          · rintro ⟨hx, _⟩
            exact hb2.mpr hx
      · exact hbic e0 he0m m0 hm0m
  · intro m0 hm0
    rcases hmenElim m0 hm0 with rfl | ⟨hm0m, _⟩
    · rw [hp2]
      constructor
      · intro x hx
        rw [hkeysE]
        exact (hlive m hmMem).1 x (mem_removeL.mp hx).1
      · intro x hx
        rw [hkeysE]
        exact (hlive m hmMem).2 x (mem_removeL.mp hx).1
    · exact ⟨fun x hx => (hkeysE x).mpr ((hlive m0 hm0m).1 x hx),
        fun x hx => (hkeysE x).mpr ((hlive m0 hm0m).2 x hx)⟩
  · intro e0 he0
    rcases hentElim e0 he0 with rfl | ⟨he0m, _⟩
    · rw [hp1]
      constructor
      · intro d hd
        rw [hkeysM]
        exact (hek e heMem).1 d (mem_removeL.mp hd).1
      · intro d hd
        rw [hkeysM]
        exact (hek e heMem).2 d (mem_removeL.mp hd).1
    · exact ⟨fun d hd => (hkeysM d).mpr ((hek e0 he0m).1 d hd),
        fun d hd => (hkeysM d).mpr ((hek e0 he0m).2 d hd)⟩
  · intro e0 he0
    rcases hentElim e0 he0 with rfl | ⟨he0m, _⟩
    · rw [hp1]
      intro d hd hd'
      exact hedj e heMem d (mem_removeL.mp hd).1 (mem_removeL.mp hd').1
    · exact hedj e0 he0m
  · intro m0 hm0
    rcases hmenElim m0 hm0 with rfl | ⟨hm0m, _⟩
    · rw [hp2]
      intro x hx hx'
      exact hmdj m hmMem x (mem_removeL.mp hx).1 (mem_removeL.mp hx').1
    · exact hmdj m0 hm0m
  · intro e0 he0
    rcases hentElim e0 he0 with rfl | ⟨he0m, _⟩
    · rw [hp1]
      exact ⟨removeL_nodup (hesn e heMem).1, removeL_nodup (hesn e heMem).2⟩
    · exact hesn e0 he0m
  · intro m0 hm0
    rcases hmenElim m0 hm0 with rfl | ⟨hm0m, _⟩
    · rw [hp2]
      exact ⟨removeL_nodup (hmsn m hmMem).1, removeL_nodup (hmsn m hmMem).2⟩
    · exact hmsn m0 hm0m

/-! ### Freshness of allocated entity ids -/

theorem le_foldl_max (l : List Nat) (a : Nat) : a ≤ l.foldl max a := by
  induction l generalizing a with
  | nil => exact Nat.le_refl a
  | cons b l ih =>
      exact Nat.le_trans (Nat.le_max_left a b) (ih (max a b))

theorem mem_le_foldl_max (l : List Nat) (a x : Nat) (h : x ∈ l) : x ≤ l.foldl max a := by
  induction l generalizing a with
  | nil => simp at h
  | cons b l ih =>
      rcases List.mem_cons.mp h with rfl | h
      · exact Nat.le_trans (Nat.le_max_right a x) (le_foldl_max l (max a x))
      · exact ih (max a b) h

/-- Every eid allocation of Document._create_entity avoids the eids of the
currently live entities. -/
theorem allocEid_fresh (eids : List Nat) (req : Option Int) : allocEid eids req ∉ eids := by
  have hmax : ∀ x ∈ eids, x ≤ eids.foldl max 0 := fun x hx => mem_le_foldl_max eids 0 x hx
  have hfresh : (eids.foldl max 0) + 1 ∉ eids := by
    intro hmem
    exact absurd (hmax _ hmem) (by simp)
  unfold allocEid
  cases req with
  | none =>
      dsimp only
      by_cases hemp : eids.isEmpty
      · rw [if_pos hemp]
        intro hmem
        rw [List.isEmpty_iff] at hemp
        rw [hemp] at hmem
        simp at hmem
      · rw [if_neg hemp]
        exact hfresh
  | some r =>
      dsimp only
      by_cases hcol : 0 ≤ r ∧ r.toNat ∈ eids
      · rw [if_pos hcol]
        exact hfresh
      · rw [if_neg hcol]
        by_cases hneg : r < 0
        · rw [if_pos hneg]
          by_cases hemp : eids.isEmpty
          · rw [if_pos hemp]
            intro hmem
            rw [List.isEmpty_iff] at hemp
            rw [hemp] at hmem
            simp at hmem
          · rw [if_neg hemp]
            exact hfresh
        · rw [if_neg hneg]
          intro hmem
          exact hcol ⟨Int.not_lt.mp hneg, hmem⟩

/-- DocState.create_entity preserves the structural invariant. -/
theorem sinv_create_entity (st : DocState) (exo : Option String) (req : Option Int)
    (hinv : SInv st) : SInv (st.create_entity exo req).1 := by
  obtain ⟨hmnd, hend, hbic, hlive, hek, hedj, hmdj, hesn, hmsn⟩ := hinv
  cases hd : st.dedupEntity exo with
  | some e =>
      have : (st.create_entity exo req).1 = st := by
        unfold DocState.create_entity
        rw [hd]
      rw [this]
      exact ⟨hmnd, hend, hbic, hlive, hek, hedj, hmdj, hesn, hmsn⟩
  | none =>
  set eid := allocEid (st.entities.map (fun e => e.eid)) req with heid
  have hfresh : eid ∉ st.entities.map (fun e => e.eid) := allocEid_fresh _ _
  have hstep : (st.create_entity exo req).1 =
      { st with entities := st.entities ++ [⟨eid, exo, [], [], none, none⟩] } := by
    unfold DocState.create_entity
    rw [hd]
  rw [hstep]
  have hkeysE : ∀ x, (({ st with entities := st.entities ++ [⟨eid, exo, [], [], none, none⟩] } : DocState).findEntity x).isSome ↔ (x ∈ st.entities.map (fun e => e.eid) ∨ x = eid) := by
    intro x
    rw [DocState.findEntity_isSome_iff]
    simp
  refine ⟨hmnd, ?_, ?_, ?_, ?_, ?_, hmdj, ?_, hmsn⟩
  · rw [List.map_append, List.nodup_append]
    refine ⟨hend, List.nodup_singleton _, ?_⟩
    intro x hx hx2
    simp only [List.map_cons, List.map_nil, List.mem_cons, List.not_mem_nil, or_false] at hx2
    subst hx2
    exact hfresh hx
  · intro e0 he0 m0 hm0
    rcases List.mem_append.mp he0 with he0 | he0
    · exact hbic e0 he0 m0 hm0
    · simp only [List.mem_singleton] at he0
      subst he0
      have hnotin : eid ∉ m0.eids ∧ eid ∉ m0.eids_unc := by
        constructor
        · intro hmem
          have := (hlive m0 hm0).1 eid hmem
          rw [DocState.findEntity_isSome_iff] at this
          exact hfresh this
        · intro hmem
          have := (hlive m0 hm0).2 eid hmem
          rw [DocState.findEntity_isSome_iff] at this
          exact hfresh this
      constructor
      · constructor
        · intro hh
          simp at hh
        · intro hh
          exact absurd hh hnotin.1
      · constructor
        · intro hh
          simp at hh
        · intro hh
          exact absurd hh hnotin.2
  · intro m0 hm0
    constructor
    · intro x hx
      rw [hkeysE]
      have := (hlive m0 hm0).1 x hx
      rw [DocState.findEntity_isSome_iff] at this
      exact Or.inl this
    · intro x hx
      rw [hkeysE]
      have := (hlive m0 hm0).2 x hx
      rw [DocState.findEntity_isSome_iff] at this
      exact Or.inl this
  · intro e0 he0
    rcases List.mem_append.mp he0 with he0 | he0
    · exact hek e0 he0
    · simp only [List.mem_singleton] at he0
      subst he0
      constructor
      · intro d hd
        simp at hd
      · intro d hd
        simp at hd
  · intro e0 he0
    rcases List.mem_append.mp he0 with he0 | he0
    · exact hedj e0 he0
    · simp only [List.mem_singleton] at he0
      subst he0
      intro d hd
      simp at hd
  · intro e0 he0
    rcases List.mem_append.mp he0 with he0 | he0
    · exact hesn e0 he0
    · simp only [List.mem_singleton] at he0
      subst he0
      exact ⟨List.nodup_nil, List.nodup_nil⟩

/-- Appending a freshly created mention with empty link sets preserves the
structural invariant. -/
theorem sinv_append_mention (st : DocState) (bp : BPInfo)
    (hex : ¬ (st.findMention bp.dtid).isSome) (hinv : SInv st) :
    SInv { st with mentions := st.mentions ++ [⟨bp.dtid, bp.featYougen, bp.featTaigen, [], []⟩] } := by
  obtain ⟨hmnd, hend, hbic, hlive, hek, hedj, hmdj, hesn, hmsn⟩ := hinv
  have hfreshd : bp.dtid ∉ st.mentions.map (fun m => m.dtid) := by
    intro hmem
    exact hex ((DocState.findMention_isSome_iff st bp.dtid).mpr hmem)
  have hkeysM : ∀ d, (({ st with mentions := st.mentions ++ [⟨bp.dtid, bp.featYougen, bp.featTaigen, [], []⟩] } : DocState).findMention d).isSome ↔ (d ∈ st.mentions.map (fun m => m.dtid) ∨ d = bp.dtid) := by
    intro d
    rw [DocState.findMention_isSome_iff]
    simp
  refine ⟨?_, hend, ?_, ?_, ?_, hedj, ?_, hesn, ?_⟩
  · rw [List.map_append, List.nodup_append]
    refine ⟨hmnd, List.nodup_singleton _, ?_⟩
    intro x hx hx2
    simp only [List.map_cons, List.map_nil, List.mem_cons, List.not_mem_nil, or_false] at hx2
    subst hx2
    exact hfreshd hx
  · intro e0 he0 m0 hm0
    rcases List.mem_append.mp hm0 with hm0 | hm0
    · exact hbic e0 he0 m0 hm0
    · simp only [List.mem_singleton] at hm0
      subst hm0
      constructor
      · constructor
        · intro hh
          exact absurd ((DocState.findMention_isSome_iff st bp.dtid).mp ((hek e0 he0).1 _ hh)) hfreshd
        · intro hh
          simp at hh
      · constructor
        · intro hh
          exact absurd ((DocState.findMention_isSome_iff st bp.dtid).mp ((hek e0 he0).2 _ hh)) hfreshd
        · intro hh
          simp at hh
  · intro m0 hm0
    rcases List.mem_append.mp hm0 with hm0 | hm0
    · exact hlive m0 hm0
    · simp only [List.mem_singleton] at hm0
      subst hm0
      constructor
      · intro x hx
        simp at hx
      · intro x hx
        simp at hx
  · intro e0 he0
    constructor
    · intro d hd
      rw [hkeysM]
      exact Or.inl ((DocState.findMention_isSome_iff st d).mp ((hek e0 he0).1 d hd))
    · intro d hd
      rw [hkeysM]
      exact Or.inl ((DocState.findMention_isSome_iff st d).mp ((hek e0 he0).2 d hd))
  · intro m0 hm0
    rcases List.mem_append.mp hm0 with hm0 | hm0
    · exact hmdj m0 hm0
    · simp only [List.mem_singleton] at hm0
      subst hm0
      intro x hx
      simp at hx
  · intro m0 hm0
    rcases List.mem_append.mp hm0 with hm0 | hm0
    · exact hmsn m0 hm0
    · simp only [List.mem_singleton] at hm0
      subst hm0
      exact ⟨List.nodup_nil, List.nodup_nil⟩

theorem DocState.create_mention_eq (st : DocState) (bp : BPInfo)
    (hex : ¬ (st.findMention bp.dtid).isSome) :
    st.create_mention bp =
      (({ st with mentions := st.mentions ++ [⟨bp.dtid, bp.featYougen, bp.featTaigen, [], []⟩] } : DocState).create_entity none none).1.add_mention (({ st with mentions := st.mentions ++ [⟨bp.dtid, bp.featYougen, bp.featTaigen, [], []⟩] } : DocState).create_entity none none).2 bp.dtid false := by
  unfold DocState.create_mention
  rw [if_neg hex]

/-- DocState.create_mention preserves the structural invariant. -/
theorem sinv_create_mention (st : DocState) (bp : BPInfo) (hinv : SInv st) :
    SInv (st.create_mention bp) := by
  by_cases hex : (st.findMention bp.dtid).isSome
  · have : st.create_mention bp = st := by
      unfold DocState.create_mention
      rw [if_pos hex]
    rw [this]
    exact hinv
  · rw [DocState.create_mention_eq st bp hex]
    exact sinv_add_mention _ _ _ _ (sinv_create_entity _ _ _ (sinv_append_mention st bp hex hinv))

/-! ### Effect lemmas for remove_mention and delete_entity -/

theorem DocState.remove_mention_findEntity_ne (st : DocState) (eid dtid x : Nat) (h : x ≠ eid) :
    (st.remove_mention eid dtid).findEntity x = st.findEntity x := by
  cases he : st.findEntity eid with
  | none =>
      have : st.remove_mention eid dtid = st := by
        unfold DocState.remove_mention
        rw [he]
      rw [this]
  | some e =>
  cases hm : st.findMention dtid with
  | none =>
      have : st.remove_mention eid dtid = st := by
        unfold DocState.remove_mention
        rw [he, hm]
      rw [this]
  | some m =>
      exact (DocState.remove_mention_find st eid dtid he hm).2.2.1 x h

theorem DocState.remove_mention_specialArgs (st : DocState) (eid dtid : Nat) :
    (st.remove_mention eid dtid).specialArgs = st.specialArgs := by
  cases he : st.findEntity eid with
  | none =>
      have : st.remove_mention eid dtid = st := by
        unfold DocState.remove_mention
        rw [he]
      rw [this]
  | some e =>
  cases hm : st.findMention dtid with
  | none =>
      have : st.remove_mention eid dtid = st := by
        unfold DocState.remove_mention
        rw [he, hm]
      rw [this]
  | some m =>
      exact (DocState.remove_mention_find st eid dtid he hm).2.2.2.2

theorem fold_remove_findEntity_ne (L : List Nat) (st : DocState) (eid x : Nat) (h : x ≠ eid) :
    ((L.foldl (fun s d => s.remove_mention eid d) st).findEntity x) = st.findEntity x := by
  induction L generalizing st with
  | nil => rfl
  | cons d L ih =>
      rw [List.foldl_cons, ih, DocState.remove_mention_findEntity_ne st eid d x h]

theorem fold_remove_specialArgs (L : List Nat) (st : DocState) (eid : Nat) :
    ((L.foldl (fun s d => s.remove_mention eid d) st).specialArgs) = st.specialArgs := by
  induction L generalizing st with
  | nil => rfl
  | cons d L ih =>
      rw [List.foldl_cons, ih, DocState.remove_mention_specialArgs]

theorem fold_remove_sinv (L : List Nat) (st : DocState) (eid : Nat) (hinv : SInv st) :
    SInv (L.foldl (fun s d => s.remove_mention eid d) st) := by
  induction L generalizing st with
  | nil => exact hinv
  | cons d L ih =>
      rw [List.foldl_cons]
      exact ih _ (sinv_remove_mention st eid d hinv)

/-- After folding remove_mention over a superset of the entity's current
link sets, the entity's link sets are empty. -/
theorem fold_remove_strips (L : List Nat) (st : DocState) (eid : Nat) (e : Entity)
    (hinv : SInv st) (he : st.findEntity eid = some e)
    (hsub : ∀ d, (d ∈ e.mentions ∨ d ∈ e.mentions_unc) → d ∈ L) :
    ∃ e1, (L.foldl (fun s d => s.remove_mention eid d) st).findEntity eid = some e1 ∧
      e1.mentions = [] ∧ e1.mentions_unc = [] := by
  induction L generalizing st e with
  | nil =>
      refine ⟨e, he, ?_, ?_⟩
      · apply List.eq_nil_iff_forall_not_mem.mpr
        intro d hd
        exact absurd (hsub d (Or.inl hd)) (List.not_mem_nil d)
      · apply List.eq_nil_iff_forall_not_mem.mpr
        intro d hd
        exact absurd (hsub d (Or.inr hd)) (List.not_mem_nil d)
  | cons d L ih =>
      rw [List.foldl_cons]
      obtain ⟨hmnd, hend, hbic, hlive, hek, hedj, hmdj, hesn, hmsn⟩ := hinv
      obtain ⟨heMem, heKey⟩ := find?_key_mem (fun y : Entity => y.eid) he
      cases hm : st.findMention d with
      | none =>
          have hnoop : st.remove_mention eid d = st := by
            unfold DocState.remove_mention
            rw [he, hm]
          rw [hnoop]
          refine ih st e ⟨hmnd, hend, hbic, hlive, hek, hedj, hmdj, hesn, hmsn⟩ he ?_
          intro d' hd'
          have hd'L : d' ∈ d :: L := hsub d' hd'
          rcases List.mem_cons.mp hd'L with rfl | hmem
          · exfalso
            rcases hd' with hd' | hd'
            · have hsome := (hek e heMem).1 _ hd'
              rw [hm] at hsome
              simp at hsome
            · have hsome := (hek e heMem).2 _ hd'
              rw [hm] at hsome
              simp at hsome
          · exact hmem
      | some m =>
          obtain ⟨hbic1, hbic2⟩ := hbic e heMem m (find?_key_mem (fun y : Mention => y.dtid) hm).1
          have hmKey : m.dtid = d := (find?_key_mem (fun y : Mention => y.dtid) hm).2
          have hfind := (DocState.remove_mention_find st eid d he hm).1
          have hchar := Entity.remove_mention_char e m hbic1 hbic2
          refine ih (st.remove_mention eid d) (e.remove_mention m).1
            (sinv_remove_mention st eid d ⟨hmnd, hend, hbic, hlive, hek, hedj, hmdj, hesn, hmsn⟩)
            hfind ?_
          intro d' hd'
          rw [hchar] at hd'
          simp only [mem_removeL, hmKey] at hd'
          rcases hd' with ⟨hd', hne⟩ | ⟨hd', hne⟩
          · rcases List.mem_cons.mp (hsub d' (Or.inl hd')) with rfl | hmem
            · exact absurd rfl hne
            · exact hmem
          · rcases List.mem_cons.mp (hsub d' (Or.inr hd')) with rfl | hmem
            · exact absurd rfl hne
            · exact hmem

theorem DocState.delete_entity_find_self (st : DocState) (eid : Nat) :
    (st.delete_entity eid).findEntity eid = none := by
  cases he : st.findEntity eid with
  | none =>
      have : st.delete_entity eid = st := by
        unfold DocState.delete_entity
        rw [he]
      rw [this]
      exact he
  | some e =>
      have : st.delete_entity eid = { ((e.mentions ++ e.mentions_unc).foldl (fun s d => s.remove_mention eid d) st) with entities := ((e.mentions ++ e.mentions_unc).foldl (fun s d => s.remove_mention eid d) st).entities.filter (fun x => x.eid != eid) } := by
        unfold DocState.delete_entity
        rw [he]
      rw [this]
      exact find?_filter_self (fun y : Entity => y.eid)

theorem DocState.delete_entity_find_ne (st : DocState) (eid x : Nat) (h : x ≠ eid) :
    (st.delete_entity eid).findEntity x = st.findEntity x := by
  cases he : st.findEntity eid with
  | none =>
      have : st.delete_entity eid = st := by
        unfold DocState.delete_entity
        rw [he]
      rw [this]
  | some e =>
      have hdel : st.delete_entity eid = { ((e.mentions ++ e.mentions_unc).foldl (fun s d => s.remove_mention eid d) st) with entities := ((e.mentions ++ e.mentions_unc).foldl (fun s d => s.remove_mention eid d) st).entities.filter (fun x => x.eid != eid) } := by
        unfold DocState.delete_entity
        rw [he]
      rw [hdel]
      have hfil : ({ ((e.mentions ++ e.mentions_unc).foldl (fun s d => s.remove_mention eid d) st) with entities := ((e.mentions ++ e.mentions_unc).foldl (fun s d => s.remove_mention eid d) st).entities.filter (fun x => x.eid != eid) } : DocState).findEntity x = ((e.mentions ++ e.mentions_unc).foldl (fun s d => s.remove_mention eid d) st).findEntity x :=
        find?_filter_ne (fun y : Entity => y.eid) h
      rw [hfil]
      exact fold_remove_findEntity_ne _ st eid x h

theorem DocState.delete_entity_specialArgs (st : DocState) (eid : Nat) :
    (st.delete_entity eid).specialArgs = st.specialArgs := by
  cases he : st.findEntity eid with
  | none =>
      have : st.delete_entity eid = st := by
        unfold DocState.delete_entity
        rw [he]
      rw [this]
  | some e =>
      have hdel : st.delete_entity eid = { ((e.mentions ++ e.mentions_unc).foldl (fun s d => s.remove_mention eid d) st) with entities := ((e.mentions ++ e.mentions_unc).foldl (fun s d => s.remove_mention eid d) st).entities.filter (fun x => x.eid != eid) } := by
        unfold DocState.delete_entity
        rw [he]
      rw [hdel]
      exact fold_remove_specialArgs _ st eid

/-- DocState.delete_entity preserves the structural invariant. -/
theorem sinv_delete_entity (st : DocState) (eid : Nat) (hinv : SInv st) :
    SInv (st.delete_entity eid) := by
  cases he : st.findEntity eid with
  | none =>
      have : st.delete_entity eid = st := by
        unfold DocState.delete_entity
        rw [he]
      rw [this]
      exact hinv
  | some e =>
  have hdel : st.delete_entity eid = { ((e.mentions ++ e.mentions_unc).foldl (fun s d => s.remove_mention eid d) st) with entities := ((e.mentions ++ e.mentions_unc).foldl (fun s d => s.remove_mention eid d) st).entities.filter (fun x => x.eid != eid) } := by
    unfold DocState.delete_entity
    rw [he]
  set st1 := (e.mentions ++ e.mentions_unc).foldl (fun s d => s.remove_mention eid d) st with hst1
  have hinv1 : SInv st1 := fold_remove_sinv _ st eid hinv
  have hstrip : ∃ e1, st1.findEntity eid = some e1 ∧ e1.mentions = [] ∧ e1.mentions_unc = [] := by
    apply fold_remove_strips _ st eid e hinv he
    intro d hd
    rcases hd with hd | hd
    · exact List.mem_append.mpr (Or.inl hd)
    · exact List.mem_append.mpr (Or.inr hd)
  obtain ⟨e1, he1, he1m, he1u⟩ := hstrip
  obtain ⟨hmnd1, hend1, hbic1, hlive1, hek1, hedj1, hmdj1, hesn1, hmsn1⟩ := hinv1
  obtain ⟨he1Mem, he1Key⟩ := find?_key_mem (fun y : Entity => y.eid) he1
  rw [hdel]
  have hfilsub : ∀ e0 ∈ st1.entities.filter (fun x => x.eid != eid), e0 ∈ st1.entities ∧ e0.eid ≠ eid := by
    intro e0 he0
    refine ⟨List.mem_of_mem_filter he0, ?_⟩
    have := List.of_mem_filter he0
    simpa using this
  have hnotin : ∀ m0 ∈ st1.mentions, eid ∉ m0.eids ∧ eid ∉ m0.eids_unc := by
    intro m0 hm0
    obtain ⟨hb1, hb2⟩ := hbic1 e1 he1Mem m0 hm0
    rw [he1Key] at hb1 hb2
    constructor
    · intro hmem
      have := hb1.mpr hmem
      rw [he1m] at this
      simp at this
    · intro hmem
      have := hb2.mpr hmem
      rw [he1u] at this
      simp at this
  have hkeysE : ∀ x, x ≠ eid → (({ st1 with entities := st1.entities.filter (fun x => x.eid != eid) } : DocState).findEntity x) = st1.findEntity x := by
    intro x hx
    exact find?_filter_ne (fun y : Entity => y.eid) hx
  refine ⟨hmnd1, ?_, ?_, ?_, ?_, ?_, hmdj1, ?_, hmsn1⟩
  · have hsub : List.Sublist ((st1.entities.filter (fun x => x.eid != eid)).map (fun e => e.eid)) (st1.entities.map (fun e => e.eid)) :=
      (List.filter_sublist _).map _
    exact hend1.sublist hsub
  · intro e0 he0 m0 hm0
    exact hbic1 e0 (hfilsub e0 he0).1 m0 hm0
  · intro m0 hm0
    constructor
    · intro x hx
      have hxne : x ≠ eid := fun hh => (hnotin m0 hm0).1 (hh ▸ hx)
      rw [hkeysE x hxne]
      exact (hlive1 m0 hm0).1 x hx
    · intro x hx
      have hxne : x ≠ eid := fun hh => (hnotin m0 hm0).2 (hh ▸ hx)
      rw [hkeysE x hxne]
      exact (hlive1 m0 hm0).2 x hx
  · intro e0 he0
    exact hek1 e0 (hfilsub e0 he0).1
  · intro e0 he0
    exact hedj1 e0 (hfilsub e0 he0).1
  · intro e0 he0
    exact hesn1 e0 (hfilsub e0 he0).1

/-- Overwriting the exophor of a live entity (the adoption step of the
merge) preserves the structural invariant. -/
theorem sinv_set_exophor (st : DocState) {eid : Nat} {e0 : Entity} (v : Option String)
    (hfind : st.findEntity eid = some e0) (hinv : SInv st) :
    SInv (st.setEntity { e0 with exophor := v }) := by
  obtain ⟨hmnd, hend, hbic, hlive, hek, hedj, hmdj, hesn, hmsn⟩ := hinv
  obtain ⟨heMem, heKey⟩ := find?_key_mem (fun y : Entity => y.eid) hfind
  have hents : (st.setEntity { e0 with exophor := v }).entities =
      updBy (fun x => x.eid) ({ e0 with exophor := v }) st.entities := rfl
  have hmen : (st.setEntity { e0 with exophor := v }).mentions = st.mentions := rfl
  have hentElim : ∀ e1 ∈ (st.setEntity { e0 with exophor := v }).entities,
      e1 = { e0 with exophor := v } ∨ e1 ∈ st.entities := by
    intro e1 he1
    rw [hents] at he1
    rcases mem_updBy_elim (fun x : Entity => x.eid) he1 with h | ⟨h1, _⟩
    · exact Or.inl h
    · exact Or.inr h1
  have hkeysE : ∀ x, ((st.setEntity { e0 with exophor := v }).findEntity x).isSome ↔
      (st.findEntity x).isSome := by
    intro x
    rw [DocState.findEntity_isSome_iff, DocState.findEntity_isSome_iff, hents, map_key_updBy]
  refine ⟨hmnd, ?_, ?_, ?_, ?_, ?_, hmdj, ?_, hmsn⟩
  · rw [hents, map_key_updBy]
    exact hend
  · intro e1 he1 m0 hm0
    rw [hmen] at hm0
    rcases hentElim e1 he1 with rfl | he1m
    · exact hbic e0 heMem m0 hm0
    · exact hbic e1 he1m m0 hm0
  · intro m0 hm0
    rw [hmen] at hm0
    exact ⟨fun x hx => (hkeysE x).mpr ((hlive m0 hm0).1 x hx),
      fun x hx => (hkeysE x).mpr ((hlive m0 hm0).2 x hx)⟩
  · intro e1 he1
    rcases hentElim e1 he1 with rfl | he1m
    · exact hek e0 heMem
    · exact hek e1 he1m
  · intro e1 he1
    rcases hentElim e1 he1 with rfl | he1m
    · exact hedj e0 heMem
    · exact hedj e1 he1m
  · intro e1 he1
    rcases hentElim e1 he1 with rfl | he1m
    · exact hesn e0 heMem
    · exact hesn e1 he1m

/-- Changing only the special-argument list preserves the structural
invariant and is invisible to it. -/
theorem sinv_set_specialArgs (st : DocState) (l : List Nat) (hinv : SInv st) :
    SInv { st with specialArgs := l } :=
  hinv

theorem fold_add_sinv (L : List Nat) (s : DocState) (seEid teEid : Nat) (h : SInv s) :
    SInv (L.foldl (fun s d =>
      let unc : Bool :=
        match s.findMention d with
        | some tm => tm.is_uncertain_to teEid
        | none => true
      s.add_mention seEid d unc) s) := by
  induction L generalizing s with
  | nil => exact h
  | cons d L ih =>
      rw [List.foldl_cons]
      exact ih _ (sinv_add_mention _ _ _ _ h)

/-- DocState.merge_entities preserves the structural invariant, for
arbitrary arguments. -/
theorem sinv_merge (st : DocState) (srcDtid : Nat) (tgtDtid : Option Nat) (seEid teEid : Nat)
    (unc : Bool) (hinv : SInv st) :
    SInv (st.merge_entities srcDtid tgtDtid seEid teEid unc) := by
  have hst1 : ∀ b : Bool, SInv (match tgtDtid with
      | some td => st.add_mention seEid td b
      | none => st) := by
    intro b
    cases tgtDtid with
    | none => exact hinv
    | some td => exact sinv_add_mention _ _ _ _ hinv
  unfold DocState.merge_entities
  dsimp only
  by_cases hse : seEid = teEid
  · rw [if_pos hse]
    split
    · exact hinv
    · split
      · split
        · exact sinv_add_mention _ _ _ _ (hst1 _)
        · exact sinv_add_mention _ _ _ _ hinv
      · split
        · exact hst1 _
        · exact hinv
  · rw [if_neg hse]
    split
    · exact sinv_add_mention _ _ _ _ (hst1 _)
    · split
      next se2 te2 hse2 hte2 =>
        split
        · exact sinv_add_mention _ _ _ _ (hst1 _)
        · refine sinv_delete_entity _ _ (sinv_set_specialArgs _ _ (fold_add_sinv _ _ _ _ ?_))
          split
          · exact sinv_set_exophor _ te2.exophor hse2 (sinv_add_mention _ _ _ _ (hst1 _))
          · exact sinv_add_mention _ _ _ _ (hst1 _)
      next h2 => exact sinv_add_mention _ _ _ _ (hst1 _)

/-- DocState.add_special_arg preserves the structural invariant. -/
theorem sinv_add_special_arg (st : DocState) (eid : Nat) (hinv : SInv st) :
    SInv (st.add_special_arg eid) :=
  hinv

/-! ### The singleton-exophor invariant -/

/-- The (eid, exophor) projection of the entity table. -/
def exoMap (st : DocState) : List (Nat × Option String) :=
  st.entities.map (fun e => (e.eid, e.exophor))

/-- At most one live entity carries any given truthy non-productive exophor
label. -/
def ExoOK (st : DocState) : Prop :=
  ∀ p1 ∈ exoMap st, ∀ p2 ∈ exoMap st, ∀ s : String,
    p1.2 = some s → p2.2 = some s → s ≠ "" → s ∉ productiveExophors → p1.1 = p2.1

theorem exoMap_updBy {l : List Entity} (hnd : (l.map (fun e => e.eid)).Nodup) {v e0 : Entity}
    (hfind : l.find? (fun y => y.eid == v.eid) = some e0) (hexo : v.exophor = e0.exophor) :
    (updBy (fun x : Entity => x.eid) v l).map (fun e => (e.eid, e.exophor)) =
      l.map (fun e => (e.eid, e.exophor)) := by
  induction l with
  | nil => rfl
  | cons a l ih =>
      simp only [List.map_cons, List.nodup_cons] at hnd
      rw [updBy_cons, List.map_cons, List.map_cons]
      by_cases ha : a.eid = v.eid
      · rw [List.find?_cons_of_pos _ (by simpa using ha)] at hfind
        have he0 : e0 = a := (Option.some.inj hfind).symm
        subst he0
        rw [if_pos ha]
        have htail : updBy (fun x : Entity => x.eid) v l = l := by
          apply updBy_eq_of_find?_none
          cases hcase : l.find? (fun y => y.eid == v.eid) with
          | none => rfl
          | some w =>
              exfalso
              obtain ⟨hwmem, hwkey⟩ := find?_key_mem (fun y : Entity => y.eid) hcase
              exact hnd.1 (by rw [ha, ← hwkey]; exact List.mem_map_of_mem _ hwmem)
        rw [htail]
        have : (v.eid, v.exophor) = (e0.eid, e0.exophor) := by
          rw [hexo]
          have : v.eid = e0.eid := ha.symm
          rw [this]
        rw [this]
      · rw [List.find?_cons_of_neg _ (by simpa using ha)] at hfind
        rw [if_neg ha, ih hnd.2 hfind]

theorem exoMap_add_mention (st : DocState) (eid dtid : Nat) (u : Bool)
    (hnd : (st.entities.map (fun e => e.eid)).Nodup) :
    exoMap (st.add_mention eid dtid u) = exoMap st := by
  cases he : st.findEntity eid with
  | none =>
      have : st.add_mention eid dtid u = st := by
        unfold DocState.add_mention
        rw [he]
      rw [this]
  | some e =>
  cases hm : st.findMention dtid with
  | none =>
      have : st.add_mention eid dtid u = st := by
        unfold DocState.add_mention
        rw [he, hm]
      rw [this]
  | some m =>
      have hst := DocState.add_mention_eq st eid dtid u he hm
      obtain ⟨hprojE, _, hprojX, _, _⟩ := Entity.add_mention_proj e m u
      have hents : (st.add_mention eid dtid u).entities =
          updBy (fun x : Entity => x.eid) (e.add_mention m u).1 st.entities := by
        rw [hst]; rfl
      unfold exoMap
      rw [hents]
      apply exoMap_updBy hnd
      · unfold DocState.findEntity at he
        rw [hprojE]
        have hkey := (find?_key_mem (fun y : Entity => y.eid) he).2
        rw [hkey]
        exact he
      · rw [hprojX]

theorem exoMap_remove_mention (st : DocState) (eid dtid : Nat)
    (hnd : (st.entities.map (fun e => e.eid)).Nodup) :
    exoMap (st.remove_mention eid dtid) = exoMap st := by
  cases he : st.findEntity eid with
  | none =>
      have : st.remove_mention eid dtid = st := by
        unfold DocState.remove_mention
        rw [he]
      rw [this]
  | some e =>
  cases hm : st.findMention dtid with
  | none =>
      have : st.remove_mention eid dtid = st := by
        unfold DocState.remove_mention
        rw [he, hm]
      rw [this]
  | some m =>
      have hst := DocState.remove_mention_eq st eid dtid he hm
      obtain ⟨hprojE, _, hprojX, _, _⟩ := Entity.remove_mention_proj e m
      have hents : (st.remove_mention eid dtid).entities =
          updBy (fun x : Entity => x.eid) (e.remove_mention m).1 st.entities := by
        rw [hst]; rfl
      unfold exoMap
      rw [hents]
      apply exoMap_updBy hnd
      · unfold DocState.findEntity at he
        rw [hprojE]
        have hkey := (find?_key_mem (fun y : Entity => y.eid) he).2
        rw [hkey]
        exact he
      · rw [hprojX]

theorem exoMap_fold_remove (L : List Nat) (st : DocState) (eid : Nat) (hinv : SInv st) :
    exoMap (L.foldl (fun s d => s.remove_mention eid d) st) = exoMap st := by
  induction L generalizing st with
  | nil => rfl
  | cons d L ih =>
      rw [List.foldl_cons, ih _ (sinv_remove_mention st eid d hinv),
        exoMap_remove_mention st eid d hinv.2.1]

theorem exoMap_fold_add (L : List Nat) (st : DocState) (seEid teEid : Nat) (hinv : SInv st) :
    exoMap (L.foldl (fun s d =>
      let unc : Bool :=
        match s.findMention d with
        | some tm => tm.is_uncertain_to teEid
        | none => true
      s.add_mention seEid d unc) st) = exoMap st := by
  induction L generalizing st with
  | nil => rfl
  | cons d L ih =>
      rw [List.foldl_cons, ih _ (sinv_add_mention _ _ _ _ hinv),
        exoMap_add_mention _ _ _ _ hinv.2.1]

theorem exoMap_delete_sub (st : DocState) (eid : Nat) (hinv : SInv st) :
    ∀ p ∈ exoMap (st.delete_entity eid), p ∈ exoMap st ∧ p.1 ≠ eid := by
  cases he : st.findEntity eid with
  | none =>
      have heq : st.delete_entity eid = st := by
        unfold DocState.delete_entity
        rw [he]
      rw [heq]
      intro p hp
      refine ⟨hp, ?_⟩
      intro hfst
      rcases List.mem_map.mp hp with ⟨e0, he0, hpe⟩
      have : (st.findEntity eid).isSome := by
        rw [DocState.findEntity_isSome_iff]
        have : e0.eid = eid := by rw [← hpe] at hfst; exact hfst
        exact this ▸ List.mem_map_of_mem _ he0
      rw [he] at this
      simp at this
  | some e =>
      have hdel : st.delete_entity eid = { ((e.mentions ++ e.mentions_unc).foldl (fun s d => s.remove_mention eid d) st) with entities := ((e.mentions ++ e.mentions_unc).foldl (fun s d => s.remove_mention eid d) st).entities.filter (fun x => x.eid != eid) } := by
        unfold DocState.delete_entity
        rw [he]
      rw [hdel]
      intro p hp
      unfold exoMap at hp
      simp only at hp
      rcases List.mem_map.mp hp with ⟨e0, he0, hpe⟩
      have he0m := List.mem_of_mem_filter he0
      have he0ne : e0.eid ≠ eid := by
        have := List.of_mem_filter he0
        simpa using this
      constructor
      · have : p ∈ exoMap ((e.mentions ++ e.mentions_unc).foldl (fun s d => s.remove_mention eid d) st) := by
          unfold exoMap
          exact hpe ▸ List.mem_map_of_mem _ he0m
        rwa [exoMap_fold_remove _ st eid hinv] at this
      · rw [← hpe]
        exact he0ne

theorem exo_of_exoMap_eq {st st' : DocState} (h : exoMap st' = exoMap st) (hexo : ExoOK st) :
    ExoOK st' := by
  unfold ExoOK
  rw [h]
  exact hexo

theorem exo_create_entity (st : DocState) (exo : Option String) (req : Option Int)
    (hexo : ExoOK st) : ExoOK (st.create_entity exo req).1 := by
  cases hd : st.dedupEntity exo with
  | some e =>
      have : (st.create_entity exo req).1 = st := by
        unfold DocState.create_entity
        rw [hd]
      rw [this]
      exact hexo
  | none =>
      set eid := allocEid (st.entities.map (fun e => e.eid)) req with heid
      have hstep : (st.create_entity exo req).1 =
          { st with entities := st.entities ++ [⟨eid, exo, [], [], none, none⟩] } := by
        unfold DocState.create_entity
        rw [hd]
      rw [hstep]
      have hnold : ∀ s : String, exo = some s → s ≠ "" → s ∉ productiveExophors →
          ∀ e0 ∈ st.entities, e0.exophor ≠ some s := by
        intro s hs hne hnp e0 he0 hbad
        rw [hs] at hd
        unfold DocState.dedupEntity at hd
        dsimp only at hd
        rw [if_pos ⟨hne, hnp⟩] at hd
        rw [List.find?_eq_none] at hd
        exact hd e0 he0 (by simp [hbad])
      intro p1 hp1 p2 hp2 s hs1 hs2 hne hnp
      unfold exoMap at hp1 hp2
      simp only [List.map_append] at hp1 hp2
      have hcases : ∀ p ∈ (st.entities ++ [(⟨eid, exo, [], [], none, none⟩ : Entity)]).map (fun e => (e.eid, e.exophor)),
          p ∈ exoMap st ∨ p = (eid, exo) := by
        intro p hp
        rw [List.map_append] at hp
        rcases List.mem_append.mp hp with hp | hp
        · exact Or.inl hp
        · simp only [List.map_cons, List.map_nil, List.mem_singleton] at hp
          exact Or.inr hp
      rcases hcases p1 (by rw [List.map_append]; exact hp1) with h1 | h1
      · rcases hcases p2 (by rw [List.map_append]; exact hp2) with h2 | h2
        · exact hexo p1 h1 p2 h2 s hs1 hs2 hne hnp
        · exfalso
          have : exo = some s := by rw [h2] at hs2; exact hs2
          rcases List.mem_map.mp h1 with ⟨e0, he0, hpe⟩
          apply hnold s this hne hnp e0 he0
          rw [← hs1, ← hpe]
      · rcases hcases p2 (by rw [List.map_append]; exact hp2) with h2 | h2
        · exfalso
          have : exo = some s := by rw [h1] at hs1; exact hs1
          rcases List.mem_map.mp h2 with ⟨e0, he0, hpe⟩
          apply hnold s this hne hnp e0 he0
          rw [← hs2, ← hpe]
        · rw [h1, h2]

theorem exo_delete_entity (st : DocState) (eid : Nat) (hinv : SInv st) (hexo : ExoOK st) :
    ExoOK (st.delete_entity eid) := by
  intro p1 hp1 p2 hp2 s hs1 hs2 hne hnp
  exact hexo p1 (exoMap_delete_sub st eid hinv p1 hp1).1 p2
    (exoMap_delete_sub st eid hinv p2 hp2).1 s hs1 hs2 hne hnp

/-- The exophor-singleton invariant survives the deleting tail of the merge:
the source entity may adopt the exophor of the target entity, but the target
entity is deleted in the same breath. -/
theorem exo_merge_final (st st2 : DocState) (seEid teEid : Nat) (se2 te2 : Entity)
    (args : List Nat)
    (hinv2 : SInv st2) (hmap2 : exoMap st2 = exoMap st) (hexo : ExoOK st)
    (hse2 : st2.findEntity seEid = some se2) (hte2 : st2.findEntity teEid = some te2) :
    ExoOK (({ ((te2.mentions ++ te2.mentions_unc).foldl (fun (s : DocState) (d : Nat) =>
        let unc : Bool :=
          match s.findMention d with
          | some tm => tm.is_uncertain_to teEid
          | none => true
        s.add_mention seEid d unc)
        (if se2.exophor = none then st2.setEntity { se2 with exophor := te2.exophor } else st2)) with
      specialArgs := args }).delete_entity teEid) := by
  have hseKey : se2.eid = seEid := (find?_key_mem (fun y : Entity => y.eid) hse2).2
  have hteKey : te2.eid = teEid := (find?_key_mem (fun y : Entity => y.eid) hte2).2
  have hteMem : te2 ∈ st2.entities := (find?_key_mem (fun y : Entity => y.eid) hte2).1
  have htePair : (teEid, te2.exophor) ∈ exoMap st := by
    rw [← hmap2]
    have : (te2.eid, te2.exophor) ∈ exoMap st2 := List.mem_map_of_mem _ hteMem
    rwa [hteKey] at this
  have hinv3 : SInv (if se2.exophor = none then st2.setEntity { se2 with exophor := te2.exophor } else st2) := by
    split
    · exact sinv_set_exophor st2 te2.exophor hse2 hinv2
    · exact hinv2
  have hmem3 : ∀ p ∈ exoMap (if se2.exophor = none then st2.setEntity { se2 with exophor := te2.exophor } else st2),
      p = (seEid, te2.exophor) ∨ p ∈ exoMap st := by
    intro p hp
    split at hp
    · unfold exoMap DocState.setEntity at hp
      simp only at hp
      rcases List.mem_map.mp hp with ⟨e0, he0, hpe⟩
      rcases mem_updBy_elim (fun x : Entity => x.eid) he0 with h | ⟨h1, _⟩
      · left
        rw [← hpe, h]
        rw [show ({ se2 with exophor := te2.exophor } : Entity).eid = seEid from hseKey]
      · right
        rw [← hmap2]
        exact hpe ▸ List.mem_map_of_mem _ h1
    · right
      rw [← hmap2]
      exact hp
  have hinv4 : SInv ((te2.mentions ++ te2.mentions_unc).foldl (fun (s : DocState) (d : Nat) =>
      let unc : Bool :=
        match s.findMention d with
        | some tm => tm.is_uncertain_to teEid
        | none => true
      s.add_mention seEid d unc)
      (if se2.exophor = none then st2.setEntity { se2 with exophor := te2.exophor } else st2)) :=
    fold_add_sinv _ _ _ _ hinv3
  have hmap4 := exoMap_fold_add (te2.mentions ++ te2.mentions_unc)
    (if se2.exophor = none then st2.setEntity { se2 with exophor := te2.exophor } else st2)
    seEid teEid hinv3
  have hinv5 : SInv ({ ((te2.mentions ++ te2.mentions_unc).foldl (fun (s : DocState) (d : Nat) =>
      let unc : Bool :=
        match s.findMention d with
        | some tm => tm.is_uncertain_to teEid
        | none => true
      s.add_mention seEid d unc)
      (if se2.exophor = none then st2.setEntity { se2 with exophor := te2.exophor } else st2)) with
    specialArgs := args }) := hinv4
  have hmap5 : exoMap ({ ((te2.mentions ++ te2.mentions_unc).foldl (fun (s : DocState) (d : Nat) =>
      let unc : Bool :=
        match s.findMention d with
        | some tm => tm.is_uncertain_to teEid
        | none => true
      s.add_mention seEid d unc)
      (if se2.exophor = none then st2.setEntity { se2 with exophor := te2.exophor } else st2)) with
    specialArgs := args }) = exoMap (if se2.exophor = none then st2.setEntity { se2 with exophor := te2.exophor } else st2) := hmap4
  intro p1 hp1 p2 hp2 s hs1 hs2 hne hnp
  obtain ⟨hp1', hp1ne⟩ := exoMap_delete_sub _ teEid hinv5 p1 hp1
  obtain ⟨hp2', hp2ne⟩ := exoMap_delete_sub _ teEid hinv5 p2 hp2
  rw [hmap5] at hp1' hp2'
  rcases hmem3 p1 hp1' with h1 | h1
  · rcases hmem3 p2 hp2' with h2 | h2
    · rw [h1, h2]
    · exfalso
      have hte : te2.exophor = some s := by rw [h1] at hs1; exact hs1
      have := hexo (teEid, te2.exophor) htePair p2 h2 s hte hs2 hne hnp
      exact hp2ne this.symm
  · rcases hmem3 p2 hp2' with h2 | h2
    · exfalso
      have hte : te2.exophor = some s := by rw [h2] at hs2; exact hs2
      have := hexo (teEid, te2.exophor) htePair p1 h1 s hte hs1 hne hnp
      exact hp1ne this.symm
    · exact hexo p1 h1 p2 h2 s hs1 hs2 hne hnp

theorem exo_create_mention (st : DocState) (bp : BPInfo) (hinv : SInv st) (hexo : ExoOK st) :
    ExoOK (st.create_mention bp) := by
  by_cases hex : (st.findMention bp.dtid).isSome
  · have : st.create_mention bp = st := by
      unfold DocState.create_mention
      rw [if_pos hex]
    rw [this]
    exact hexo
  · rw [DocState.create_mention_eq st bp hex]
    have h1 : SInv { st with mentions := st.mentions ++ [⟨bp.dtid, bp.featYougen, bp.featTaigen, [], []⟩] } :=
      sinv_append_mention st bp hex hinv
    have hexo1 : ExoOK { st with mentions := st.mentions ++ [⟨bp.dtid, bp.featYougen, bp.featTaigen, [], []⟩] } := hexo
    exact exo_of_exoMap_eq
      (exoMap_add_mention _ _ _ _ (sinv_create_entity _ none none h1).2.1)
      (exo_create_entity _ none none hexo1)

theorem sinv_opt_add (st : DocState) (seEid : Nat) (tgtDtid : Option Nat) (b : Bool)
    (hinv : SInv st) :
    SInv (match tgtDtid with
      | some td => st.add_mention seEid td b
      | none => st) := by
  cases tgtDtid with
  | none => exact hinv
  | some td => exact sinv_add_mention _ _ _ _ hinv

theorem exoMap_opt_add (st : DocState) (seEid : Nat) (tgtDtid : Option Nat) (b : Bool)
    (hnd : (st.entities.map (fun e => e.eid)).Nodup) :
    exoMap (match tgtDtid with
      | some td => st.add_mention seEid td b
      | none => st) = exoMap st := by
  cases tgtDtid with
  | none => rfl
  | some td => exact exoMap_add_mention _ _ _ _ hnd

theorem exoMap_opt_add2 (st : DocState) (seEid teEid srcDtid : Nat) (tgtDtid : Option Nat)
    (b1 b2 : Bool) (hinv : SInv st) :
    exoMap ((match tgtDtid with
      | some td => st.add_mention seEid td b1
      | none => st).add_mention teEid srcDtid b2) = exoMap st := by
  rw [exoMap_add_mention _ _ _ _ (sinv_opt_add st seEid tgtDtid b1 hinv).2.1,
    exoMap_opt_add st seEid tgtDtid b1 hinv.2.1]

/-- DocState.merge_entities preserves the singleton-exophor invariant. -/
theorem exo_merge (st : DocState) (srcDtid : Nat) (tgtDtid : Option Nat) (seEid teEid : Nat)
    (unc : Bool) (hinv : SInv st) (hexo : ExoOK st) :
    ExoOK (st.merge_entities srcDtid tgtDtid seEid teEid unc) := by
  unfold DocState.merge_entities
  dsimp only
  by_cases hse : seEid = teEid
  · rw [if_pos hse]
    split
    · exact hexo
    · split
      · split
        · exact exo_of_exoMap_eq (exoMap_opt_add2 st seEid seEid srcDtid tgtDtid false false hinv) hexo
        · exact exo_of_exoMap_eq (exoMap_add_mention _ _ _ _ hinv.2.1) hexo
      · split
        · exact exo_of_exoMap_eq (exoMap_opt_add st seEid tgtDtid false hinv.2.1) hexo
        · exact hexo
  · rw [if_neg hse]
    split
    · exact exo_of_exoMap_eq (exoMap_opt_add2 st seEid teEid srcDtid tgtDtid _ _ hinv) hexo
    · split
      next se2 te2 hse2 hte2 =>
        split
        · exact exo_of_exoMap_eq (exoMap_opt_add2 st seEid teEid srcDtid tgtDtid _ _ hinv) hexo
        · exact exo_merge_final st _ seEid teEid se2 te2 _
            (sinv_add_mention _ _ _ _ (sinv_opt_add st seEid tgtDtid _ hinv))
            (exoMap_opt_add2 st seEid teEid srcDtid tgtDtid _ _ hinv) hexo hse2 hte2
      next h2 => exact exo_of_exoMap_eq (exoMap_opt_add2 st seEid teEid srcDtid tgtDtid _ _ hinv) hexo

theorem sinv_init : SInv DocState.init := by
  refine ⟨List.nodup_nil, List.nodup_nil, ?_, ?_, ?_, ?_, ?_, ?_, ?_⟩ <;>
    intro x hx <;> simp [DocState.init] at hx

theorem exo_init : ExoOK DocState.init := by
  intro p hp
  simp [exoMap, DocState.init] at hp

/-- Every state reachable by the construction operations is structurally
well-formed and keeps non-productive exophors singleton. -/
theorem reach_inv (st : DocState) (h : Reach st) : SInv st ∧ ExoOK st := by
  induction h with
  | init => exact ⟨sinv_init, exo_init⟩
  | create_mention st bp hr ih =>
      exact ⟨sinv_create_mention _ _ ih.1, exo_create_mention _ _ ih.1 ih.2⟩
  | create_entity st exo req hr ih =>
      exact ⟨sinv_create_entity _ _ _ ih.1, exo_create_entity _ _ _ ih.2⟩
  | add_mention st eid dtid u hr ih =>
      exact ⟨sinv_add_mention _ _ _ _ ih.1,
        exo_of_exoMap_eq (exoMap_add_mention _ _ _ _ ih.1.2.1) ih.2⟩
  | delete_entity st eid hr ih =>
      exact ⟨sinv_delete_entity _ _ ih.1, exo_delete_entity _ _ ih.1 ih.2⟩
  | add_special_arg st eid hr ih =>
      exact ⟨ih.1, ih.2⟩
  | merge st srcDtid tgtDtid seEid teEid u hr ih =>
      exact ⟨sinv_merge _ _ _ _ _ _ ih.1, exo_merge _ _ _ _ _ _ ih.1 ih.2⟩

/-! ### The tri-state feature flags of Entity.add_mention -/

/-- The feature tags of all current mentions of an entity (certain and
uncertain), read through the mention table. -/
def memberFeats (st : DocState) (e : Entity) (f : Mention → Bool) : List Bool :=
  (e.mentions ++ e.mentions_unc).filterMap (fun d => (st.findMention d).map f)

/-- Tri-state AND: unset when no value has been observed, otherwise the
conjunction. -/
def andOf (l : List Bool) : Option Bool :=
  if l.isEmpty then none else some (l.all id)

/-- The specification of the tri-state flags: each flag is the tri-state AND
of the corresponding feature tag over all current mentions of the entity. -/
def flagSpec (st : DocState) (e : Entity) : Prop :=
  e.yougen = andOf (memberFeats st e (fun m => m.featYougen)) ∧
  e.taigen = andOf (memberFeats st e (fun m => m.featTaigen))

def flagInv (st : DocState) : Prop := ∀ e ∈ st.entities, flagSpec st e

theorem filterMapCongr {α β : Type} (f g : α → Option β) (l : List α)
    (h : ∀ a ∈ l, f a = g a) : l.filterMap f = l.filterMap g := by
  induction l with
  | nil => rfl
  | cons a l ih =>
      rw [List.filterMap_cons, List.filterMap_cons, h a (List.mem_cons_self a l),
        ih (fun x hx => h x (List.mem_cons_of_mem a hx))]

theorem memberFeats_congr (st' st : DocState) (e : Entity) (f : Mention → Bool)
    (h : ∀ d ∈ e.mentions ++ e.mentions_unc,
      (st'.findMention d).map f = (st.findMention d).map f) :
    memberFeats st' e f = memberFeats st e f :=
  filterMapCongr _ _ _ h

theorem bool_eq_of_iff {a b : Bool} (h : (a = true) ↔ (b = true)) : a = b := by
  cases a <;> cases b <;> simp_all

theorem andOf_ne_some_false_iff (l : List Bool) :
    ((andOf l != some false) = true) ↔ ∀ b ∈ l, b = true := by
  unfold andOf
  by_cases h : l.isEmpty
  · rw [if_pos h]
    rw [List.isEmpty_iff] at h
    subst h
    simp
  · rw [if_neg h]
    simp only [bne_iff_ne, ne_eq, Option.some.injEq]
    constructor
    · intro hh b hb
      cases hcase : l.all id with
      | false => exact absurd hcase hh
      | true =>
          have := List.all_eq_true.mp hcase b hb
          simpa using this
    · intro hh hbad
      have hall : l.all id = true := List.all_eq_true.mpr (fun x hx => by simpa using hh x hx)
      rw [hall] at hbad
      exact Bool.noConfusion hbad

/-- The incremental flag update of Entity.add_mention computes the tri-state
AND of the grown feature list. -/
theorem andOf_update (L' L : List Bool) (b : Bool)
    (hmem : ∀ x, x ∈ L' ↔ (x ∈ L ∨ x = b)) (hne : L' ≠ []) :
    andOf L' = some ((andOf L != some false) && b) := by
  have hL' : andOf L' = some (L'.all id) := by
    unfold andOf
    rw [if_neg (by simpa [List.isEmpty_iff] using hne)]
  rw [hL']
  congr 1
  apply bool_eq_of_iff
  rw [Bool.and_eq_true, List.all_eq_true, andOf_ne_some_false_iff]
  constructor
  · intro h
    constructor
    · intro x hx
      have := h x ((hmem x).mpr (Or.inl hx))
      simpa using this
    · have := h b ((hmem b).mpr (Or.inr rfl))
      simpa using this
  · rintro ⟨h1, h2⟩
    intro x hx
    rcases (hmem x).mp hx with hx | rfl
    · simpa using h1 x hx
    · simpa using h2

/-- In every branch of Entity.add_mention that actually mutates (that is,
except the uncertain re-add no-op), the set of linked mention keys grows by
exactly the added mention, and both flags are recomputed by the incremental
AND formula. -/
theorem Entity.add_mention_members_char (e : Entity) (m : Mention) (unc : Bool)
    (h1 : m.dtid ∈ e.mentions ↔ e.eid ∈ m.eids)
    (h2 : m.dtid ∈ e.mentions_unc ↔ e.eid ∈ m.eids_unc)
    (hnotnoop : ¬ (unc = true ∧ (m.dtid ∈ e.mentions ∨ m.dtid ∈ e.mentions_unc))) :
    (∀ d, (d ∈ (e.add_mention m unc).1.mentions ∨ d ∈ (e.add_mention m unc).1.mentions_unc) ↔
      ((d ∈ e.mentions ∨ d ∈ e.mentions_unc) ∨ d = m.dtid)) ∧
    (e.add_mention m unc).1.yougen = some ((e.yougen != some false) && m.featYougen) ∧
    (e.add_mention m unc).1.taigen = some ((e.taigen != some false) && m.featTaigen) := by
  cases unc with
  | true =>
      have hmem : ¬ (m.dtid ∈ e.mentions ∨ m.dtid ∈ e.mentions_unc) := by
        intro hc
        exact hnotnoop ⟨rfl, hc⟩
      rw [Entity.add_mention_unc_fresh e m hmem]
      refine ⟨?_, rfl, rfl⟩
      intro d
      simp only [mem_insertL]
      constructor
      · rintro (hd | (hd | rfl))
        · exact Or.inl (Or.inl hd)
        · exact Or.inl (Or.inr hd)
        · exact Or.inr rfl
      · rintro ((hd | hd) | rfl)
        · exact Or.inl hd
        · exact Or.inr (Or.inl hd)
        · exact Or.inr (Or.inr rfl)
  | false =>
      by_cases hcu : m.dtid ∈ e.mentions_unc
      · rw [Entity.add_mention_cert_unc e m hcu h1 h2]
        refine ⟨?_, rfl, rfl⟩
        intro d
        simp only [mem_insertL, mem_removeL]
        constructor
        · rintro ((⟨hd, _⟩ | rfl) | ⟨hd, _⟩)
          · exact Or.inl (Or.inl hd)
          · exact Or.inr rfl
          · exact Or.inl (Or.inr hd)
        · rintro ((hd | hd) | rfl)
          · by_cases hdm : d = m.dtid
            · exact Or.inl (Or.inr hdm)
            · exact Or.inl (Or.inl ⟨hd, hdm⟩)
          · by_cases hdm : d = m.dtid
            · exact Or.inl (Or.inr hdm)
            · exact Or.inr ⟨hd, hdm⟩
          · exact Or.inl (Or.inr rfl)
      · rw [Entity.add_mention_cert_notunc e m hcu]
        refine ⟨?_, rfl, rfl⟩
        intro d
        simp only [mem_insertL]
        constructor
        · rintro ((hd | rfl) | hd)
          · exact Or.inl (Or.inl hd)
          · exact Or.inr rfl
          · exact Or.inl (Or.inr hd)
        · rintro ((hd | hd) | rfl)
          · exact Or.inl (Or.inl hd)
          · exact Or.inr hd
          · exact Or.inl (Or.inr rfl)

/-- After a successful DocState.add_mention, reading any mention through any
feature projection is unchanged (the written-back mention keeps its feature
tags). -/
theorem DocState.add_mention_feat_eq (st : DocState) (eid dtid : Nat) (unc : Bool)
    {e : Entity} {m : Mention} (he : st.findEntity eid = some e)
    (hm : st.findMention dtid = some m) (f : Mention → Bool)
    (hf : f (e.add_mention m unc).2 = f m) :
    ∀ d, ((st.add_mention eid dtid unc).findMention d).map f = (st.findMention d).map f := by
  intro d
  obtain ⟨_, hfm, _, hfmx, _⟩ := DocState.add_mention_find st eid dtid unc he hm
  by_cases hd : d = dtid
  · subst hd
    rw [hfm, hm]
    simp [hf]
  · rw [hfmx d hd]

/-- DocState.add_mention preserves the tri-state flag specification of every
entity, in any structurally sound state. -/
theorem flag_add_mention (st : DocState) (eid dtid : Nat) (unc : Bool)
    (hinv : SInv st) (hflag : flagInv st) : flagInv (st.add_mention eid dtid unc) := by
  cases he : st.findEntity eid with
  | none =>
      have : st.add_mention eid dtid unc = st := by
        unfold DocState.add_mention
        rw [he]
      rw [this]
      exact hflag
  | some e =>
  cases hm : st.findMention dtid with
  | none =>
      have : st.add_mention eid dtid unc = st := by
        unfold DocState.add_mention
        rw [he, hm]
      rw [this]
      exact hflag
  | some m =>
  obtain ⟨heMem, heKey⟩ := find?_key_mem (fun y : Entity => y.eid) he
  obtain ⟨hmMem, hmKey⟩ := find?_key_mem (fun y : Mention => y.dtid) hm
  obtain ⟨hbic1, hbic2⟩ := hinv.2.2.1 e heMem m hmMem
  obtain ⟨hprojE, hprojD, hprojX, hprojFY, hprojFT⟩ := Entity.add_mention_proj e m unc
  have hLFY := DocState.add_mention_feat_eq st eid dtid unc he hm (fun x => x.featYougen) hprojFY
  have hLFT := DocState.add_mention_feat_eq st eid dtid unc he hm (fun x => x.featTaigen) hprojFT
  obtain ⟨hfe, hfm, hfex, hfmx, _⟩ := DocState.add_mention_find st eid dtid unc he hm
  have hst : st.add_mention eid dtid unc =
      (st.setEntity (e.add_mention m unc).1).setMention (e.add_mention m unc).2 :=
    DocState.add_mention_eq st eid dtid unc he hm
  have hents : (st.add_mention eid dtid unc).entities =
      updBy (fun x : Entity => x.eid) (e.add_mention m unc).1 st.entities := by
    rw [hst]; rfl
  intro e0 he0
  rw [hents] at he0
  rcases mem_updBy_elim (fun x : Entity => x.eid) he0 with rfl | ⟨he0m, _⟩
  · -- the written-back entity
    by_cases hnoop : unc = true ∧ (m.dtid ∈ e.mentions ∨ m.dtid ∈ e.mentions_unc)
    · -- no-op branch: the pair is unchanged
      have hpe : e.add_mention m unc = (e, m) := by
        rw [hnoop.1]
        exact Entity.add_mention_unc_noop e m hnoop.2
      rw [hpe]
      dsimp only
      obtain ⟨hy, ht⟩ := hflag e heMem
      constructor
      · rw [hy]
        exact congrArg andOf (memberFeats_congr _ st e _ (fun d _ => hLFY d)).symm
      · rw [ht]
        exact congrArg andOf (memberFeats_congr _ st e _ (fun d _ => hLFT d)).symm
    · obtain ⟨hmm, hfy, hft⟩ := Entity.add_mention_members_char e m unc hbic1 hbic2 hnoop
      have hmemChar : ∀ (f : Mention → Bool), f (e.add_mention m unc).2 = f m →
          (∀ dd, ((st.add_mention eid dtid unc).findMention dd).map f = (st.findMention dd).map f) →
          ∀ x, (x ∈ memberFeats (st.add_mention eid dtid unc) (e.add_mention m unc).1 f ↔
            (x ∈ memberFeats st e f ∨ x = f m)) := by
        intro f hfpres hLF x
        unfold memberFeats
        rw [List.mem_filterMap, List.mem_filterMap]
        constructor
        · rintro ⟨d, hd, hdx⟩
          rw [hLF d] at hdx
          by_cases hdm : d = m.dtid
          · subst hdm
            rw [hmKey, hm] at hdx
            simp only [Option.map_some', Option.some.injEq] at hdx
            exact Or.inr hdx.symm
          · have hd' := (hmm d).mp (List.mem_append.mp hd)
            rcases hd' with hd' | rfl
            · exact Or.inl ⟨d, List.mem_append.mpr hd', hdx⟩
            · exact absurd rfl hdm
        · rintro (⟨d, hd, hdx⟩ | rfl)
          · refine ⟨d, ?_, ?_⟩
            · exact List.mem_append.mpr ((hmm d).mpr (Or.inl (List.mem_append.mp hd)))
            · rw [hLF d]
              exact hdx
          · refine ⟨m.dtid, ?_, ?_⟩
            · exact List.mem_append.mpr ((hmm m.dtid).mpr (Or.inr rfl))
            · rw [hLF m.dtid, hmKey, hm]
              rfl
      have hneY : memberFeats (st.add_mention eid dtid unc) (e.add_mention m unc).1 (fun x => x.featYougen) ≠ [] := by
        intro hcon
        have := (hmemChar (fun x => x.featYougen) hprojFY hLFY m.featYougen).mpr (Or.inr rfl)
        rw [hcon] at this
        simp at this
      have hneT : memberFeats (st.add_mention eid dtid unc) (e.add_mention m unc).1 (fun x => x.featTaigen) ≠ [] := by
        intro hcon
        have := (hmemChar (fun x => x.featTaigen) hprojFT hLFT m.featTaigen).mpr (Or.inr rfl)
        rw [hcon] at this
        simp at this
      obtain ⟨hy, ht⟩ := hflag e heMem
      constructor
      · rw [hfy, andOf_update _ (memberFeats st e (fun x => x.featYougen)) m.featYougen
          (hmemChar (fun x => x.featYougen) hprojFY hLFY) hneY, hy]
      · rw [hft, andOf_update _ (memberFeats st e (fun x => x.featTaigen)) m.featTaigen
          (hmemChar (fun x => x.featTaigen) hprojFT hLFT) hneT, ht]
  · -- untouched entities keep their specification
    obtain ⟨hy, ht⟩ := hflag e0 he0m
    constructor
    · rw [hy]
      exact congrArg andOf (memberFeats_congr _ st e0 _ (fun d _ => hLFY d)).symm
    · rw [ht]
      exact congrArg andOf (memberFeats_congr _ st e0 _ (fun d _ => hLFT d)).symm

theorem DocState.remove_mention_feat_eq (st : DocState) (eid dtid : Nat)
    {e : Entity} {m : Mention} (he : st.findEntity eid = some e)
    (hm : st.findMention dtid = some m) (f : Mention → Bool)
    (hf : f (e.remove_mention m).2 = f m) :
    ∀ d, ((st.remove_mention eid dtid).findMention d).map f = (st.findMention d).map f := by
  intro d
  obtain ⟨_, hfm, _, hfmx, _⟩ := DocState.remove_mention_find st eid dtid he hm
  by_cases hd : d = dtid
  · subst hd
    rw [hfm, hm]
    simp [hf]
  · rw [hfmx d hd]

/-- The flag specification restricted to entities other than one key (used
while an entity is being stripped before deletion). -/
def flagInvExcept (x : Nat) (st : DocState) : Prop :=
  ∀ e0 ∈ st.entities, e0.eid ≠ x → flagSpec st e0

theorem flagExc_remove_mention (st : DocState) (eid dtid : Nat)
    (hflag : flagInvExcept eid st) : flagInvExcept eid (st.remove_mention eid dtid) := by
  cases he : st.findEntity eid with
  | none =>
      have : st.remove_mention eid dtid = st := by
        unfold DocState.remove_mention
        rw [he]
      rw [this]
      exact hflag
  | some e =>
  cases hm : st.findMention dtid with
  | none =>
      have : st.remove_mention eid dtid = st := by
        unfold DocState.remove_mention
        rw [he, hm]
      rw [this]
      exact hflag
  | some m =>
  obtain ⟨hprojE, hprojD, hprojX, hprojFY, hprojFT⟩ := Entity.remove_mention_proj e m
  have heKey := (find?_key_mem (fun y : Entity => y.eid) he).2
  have hLFY := DocState.remove_mention_feat_eq st eid dtid he hm (fun x => x.featYougen) hprojFY
  have hLFT := DocState.remove_mention_feat_eq st eid dtid he hm (fun x => x.featTaigen) hprojFT
  have hents : (st.remove_mention eid dtid).entities =
      updBy (fun x : Entity => x.eid) (e.remove_mention m).1 st.entities := by
    rw [DocState.remove_mention_eq st eid dtid he hm]; rfl
  intro e0 he0 he0ne
  rw [hents] at he0
  rcases mem_updBy_elim (fun x : Entity => x.eid) he0 with rfl | ⟨he0m, _⟩
  · exfalso
    apply he0ne
    rw [hprojE, heKey]
  · obtain ⟨hy, ht⟩ := hflag e0 he0m he0ne
    constructor
    · rw [hy]
      exact congrArg andOf (memberFeats_congr _ st e0 _ (fun d _ => hLFY d)).symm
    · rw [ht]
      exact congrArg andOf (memberFeats_congr _ st e0 _ (fun d _ => hLFT d)).symm

theorem flag_delete_entity (st : DocState) (eid : Nat) (hflag : flagInv st) :
    flagInv (st.delete_entity eid) := by
  cases he : st.findEntity eid with
  | none =>
      have : st.delete_entity eid = st := by
        unfold DocState.delete_entity
        rw [he]
      rw [this]
      exact hflag
  | some e =>
  have hdel : st.delete_entity eid = { ((e.mentions ++ e.mentions_unc).foldl (fun s d => s.remove_mention eid d) st) with entities := ((e.mentions ++ e.mentions_unc).foldl (fun s d => s.remove_mention eid d) st).entities.filter (fun x => x.eid != eid) } := by
    unfold DocState.delete_entity
    rw [he]
  rw [hdel]
  have hexc : ∀ (L : List Nat) (s : DocState), flagInvExcept eid s →
      flagInvExcept eid (L.foldl (fun s d => s.remove_mention eid d) s) := by
    intro L
    induction L with
    | nil => exact fun s h => h
    | cons d L ih =>
        intro s h
        rw [List.foldl_cons]
        exact ih _ (flagExc_remove_mention s eid d h)
  have hexc1 : flagInvExcept eid ((e.mentions ++ e.mentions_unc).foldl (fun s d => s.remove_mention eid d) st) :=
    hexc _ st (fun e0 he0 _ => hflag e0 he0)
  intro e0 he0
  have he0m := List.mem_of_mem_filter he0
  have he0ne : e0.eid ≠ eid := by
    have := List.of_mem_filter he0
    simpa using this
  exact hexc1 e0 he0m he0ne

theorem flag_create_entity (st : DocState) (exo : Option String) (req : Option Int)
    (hflag : flagInv st) : flagInv (st.create_entity exo req).1 := by
  cases hd : st.dedupEntity exo with
  | some e =>
      have : (st.create_entity exo req).1 = st := by
        unfold DocState.create_entity
        rw [hd]
      rw [this]
      exact hflag
  | none =>
      have hstep : (st.create_entity exo req).1 =
          { st with entities := st.entities ++ [⟨allocEid (st.entities.map (fun e => e.eid)) req, exo, [], [], none, none⟩] } := by
        unfold DocState.create_entity
        rw [hd]
      rw [hstep]
      intro e0 he0
      rcases List.mem_append.mp he0 with he0 | he0
      · exact hflag e0 he0
      · simp only [List.mem_singleton] at he0
        subst he0
        exact ⟨rfl, rfl⟩

theorem flag_set_exophor (st : DocState) {eid : Nat} {e0 : Entity} (v : Option String)
    (hfind : st.findEntity eid = some e0) (hflag : flagInv st) :
    flagInv (st.setEntity { e0 with exophor := v }) := by
  have he0m := (find?_key_mem (fun y : Entity => y.eid) hfind).1
  intro e1 he1
  rcases mem_updBy_elim (fun x : Entity => x.eid) he1 with rfl | ⟨he1m, _⟩
  · exact hflag e0 he0m
  · exact hflag e1 he1m

theorem fold_add_flag (L : List Nat) (s : DocState) (seEid teEid : Nat)
    (hinv : SInv s) (hflag : flagInv s) :
    flagInv (L.foldl (fun s d =>
      let unc : Bool :=
        match s.findMention d with
        | some tm => tm.is_uncertain_to teEid
        | none => true
      s.add_mention seEid d unc) s) := by
  induction L generalizing s with
  | nil => exact hflag
  | cons d L ih =>
      rw [List.foldl_cons]
      exact ih _ (sinv_add_mention _ _ _ _ hinv) (flag_add_mention _ _ _ _ hinv hflag)

theorem flag_opt_add (st : DocState) (seEid : Nat) (tgtDtid : Option Nat) (b : Bool)
    (hinv : SInv st) (hflag : flagInv st) :
    flagInv (match tgtDtid with
      | some td => st.add_mention seEid td b
      | none => st) := by
  cases tgtDtid with
  | none => exact hflag
  | some td => exact flag_add_mention _ _ _ _ hinv hflag

theorem sinv_ite (c : Prop) [Decidable c] (a b : DocState) (ha : SInv a) (hb : SInv b) :
    SInv (if c then a else b) := by
  split
  · exact ha
  · exact hb

theorem flag_ite (c : Prop) [Decidable c] (a b : DocState) (ha : flagInv a) (hb : flagInv b) :
    flagInv (if c then a else b) := by
  split
  · exact ha
  · exact hb

theorem flag_create_mention (st : DocState) (bp : BPInfo) (hinv : SInv st)
    (hflag : flagInv st) : flagInv (st.create_mention bp) := by
  by_cases hex : (st.findMention bp.dtid).isSome
  · have : st.create_mention bp = st := by
      unfold DocState.create_mention
      rw [if_pos hex]
    rw [this]
    exact hflag
  · rw [DocState.create_mention_eq st bp hex]
    have h1S : SInv { st with mentions := st.mentions ++ [⟨bp.dtid, bp.featYougen, bp.featTaigen, [], []⟩] } :=
      sinv_append_mention st bp hex hinv
    have h1F : flagInv { st with mentions := st.mentions ++ [⟨bp.dtid, bp.featYougen, bp.featTaigen, [], []⟩] } := by
      intro e0 he0
      obtain ⟨hy, ht⟩ := hflag e0 he0
      have hlook : ∀ d ∈ e0.mentions ++ e0.mentions_unc,
          (({ st with mentions := st.mentions ++ [⟨bp.dtid, bp.featYougen, bp.featTaigen, [], []⟩] } : DocState).findMention d) = st.findMention d := by
        intro d hd
        have hsome : (st.findMention d).isSome := by
          rcases List.mem_append.mp hd with hd | hd
          · exact (hinv.2.2.2.2.1 e0 he0).1 d hd
          · exact (hinv.2.2.2.2.1 e0 he0).2 d hd
        rcases Option.isSome_iff_exists.mp hsome with ⟨m0, hm0⟩
        show (st.mentions ++ [(⟨bp.dtid, bp.featYougen, bp.featTaigen, [], []⟩ : Mention)]).find? (fun y => y.dtid == d) = st.findMention d
        rw [List.find?_append]
        unfold DocState.findMention at hm0 ⊢
        rw [hm0]
        rfl
      constructor
      · rw [hy]
        exact congrArg andOf (memberFeats_congr _ st e0 _ (fun d hd => by rw [hlook d hd])).symm
      · rw [ht]
        exact congrArg andOf (memberFeats_congr _ st e0 _ (fun d hd => by rw [hlook d hd])).symm
    exact flag_add_mention _ _ _ _ (sinv_create_entity _ _ _ h1S)
      (flag_create_entity _ _ _ h1F)

theorem flag_merge (st : DocState) (srcDtid : Nat) (tgtDtid : Option Nat) (seEid teEid : Nat)
    (unc : Bool) (hinv : SInv st) (hflag : flagInv st) :
    flagInv (st.merge_entities srcDtid tgtDtid seEid teEid unc) := by
  unfold DocState.merge_entities
  dsimp only
  by_cases hse : seEid = teEid
  · rw [if_pos hse]
    split
    · exact hflag
    · split
      · split
        · exact flag_add_mention _ _ _ _ (sinv_opt_add st seEid tgtDtid false hinv)
            (flag_opt_add st seEid tgtDtid false hinv hflag)
        · exact flag_add_mention _ _ _ _ hinv hflag
      · split
        · exact flag_opt_add st seEid tgtDtid false hinv hflag
        · exact hflag
  · rw [if_neg hse]
    split
    · exact flag_add_mention _ _ _ _ (sinv_opt_add st seEid tgtDtid _ hinv)
        (flag_opt_add st seEid tgtDtid _ hinv hflag)
    · split
      next se2 te2 hse2 hte2 =>
        split
        · exact flag_add_mention _ _ _ _ (sinv_opt_add st seEid tgtDtid _ hinv)
            (flag_opt_add st seEid tgtDtid _ hinv hflag)
        · refine flag_delete_entity _ _ ?_
          exact fold_add_flag _ _ seEid teEid
            (sinv_ite _ _ _
              (sinv_set_exophor _ te2.exophor hse2
                (sinv_add_mention _ _ _ _ (sinv_opt_add st seEid tgtDtid _ hinv)))
              (sinv_add_mention _ _ _ _ (sinv_opt_add st seEid tgtDtid _ hinv)))
            (flag_ite _ _ _
              (flag_set_exophor _ te2.exophor hse2
                (flag_add_mention _ _ _ _ (sinv_opt_add st seEid tgtDtid _ hinv)
                  (flag_opt_add st seEid tgtDtid _ hinv hflag)))
              (flag_add_mention _ _ _ _ (sinv_opt_add st seEid tgtDtid _ hinv)
                (flag_opt_add st seEid tgtDtid _ hinv hflag)))
      next h2 =>
        exact flag_add_mention _ _ _ _ (sinv_opt_add st seEid tgtDtid _ hinv)
          (flag_opt_add st seEid tgtDtid _ hinv hflag)

theorem flag_init : flagInv DocState.init := by
  intro e he
  simp [DocState.init] at he

/-- Every reachable document state satisfies the tri-state flag
specification for all of its entities. -/
theorem reach_flag (st : DocState) (h : Reach st) : flagInv st := by
  induction h with
  | init => exact flag_init
  | create_mention st bp hr ih =>
      exact flag_create_mention _ _ (reach_inv st hr).1 ih
  | create_entity st exo req hr ih =>
      exact flag_create_entity _ _ _ ih
  | add_mention st eid dtid u hr ih =>
      exact flag_add_mention _ _ _ _ (reach_inv st hr).1 ih
  | delete_entity st eid hr ih =>
      exact flag_delete_entity _ _ ih
  | add_special_arg st eid hr ih =>
      exact ih
  | merge st srcDtid tgtDtid seEid teEid u hr ih =>
      exact flag_merge _ _ _ _ _ _ (reach_inv st hr).1 ih

/-! ### Query operations used by claims about liveness -/

/-- The unguarded entity-table lookups [self.entities[eid] for eid in eids]:
a missing key raises, modelled as none. -/
def lookupAll (st : DocState) (eids : List Nat) : Option (List Entity) :=
  match eids with
  | [] => some []
  | x :: rest =>
      match st.findEntity x, lookupAll st rest with
      | some e, some es => some (e :: es)
      | _, _ => none

/-- Document.get_entities: an unregistered base phrase yields the empty
list; otherwise every eid of the mention is dereferenced unguarded. -/
def DocState.get_entities (st : DocState) (dtid : Nat) (includeUncertain : Bool) :
    Option (List Entity) :=
  match st.findMention dtid with
  | none => some []
  | some m => lookupAll st (if includeUncertain then m.eids ++ m.eids_unc else m.eids)

/-- Document.get_siblings: all mentions sharing an entity with the given
mention; every eid of the mention is dereferenced unguarded, and the
mention itself is discarded from the result. -/
def DocState.get_siblings (st : DocState) (dtid : Nat) (relax : Bool) : Option (List Nat) :=
  match st.findMention dtid with
  | none => none
  | some m =>
      match lookupAll st m.eids with
      | none => none
      | some certEnts =>
          let base := certEnts.foldl (fun (acc : List Nat) (e : Entity) => acc ++ e.mentions) []
          if relax then
            match lookupAll st m.eids_unc with
            | none => none
            | some uncEnts =>
                some ((base ++ uncEnts.foldl (fun (acc : List Nat) (e : Entity) => acc ++ e.mentions ++ e.mentions_unc) []).filter (fun d => d != dtid))
          else some (base.filter (fun d => d != dtid))

theorem lookupAll_isSome (st : DocState) (eids : List Nat)
    (h : ∀ x ∈ eids, (st.findEntity x).isSome) : (lookupAll st eids).isSome := by
  induction eids with
  | nil => rfl
  | cons x rest ih =>
      have hx := h x (List.mem_cons_self x rest)
      rcases Option.isSome_iff_exists.mp hx with ⟨e, he⟩
      have hrest := ih (fun y hy => h y (List.mem_cons_of_mem x hy))
      rcases Option.isSome_iff_exists.mp hrest with ⟨es, hes⟩
      unfold lookupAll
      rw [he, hes]
      rfl

/-- Every eid stored in any mention names a live entity. -/
def livenessHolds (st : DocState) : Prop :=
  ∀ m ∈ st.mentions,
    (∀ x ∈ m.eids, (st.findEntity x).isSome) ∧
    (∀ x ∈ m.eids_unc, (st.findEntity x).isSome)

/-- The bidirectional-consistency statement of the claims. -/
def biconsHolds (st : DocState) : Prop :=
  ∀ e ∈ st.entities, ∀ m ∈ st.mentions,
    (m.dtid ∈ e.mentions ↔ e.eid ∈ m.eids) ∧
    (m.dtid ∈ e.mentions_unc ↔ e.eid ∈ m.eids_unc)

/-- At most one live entity per truthy non-productive exophor label. -/
def exophorSingleton (st : DocState) : Prop :=
  ∀ e1 ∈ st.entities, ∀ e2 ∈ st.entities, ∀ s : String,
    e1.exophor = some s → e2.exophor = some s → s ≠ "" → s ∉ productiveExophors → e1 = e2

/-! ### Claim theorems -/

/-- C2: in every document state reachable by the construction operations
(mention creation, entity creation, Entity.add_mention, merges with their
entity deletions, special-argument registration), a mention is in an
entity's certain mention set iff the entity's eid is in the mention's
certain eid set, and likewise for the uncertain sets (Entity.add_mention
and Entity.remove_mention always update both sides of the link). -/
theorem bidirectional_consistency (st : DocState) (h : Reach st) : biconsHolds st :=
  (reach_inv st h).1.2.2.1

/-- Witness for C2 at a concrete three-operation document: two mentions
created and merged by a certain coreference link. -/
theorem bidirectional_consistency_witness :
    biconsHolds (((DocState.init.create_mention ⟨0, true, false⟩).create_mention
      ⟨1, false, true⟩).merge_entities 1 (some 0) 1 0 false) :=
  bidirectional_consistency _
    (Reach.merge _ 1 (some 0) 1 0 false
      (Reach.create_mention _ ⟨1, false, true⟩
        (Reach.create_mention _ ⟨0, true, false⟩ Reach.init)))

/-- C5: on every reachable document state the tri-state taigen / yougen
flags of every entity equal the AND of the corresponding feature tag over
all its current mentions (unset iff no mention observed), and the same
holds again after any further Entity.add_mention call, including re-adds
of an already linked mention; mentions are only removed from an entity by
the deleting tail of a merge, after which the entity is gone, so the
specification also holds after merges. -/
theorem add_mention_flag_spec_holds (st : DocState) (h : Reach st) :
    flagInv st ∧ ∀ eid dtid unc, flagInv (st.add_mention eid dtid unc) :=
  ⟨reach_flag st h,
    fun eid dtid unc => flag_add_mention st eid dtid unc (reach_inv st h).1 (reach_flag st h)⟩

/-- Witness for C5: a concrete re-adding add_mention call on a two-mention
merged document. -/
theorem add_mention_flag_spec_holds_witness :
    flagInv ((((DocState.init.create_mention ⟨0, true, false⟩).create_mention
      ⟨1, false, true⟩).merge_entities 1 (some 0) 1 0 false).add_mention 0 1 false) :=
  (add_mention_flag_spec_holds _
    (Reach.merge _ 1 (some 0) 1 0 false
      (Reach.create_mention _ ⟨1, false, true⟩
        (Reach.create_mention _ ⟨0, true, false⟩ Reach.init)))).2 0 1 false

/-- C7: after any sequence of construction operations, at most one live
entity carries a given non-productive exophor label (labels are truthy
strings; 不特定:人, 不特定:物 and 不特定:状況 are the productive ones):
_create_entity returns the existing singleton instead of creating a new
one, and a merge that makes the surviving entity adopt the deleted
entity's exophor deletes the donor in the same step. -/
theorem singleton_exophor (st : DocState) (h : Reach st) : exophorSingleton st := by
  intro e1 he1 e2 he2 s h1 h2 hne hnp
  have hpair := (reach_inv st h).2 (e1.eid, e1.exophor) (List.mem_map_of_mem _ he1)
    (e2.eid, e2.exophor) (List.mem_map_of_mem _ he2) s h1 h2 hne hnp
  have hpair' : e1.eid = e2.eid := hpair
  have hnd := (reach_inv st h).1.2.1
  have f1 := findEntity_of_mem hnd he1
  have f2 := findEntity_of_mem hnd he2
  rw [← hpair'] at f2
  exact Option.some.inj (f1.symm.trans f2)

/-- Witness for C7: requesting the author exophor twice yields one live
entity. -/
theorem singleton_exophor_witness :
    exophorSingleton (((DocState.init.create_entity (some "著者") none).1.create_entity
      (some "著者") none).1) :=
  singleton_exophor _
    (Reach.create_entity _ (some "著者") none
      (Reach.create_entity _ (some "著者") none Reach.init))

/-- C10: in every reachable document state, every eid stored in any
mention's certain or uncertain eid set is a key of the entity table
(entity deletion strips the deleted eid from every mention that carried
it), hence the unguarded entity-table lookups of Document.get_entities and
Document.get_siblings never access a missing key. -/
theorem mention_eids_live (st : DocState) (h : Reach st) :
    livenessHolds st ∧
    (∀ dtid b, (st.get_entities dtid b).isSome) ∧
    (∀ dtid b, (st.findMention dtid).isSome → (st.get_siblings dtid b).isSome) := by
  have hlive : livenessHolds st := (reach_inv st h).1.2.2.2.1
  refine ⟨hlive, ?_, ?_⟩
  · intro dtid b
    unfold DocState.get_entities
    cases hm : st.findMention dtid with
    | none => rfl
    | some m =>
        apply lookupAll_isSome
        intro x hx
        have hmMem := (find?_key_mem (fun y : Mention => y.dtid) hm).1
        cases b with
        | true =>
            simp only [if_true] at hx
            rcases List.mem_append.mp hx with hx | hx
            · exact (hlive m hmMem).1 x hx
            · exact (hlive m hmMem).2 x hx
        | false =>
            simp only [Bool.false_eq_true, if_false] at hx
            exact (hlive m hmMem).1 x hx
  · intro dtid b hsome
    unfold DocState.get_siblings
    rcases Option.isSome_iff_exists.mp hsome with ⟨m, hm⟩
    rw [hm]
    dsimp only
    have hmMem := (find?_key_mem (fun y : Mention => y.dtid) hm).1
    have hcert := lookupAll_isSome st m.eids (fun x hx => (hlive m hmMem).1 x hx)
    rcases Option.isSome_iff_exists.mp hcert with ⟨certEnts, hcertEq⟩
    rw [hcertEq]
    dsimp only
    cases b with
    | false => rfl
    | true =>
        have hunc := lookupAll_isSome st m.eids_unc (fun x hx => (hlive m hmMem).2 x hx)
        rcases Option.isSome_iff_exists.mp hunc with ⟨uncEnts, huncEq⟩
        simp only [if_true]
        rw [huncEq]
        rfl

/-- Witness for C10 at a concrete merged document. -/
theorem mention_eids_live_witness :
    livenessHolds (((DocState.init.create_mention ⟨0, true, false⟩).create_mention
      ⟨1, false, true⟩).merge_entities 1 (some 0) 1 0 false) ∧
    ((((DocState.init.create_mention ⟨0, true, false⟩).create_mention
      ⟨1, false, true⟩).merge_entities 1 (some 0) 1 0 false).get_siblings 1 true).isSome := by
  have hr : Reach (((DocState.init.create_mention ⟨0, true, false⟩).create_mention
      ⟨1, false, true⟩).merge_entities 1 (some 0) 1 0 false) :=
    Reach.merge _ 1 (some 0) 1 0 false
      (Reach.create_mention _ ⟨1, false, true⟩
        (Reach.create_mention _ ⟨0, true, false⟩ Reach.init))
  exact ⟨(mention_eids_live _ hr).1, (mention_eids_live _ hr).2.2 1 true (by decide)⟩

/-! ### Evaluation lemmas for the same-entity branch of the merge -/

theorem merge_same_uncertain (st : DocState) (srcDtid : Nat) (tgtDtid : Option Nat)
    (seEid : Nat) : st.merge_entities srcDtid tgtDtid seEid seEid true = st := by
  unfold DocState.merge_entities
  dsimp only
  rw [if_pos rfl, if_pos rfl]

theorem merge_same_eval (st : DocState) (srcDtid td seEid : Nat) {srcM tgtM : Mention}
    (hsrc : st.findMention srcDtid = some srcM) (htgt : st.findMention td = some tgtM) :
    st.merge_entities srcDtid (some td) seEid seEid false =
      (if ((!(srcM.is_uncertain_to seEid)) && (tgtM.is_uncertain_to seEid)) = true
      then st.add_mention seEid td false
      else if ((srcM.is_uncertain_to seEid) && (!(tgtM.is_uncertain_to seEid))) = true
        then st.add_mention seEid srcDtid false
        else st) := by
  unfold DocState.merge_entities
  dsimp only
  rw [hsrc, htgt, if_pos rfl, if_neg (Bool.false_ne_true)]
  dsimp only
  cases srcM.is_uncertain_to seEid <;> cases tgtM.is_uncertain_to seEid <;> simp

/-- DocState.add_mention never changes the key list of the entity table. -/
theorem DocState.add_mention_entity_keys (st : DocState) (eid dtid : Nat) (unc : Bool) :
    (st.add_mention eid dtid unc).entities.map (fun x => x.eid) =
      st.entities.map (fun x => x.eid) := by
  unfold DocState.add_mention
  cases he : st.findEntity eid with
  | none => rfl
  | some e =>
      cases hm : st.findMention dtid with
      | none => rfl
      | some m =>
          dsimp only
          exact map_key_updBy (fun x : Entity => x.eid) (e.add_mention m unc).1 st.entities

/-- C4: the same-entity branch of Document._merge_entities.  With source
and target entity identical: an uncertain new link changes nothing; a
certain new link with both existing triangle edges of equal certainty
changes nothing; when exactly one of the two edges is uncertain the mention
on that edge ends with a certain link to the entity (it is in the entity's
certain mention set and not in the uncertain one, and the eid is in its
certain eid set only); and no entity is deleted: the entity-table keys are
unchanged for every call of this branch. -/
theorem merge_same_entity_triangle (st : DocState) (h : Reach st)
    (srcDtid td seEid : Nat) {srcM tgtM : Mention} {e : Entity}
    (hsrc : st.findMention srcDtid = some srcM) (htgt : st.findMention td = some tgtM)
    (he : st.findEntity seEid = some e) :
    (∀ tgtDtid, st.merge_entities srcDtid tgtDtid seEid seEid true = st) ∧
    (srcM.is_uncertain_to seEid = tgtM.is_uncertain_to seEid →
      st.merge_entities srcDtid (some td) seEid seEid false = st) ∧
    (srcM.is_uncertain_to seEid = false → tgtM.is_uncertain_to seEid = true →
      ∃ e2 m2,
        (st.merge_entities srcDtid (some td) seEid seEid false).findEntity seEid = some e2 ∧
        (st.merge_entities srcDtid (some td) seEid seEid false).findMention td = some m2 ∧
        td ∈ e2.mentions ∧ td ∉ e2.mentions_unc ∧ seEid ∈ m2.eids ∧ seEid ∉ m2.eids_unc) ∧
    (srcM.is_uncertain_to seEid = true → tgtM.is_uncertain_to seEid = false →
      ∃ e2 m2,
        (st.merge_entities srcDtid (some td) seEid seEid false).findEntity seEid = some e2 ∧
        (st.merge_entities srcDtid (some td) seEid seEid false).findMention srcDtid = some m2 ∧
        srcDtid ∈ e2.mentions ∧ srcDtid ∉ e2.mentions_unc ∧
        seEid ∈ m2.eids ∧ seEid ∉ m2.eids_unc) ∧
    (∀ unc, (st.merge_entities srcDtid (some td) seEid seEid unc).entities.map
      (fun x => x.eid) = st.entities.map (fun x => x.eid)) := by
  have heval := merge_same_eval st srcDtid td seEid hsrc htgt
  have hinv := (reach_inv st h).1
  have hke : e.eid = seEid := (find?_key_mem (fun y : Entity => y.eid) he).2
  have heMem : e ∈ st.entities := (find?_key_mem (fun y : Entity => y.eid) he).1
  refine ⟨fun tgtDtid => merge_same_uncertain st srcDtid tgtDtid seEid, ?_, ?_, ?_, ?_⟩
  · intro heq
    rw [heval, heq]
    cases tgtM.is_uncertain_to seEid <;> simp
  · intro h1 h2
    have hc1 : ((!(srcM.is_uncertain_to seEid)) && (tgtM.is_uncertain_to seEid)) = true := by
      rw [h1, h2]; rfl
    rw [heval, if_pos hc1]
    have hkm : tgtM.dtid = td := (find?_key_mem (fun y : Mention => y.dtid) htgt).2
    have hmMem : tgtM ∈ st.mentions := (find?_key_mem (fun y : Mention => y.dtid) htgt).1
    obtain ⟨hbic1, hbic2⟩ := hinv.2.2.1 e heMem tgtM hmMem
    obtain ⟨hfe, hfm, _, _, _⟩ := DocState.add_mention_find st seEid td false he htgt
    refine ⟨(e.add_mention tgtM false).1, (e.add_mention tgtM false).2, hfe, hfm, ?_, ?_, ?_, ?_⟩
    · by_cases hcu : tgtM.dtid ∈ e.mentions_unc
      · rw [Entity.add_mention_cert_unc e tgtM hcu hbic1 hbic2, ← hkm]
        exact mem_insertL_self
      · rw [Entity.add_mention_cert_notunc e tgtM hcu, ← hkm]
        exact mem_insertL_self
    · by_cases hcu : tgtM.dtid ∈ e.mentions_unc
      · rw [Entity.add_mention_cert_unc e tgtM hcu hbic1 hbic2, ← hkm]
        intro hc
        exact (mem_removeL.mp hc).2 rfl
      · rw [Entity.add_mention_cert_notunc e tgtM hcu, ← hkm]
        exact hcu
    · by_cases hcu : tgtM.dtid ∈ e.mentions_unc
      · rw [Entity.add_mention_cert_unc e tgtM hcu hbic1 hbic2, ← hke]
        exact mem_insertL_self
      · rw [Entity.add_mention_cert_notunc e tgtM hcu, ← hke]
        exact mem_insertL_self
    · by_cases hcu : tgtM.dtid ∈ e.mentions_unc
      · rw [Entity.add_mention_cert_unc e tgtM hcu hbic1 hbic2, ← hke]
        intro hc
        exact (mem_removeL.mp hc).2 rfl
      · rw [Entity.add_mention_cert_notunc e tgtM hcu, ← hke]
        intro hc
        exact hcu (hbic2.mpr hc)
  · intro h1 h2
    have hc1 : ((!(srcM.is_uncertain_to seEid)) && (tgtM.is_uncertain_to seEid)) = false := by
      rw [h1, h2]; rfl
    have hc2 : ((srcM.is_uncertain_to seEid) && (!(tgtM.is_uncertain_to seEid))) = true := by
      rw [h1, h2]; rfl
    rw [heval, hc1, if_neg (Bool.false_ne_true), if_pos hc2]
    have hkm : srcM.dtid = srcDtid := (find?_key_mem (fun y : Mention => y.dtid) hsrc).2
    have hmMem : srcM ∈ st.mentions := (find?_key_mem (fun y : Mention => y.dtid) hsrc).1
    obtain ⟨hbic1, hbic2⟩ := hinv.2.2.1 e heMem srcM hmMem
    obtain ⟨hfe, hfm, _, _, _⟩ := DocState.add_mention_find st seEid srcDtid false he hsrc
    refine ⟨(e.add_mention srcM false).1, (e.add_mention srcM false).2, hfe, hfm, ?_, ?_, ?_, ?_⟩
    · by_cases hcu : srcM.dtid ∈ e.mentions_unc
      · rw [Entity.add_mention_cert_unc e srcM hcu hbic1 hbic2, ← hkm]
        exact mem_insertL_self
      · rw [Entity.add_mention_cert_notunc e srcM hcu, ← hkm]
        exact mem_insertL_self
    · by_cases hcu : srcM.dtid ∈ e.mentions_unc
      · rw [Entity.add_mention_cert_unc e srcM hcu hbic1 hbic2, ← hkm]
        intro hc
        exact (mem_removeL.mp hc).2 rfl
      · rw [Entity.add_mention_cert_notunc e srcM hcu, ← hkm]
        exact hcu
    · by_cases hcu : srcM.dtid ∈ e.mentions_unc
      · rw [Entity.add_mention_cert_unc e srcM hcu hbic1 hbic2, ← hke]
        exact mem_insertL_self
      · rw [Entity.add_mention_cert_notunc e srcM hcu, ← hke]
        exact mem_insertL_self
    · by_cases hcu : srcM.dtid ∈ e.mentions_unc
      · rw [Entity.add_mention_cert_unc e srcM hcu hbic1 hbic2, ← hke]
        intro hc
        exact (mem_removeL.mp hc).2 rfl
      · rw [Entity.add_mention_cert_notunc e srcM hcu, ← hke]
        intro hc
        exact hcu (hbic2.mpr hc)
  · intro unc
    cases unc with
    | true => rw [merge_same_uncertain st srcDtid (some td) seEid]
    | false =>
        rw [heval]
        split
        · exact DocState.add_mention_entity_keys st seEid td false
        · split
          · exact DocState.add_mention_entity_keys st seEid srcDtid false
          · rfl

/-- Witness for C4: two mentions sharing one entity, the second one
uncertainly; the certain same-entity merge promotes it. -/
theorem merge_same_entity_triangle_witness :
    ∃ e2 m2,
      ((((DocState.init.create_mention ⟨0, true, false⟩).create_mention
        ⟨1, false, false⟩).add_mention 0 1 true).merge_entities 0 (some 1) 0 0 false).findEntity 0
          = some e2 ∧
      ((((DocState.init.create_mention ⟨0, true, false⟩).create_mention
        ⟨1, false, false⟩).add_mention 0 1 true).merge_entities 0 (some 1) 0 0 false).findMention 1
          = some m2 ∧
      1 ∈ e2.mentions ∧ 1 ∉ e2.mentions_unc ∧ 0 ∈ m2.eids ∧ 0 ∉ m2.eids_unc :=
  (merge_same_entity_triangle
    (((DocState.init.create_mention ⟨0, true, false⟩).create_mention
      ⟨1, false, false⟩).add_mention 0 1 true)
    (Reach.add_mention _ 0 1 true
      (Reach.create_mention _ ⟨1, false, false⟩
        (Reach.create_mention _ ⟨0, true, false⟩ Reach.init)))
    0 1 0
    (by decide : (((DocState.init.create_mention ⟨0, true, false⟩).create_mention
      ⟨1, false, false⟩).add_mention 0 1 true).findMention 0 =
        some ⟨0, true, false, [0], []⟩)
    (by decide : (((DocState.init.create_mention ⟨0, true, false⟩).create_mention
      ⟨1, false, false⟩).add_mention 0 1 true).findMention 1 =
        some ⟨1, false, false, [1], [0]⟩)
    (by decide : (((DocState.init.create_mention ⟨0, true, false⟩).create_mention
      ⟨1, false, false⟩).add_mention 0 1 true).findEntity 0 =
        some ⟨0, none, [0], [1], some false, some false⟩)).2.2.1 (by decide) (by decide)

/-- How Entity.add_mention links the mention to the entity: a certain add
always ends with the eid in the certain set only; an uncertain add keeps
the certain set and puts the eid in the uncertain set unless the mention
was already linked. -/
theorem Entity.add_mention_link_char (e : Entity) (m : Mention) (unc : Bool)
    (h1 : m.dtid ∈ e.mentions ↔ e.eid ∈ m.eids)
    (h2 : m.dtid ∈ e.mentions_unc ↔ e.eid ∈ m.eids_unc) :
    (unc = false → e.eid ∈ (e.add_mention m unc).2.eids ∧ e.eid ∉ (e.add_mention m unc).2.eids_unc) ∧
    (unc = true → (e.eid ∈ (e.add_mention m unc).2.eids ↔ e.eid ∈ m.eids) ∧
      (e.eid ∈ (e.add_mention m unc).2.eids_unc ↔ (e.eid ∈ m.eids_unc ∨ e.eid ∉ m.eids))) := by
  cases unc with
  | false =>
      refine ⟨fun _ => ?_, fun hc => Bool.noConfusion hc⟩
      by_cases hcu : m.dtid ∈ e.mentions_unc
      · rw [Entity.add_mention_cert_unc e m hcu h1 h2]
        exact ⟨mem_insertL_self, fun hc => (mem_removeL.mp hc).2 rfl⟩
      · rw [Entity.add_mention_cert_notunc e m hcu]
        exact ⟨mem_insertL_self, fun hc => hcu (h2.mpr hc)⟩
  | true =>
      refine ⟨fun hc => Bool.noConfusion hc, fun _ => ?_⟩
      by_cases hm : m.dtid ∈ e.mentions ∨ m.dtid ∈ e.mentions_unc
      · rw [Entity.add_mention_unc_noop e m hm]
        refine ⟨Iff.rfl, ?_⟩
        constructor
        · intro hu
          exact Or.inl hu
        · rintro (hu | hni)
          · exact hu
          · rcases hm with hm | hm
            · exact absurd (h1.mp hm) hni
            · exact h2.mp hm
      · rw [Entity.add_mention_unc_fresh e m hm]
        refine ⟨Iff.rfl, ?_⟩
        constructor
        · intro _
          refine Or.inr ?_
          intro hin
          exact hm (Or.inl (h1.mpr hin))
        · intro _
          exact mem_insertL_self

/-- Evaluation of the distinct-entity merge when any of the three
uncertainty signals stops it: the result is exactly the two add_mention
calls, each with the certainty the code computes. -/
theorem merge_distinct_eval (st : DocState) (srcDtid td seEid teEid : Nat) (unc : Bool)
    {srcM tgtM : Mention}
    (hne : seEid ≠ teEid)
    (hsrc : st.findMention srcDtid = some srcM) (htgt : st.findMention td = some tgtM)
    (hstop : (srcM.is_uncertain_to seEid || unc || tgtM.is_uncertain_to teEid) = true) :
    st.merge_entities srcDtid (some td) seEid teEid unc =
      (st.add_mention seEid td (unc || srcM.is_uncertain_to seEid)).add_mention teEid srcDtid
        (unc || tgtM.is_uncertain_to teEid) := by
  unfold DocState.merge_entities
  dsimp only
  rw [hsrc, htgt, if_neg hne]
  dsimp only
  rw [if_pos hstop]

/-- C3 counterexample: in a reachable three-mention document the target
mention's existing edge to the target entity is uncertain while the new
link and the source edge are certain; Document._merge_entities still links
the target mention into the source entity CERTAINLY (the certainty of
that link is uncertain or uncertain_src, never uncertain_tgt), so the
source entity's eid 2 enters the target mention's certain eid set,
contradicting the claimed rule that the link be certain only when the new
link and both existing edges are certain. -/
theorem merge_distinct_link_rule_counterexample :
    Reach ((((DocState.init.create_mention ⟨0, true, false⟩).create_mention
      ⟨1, false, false⟩).create_mention ⟨2, false, true⟩).add_mention 0 1 true) ∧
    ((((DocState.init.create_mention ⟨0, true, false⟩).create_mention
      ⟨1, false, false⟩).create_mention ⟨2, false, true⟩).add_mention 0 1 true).findMention 1 =
      some ⟨1, false, false, [1], [0]⟩ ∧
    Mention.is_uncertain_to ⟨1, false, false, [1], [0]⟩ 0 = true ∧
    Mention.is_uncertain_to ⟨1, false, false, [1], [0]⟩ 1 = false ∧
    (∃ m2,
      (((((DocState.init.create_mention ⟨0, true, false⟩).create_mention
        ⟨1, false, false⟩).create_mention ⟨2, false, true⟩).add_mention 0 1 true).merge_entities
          2 (some 1) 2 0 false).findMention 1 = some m2 ∧
      2 ∈ m2.eids ∧ 2 ∉ m2.eids_unc) :=
  ⟨Reach.add_mention _ 0 1 true
    (Reach.create_mention _ ⟨2, false, true⟩
      (Reach.create_mention _ ⟨1, false, false⟩
        (Reach.create_mention _ ⟨0, true, false⟩ Reach.init))),
   by decide, by decide, by decide,
   ⟨⟨1, false, false, [1, 2], [0]⟩, by decide, by decide, by decide⟩⟩

/-- C3 (amended): with distinct source and target entities, when the new
link is uncertain or either existing edge is uncertain, no entity is
deleted (the entity-table keys are unchanged) and no entity merge happens;
the target mention is linked into the source entity with certainty
determined by the new link and the SOURCE edge only (certain iff both are
certain; an uncertain link leaves an existing certain link in place), and
the source mention is linked into the target entity with certainty
determined by the new link and the TARGET edge only. -/
theorem merge_distinct_some (st : DocState) (h : Reach st)
    (srcDtid td seEid teEid : Nat) (unc : Bool) {srcM tgtM : Mention} {se te : Entity}
    (hne : seEid ≠ teEid) (hnd : srcDtid ≠ td)
    (hsrc : st.findMention srcDtid = some srcM) (htgt : st.findMention td = some tgtM)
    (hse : st.findEntity seEid = some se) (hte : st.findEntity teEid = some te)
    (hstop : (srcM.is_uncertain_to seEid || unc || tgtM.is_uncertain_to teEid) = true) :
    ∃ m2 s2,
      (st.merge_entities srcDtid (some td) seEid teEid unc).findMention td = some m2 ∧
      (st.merge_entities srcDtid (some td) seEid teEid unc).findMention srcDtid = some s2 ∧
      ((unc || srcM.is_uncertain_to seEid) = false → seEid ∈ m2.eids ∧ seEid ∉ m2.eids_unc) ∧
      ((unc || srcM.is_uncertain_to seEid) = true →
        (seEid ∈ m2.eids ↔ seEid ∈ tgtM.eids) ∧
        (seEid ∈ m2.eids_unc ↔ (seEid ∈ tgtM.eids_unc ∨ seEid ∉ tgtM.eids))) ∧
      ((unc || tgtM.is_uncertain_to teEid) = false → teEid ∈ s2.eids ∧ teEid ∉ s2.eids_unc) ∧
      ((unc || tgtM.is_uncertain_to teEid) = true →
        (teEid ∈ s2.eids ↔ teEid ∈ srcM.eids) ∧
        (teEid ∈ s2.eids_unc ↔ (teEid ∈ srcM.eids_unc ∨ teEid ∉ srcM.eids))) ∧
      (st.merge_entities srcDtid (some td) seEid teEid unc).entities.map (fun x => x.eid)
        = st.entities.map (fun x => x.eid) := by
  have heval := merge_distinct_eval st srcDtid td seEid teEid unc hne hsrc htgt hstop
  have hinv := (reach_inv st h).1
  have hkse : se.eid = seEid := (find?_key_mem (fun y : Entity => y.eid) hse).2
  have hkte : te.eid = teEid := (find?_key_mem (fun y : Entity => y.eid) hte).2
  have hseMem : se ∈ st.entities := (find?_key_mem (fun y : Entity => y.eid) hse).1
  have hteMem : te ∈ st.entities := (find?_key_mem (fun y : Entity => y.eid) hte).1
  have htgtMem : tgtM ∈ st.mentions := (find?_key_mem (fun y : Mention => y.dtid) htgt).1
  have hsrcMem : srcM ∈ st.mentions := (find?_key_mem (fun y : Mention => y.dtid) hsrc).1
  obtain ⟨hbt1, hbt2⟩ := hinv.2.2.1 se hseMem tgtM htgtMem
  obtain ⟨hbs1, hbs2⟩ := hinv.2.2.1 te hteMem srcM hsrcMem
  obtain ⟨hfe1, hfm1, hfex1, hfmx1, _⟩ :=
    DocState.add_mention_find st seEid td (unc || srcM.is_uncertain_to seEid) hse htgt
  have hte1 : (st.add_mention seEid td (unc || srcM.is_uncertain_to seEid)).findEntity teEid =
      some te := by
    rw [hfex1 teEid (Ne.symm hne)]
    exact hte
  have hsrc1 : (st.add_mention seEid td (unc || srcM.is_uncertain_to seEid)).findMention srcDtid =
      some srcM := by
    rw [hfmx1 srcDtid hnd]
    exact hsrc
  obtain ⟨hfe2, hfm2, hfex2, hfmx2, _⟩ :=
    DocState.add_mention_find _ teEid srcDtid (unc || tgtM.is_uncertain_to teEid) hte1 hsrc1
  have hmtd : ((st.add_mention seEid td (unc || srcM.is_uncertain_to seEid)).add_mention teEid
      srcDtid (unc || tgtM.is_uncertain_to teEid)).findMention td =
      some (se.add_mention tgtM (unc || srcM.is_uncertain_to seEid)).2 := by
    rw [hfmx2 td (fun hc => hnd hc.symm)]
    exact hfm1
  have hchar_t := Entity.add_mention_link_char se tgtM (unc || srcM.is_uncertain_to seEid) hbt1 hbt2
  rw [hkse] at hchar_t
  have hchar_s := Entity.add_mention_link_char te srcM (unc || tgtM.is_uncertain_to teEid) hbs1 hbs2
  rw [hkte] at hchar_s
  rw [heval]
  refine ⟨(se.add_mention tgtM (unc || srcM.is_uncertain_to seEid)).2,
          (te.add_mention srcM (unc || tgtM.is_uncertain_to teEid)).2,
          hmtd, hfm2, hchar_t.1, hchar_t.2, hchar_s.1, hchar_s.2, ?_⟩
  rw [DocState.add_mention_entity_keys, DocState.add_mention_entity_keys]

/-- Reading Mention.is_uncertain_to as a membership fact. -/
theorem Mention.is_uncertain_to_false_iff (m : Mention) (eid : Nat) :
    m.is_uncertain_to eid = false ↔ eid ∈ m.eids := by
  unfold Mention.is_uncertain_to
  simp

/-- Reading Mention.is_uncertain_to as a non-membership fact. -/
theorem Mention.is_uncertain_to_true_iff (m : Mention) (eid : Nat) :
    m.is_uncertain_to eid = true ↔ eid ∉ m.eids := by
  unfold Mention.is_uncertain_to
  simp

/-- The pair (is x a certain eid, is x an uncertain eid) of a mention. -/
def eidsProj (x : Nat) (m : Mention) : Bool × Bool :=
  (decide (x ∈ m.eids), decide (x ∈ m.eids_unc))

/-- Entity.remove_mention only touches the entity's own eid inside the
mention: any other eid keeps its membership picture. -/
theorem Entity.remove_mention_eids_proj (e : Entity) (m : Mention) (x : Nat)
    (hx : x ≠ e.eid) : eidsProj x (e.remove_mention m).2 = eidsProj x m := by
  unfold Entity.remove_mention
  dsimp only
  split <;> split <;> simp [eidsProj, mem_removeL, hx]

/-- Entity.add_mention only touches the entity's own eid inside the
mention: any other eid keeps its membership picture. -/
theorem Entity.add_mention_eids_iff (e : Entity) (m : Mention) (unc : Bool) (x : Nat)
    (hx : x ≠ e.eid) :
    (x ∈ (e.add_mention m unc).2.eids ↔ x ∈ m.eids) ∧
    (x ∈ (e.add_mention m unc).2.eids_unc ↔ x ∈ m.eids_unc) := by
  unfold Entity.add_mention Entity.remove_mention
  dsimp only
  split
  · split
    · exact ⟨Iff.rfl, Iff.rfl⟩
    · simp [mem_insertL, hx]
  · split
    · split <;> simp [mem_insertL, mem_removeL, hx]
    · simp [mem_insertL, hx]

theorem Entity.add_mention_eids_proj (e : Entity) (m : Mention) (unc : Bool) (x : Nat)
    (hx : x ≠ e.eid) : eidsProj x (e.add_mention m unc).2 = eidsProj x m := by
  obtain ⟨h1, h2⟩ := Entity.add_mention_eids_iff e m unc x hx
  simp [eidsProj, h1, h2]

/-- An unsuccessful lookup makes DocState.add_mention a no-op. -/
theorem DocState.add_mention_noop_entity (st : DocState) (eid dtid : Nat) (unc : Bool)
    (he : st.findEntity eid = none) : st.add_mention eid dtid unc = st := by
  unfold DocState.add_mention
  rw [he]

theorem DocState.add_mention_noop_mention (st : DocState) (eid dtid : Nat) (unc : Bool)
    {e : Entity} (he : st.findEntity eid = some e) (hm : st.findMention dtid = none) :
    st.add_mention eid dtid unc = st := by
  unfold DocState.add_mention
  rw [he, hm]

/-- DocState.add_mention never changes any other mention entry. -/
theorem DocState.add_mention_findMention_ne (st : DocState) (eid dtid : Nat) (unc : Bool)
    (d : Nat) (hd : d ≠ dtid) :
    (st.add_mention eid dtid unc).findMention d = st.findMention d := by
  cases he : st.findEntity eid with
  | none => rw [DocState.add_mention_noop_entity st eid dtid unc he]
  | some e =>
      cases hm : st.findMention dtid with
      | none => rw [DocState.add_mention_noop_mention st eid dtid unc he hm]
      | some m => exact (DocState.add_mention_find st eid dtid unc he hm).2.2.2.1 d hd

/-- DocState.add_mention never changes any other entity entry. -/
theorem DocState.add_mention_findEntity_ne (st : DocState) (eid dtid : Nat) (unc : Bool)
    (x : Nat) (hx : x ≠ eid) :
    (st.add_mention eid dtid unc).findEntity x = st.findEntity x := by
  cases he : st.findEntity eid with
  | none => rw [DocState.add_mention_noop_entity st eid dtid unc he]
  | some e =>
      cases hm : st.findMention dtid with
      | none => rw [DocState.add_mention_noop_mention st eid dtid unc he hm]
      | some m => exact (DocState.add_mention_find st eid dtid unc he hm).2.2.1 x hx

/-- DocState.add_mention never changes the special-argument list. -/
theorem DocState.add_mention_specialArgs_eq (st : DocState) (eid dtid : Nat) (unc : Bool) :
    (st.add_mention eid dtid unc).specialArgs = st.specialArgs := by
  cases he : st.findEntity eid with
  | none => rw [DocState.add_mention_noop_entity st eid dtid unc he]
  | some e =>
      cases hm : st.findMention dtid with
      | none => rw [DocState.add_mention_noop_mention st eid dtid unc he hm]
      | some m => exact (DocState.add_mention_find st eid dtid unc he hm).2.2.2.2

/-- DocState.add_mention never changes any entity's exophor. -/
theorem DocState.add_mention_exophor_proj (st : DocState) (eid dtid : Nat) (unc : Bool)
    (x : Nat) : ((st.add_mention eid dtid unc).findEntity x).map (fun e => e.exophor) =
      (st.findEntity x).map (fun e => e.exophor) := by
  cases he : st.findEntity eid with
  | none => rw [DocState.add_mention_noop_entity st eid dtid unc he]
  | some e =>
      cases hm : st.findMention dtid with
      | none => rw [DocState.add_mention_noop_mention st eid dtid unc he hm]
      | some m =>
          by_cases hx : x = eid
          · subst hx
            rw [(DocState.add_mention_find st x dtid unc he hm).1, he]
            exact congrArg some (Entity.add_mention_proj e m unc).2.2.1
          · rw [(DocState.add_mention_find st eid dtid unc he hm).2.2.1 x hx]

/-- DocState.add_mention keeps the seEid-independence of every mention's
other eids. -/
theorem DocState.add_mention_eidsProj_map (st : DocState) (eid dtid : Nat) (unc : Bool)
    (x : Nat) (hx : x ≠ eid) (d : Nat) :
    ((st.add_mention eid dtid unc).findMention d).map (eidsProj x) =
      (st.findMention d).map (eidsProj x) := by
  cases he : st.findEntity eid with
  | none => rw [DocState.add_mention_noop_entity st eid dtid unc he]
  | some e =>
      cases hm : st.findMention dtid with
      | none => rw [DocState.add_mention_noop_mention st eid dtid unc he hm]
      | some m =>
          by_cases hd : d = dtid
          · subst hd
            rw [(DocState.add_mention_find st eid d unc he hm).2.1, hm]
            have hkey : e.eid = eid := (find?_key_mem (fun y : Entity => y.eid) he).2
            exact congrArg some (Entity.add_mention_eids_proj e m unc x (hkey ▸ hx))
          · rw [(DocState.add_mention_find st eid dtid unc he hm).2.2.2.1 d hd]

/-- DocState.remove_mention keeps the membership picture of every eid other
than the removed one. -/
theorem DocState.remove_mention_eidsProj_map (st : DocState) (eid dtid x : Nat) (hx : x ≠ eid)
    (d : Nat) :
    ((st.remove_mention eid dtid).findMention d).map (eidsProj x) =
      (st.findMention d).map (eidsProj x) := by
  cases he : st.findEntity eid with
  | none =>
      have : st.remove_mention eid dtid = st := by
        unfold DocState.remove_mention
        rw [he]
      rw [this]
  | some e =>
      cases hm : st.findMention dtid with
      | none =>
          have : st.remove_mention eid dtid = st := by
            unfold DocState.remove_mention
            rw [he, hm]
          rw [this]
      | some m =>
          by_cases hd : d = dtid
          · subst hd
            rw [(DocState.remove_mention_find st eid d he hm).2.1, hm]
            have hkey : e.eid = eid := (find?_key_mem (fun y : Entity => y.eid) he).2
            exact congrArg some (Entity.remove_mention_eids_proj e m x (hkey ▸ hx))
          · rw [(DocState.remove_mention_find st eid dtid he hm).2.2.2.1 d hd]

theorem fold_remove_eids_proj (L : List Nat) (st : DocState) (eid x : Nat) (hx : x ≠ eid)
    (d : Nat) :
    (((L.foldl (fun s d => s.remove_mention eid d) st).findMention d).map (eidsProj x)) =
      (st.findMention d).map (eidsProj x) := by
  induction L generalizing st with
  | nil => rfl
  | cons a L ih =>
      rw [List.foldl_cons, ih, DocState.remove_mention_eidsProj_map st eid a x hx d]

/-- Deleting an entity keeps the membership picture of every other eid in
every mention. -/
theorem DocState.delete_entity_eids_proj (st : DocState) (eid x : Nat) (hx : x ≠ eid)
    (d : Nat) :
    (((st.delete_entity eid).findMention d).map (eidsProj x)) =
      (st.findMention d).map (eidsProj x) := by
  unfold DocState.delete_entity
  cases he : st.findEntity eid with
  | none => rfl
  | some e =>
      dsimp only
      exact fold_remove_eids_proj (e.mentions ++ e.mentions_unc) st eid x hx d

/-- Projections of a pure special-argument update. -/
theorem DocState.setArgs_findMention (st : DocState) (l : List Nat) (d : Nat) :
    DocState.findMention { st with specialArgs := l } d = st.findMention d := rfl

theorem DocState.setArgs_findEntity (st : DocState) (l : List Nat) (x : Nat) :
    DocState.findEntity { st with specialArgs := l } x = st.findEntity x := rfl

theorem DocState.setArgs_specialArgs (st : DocState) (l : List Nat) :
    DocState.specialArgs { st with specialArgs := l } = l := rfl

/-- Transfer of a membership picture across an unknown lookup result. -/
theorem eidsProj_transfer {o : Option Mention} {m2 : Mention} (x : Nat)
    (h : o.map (eidsProj x) = some (eidsProj x m2)) :
    ∃ m3, o = some m3 ∧ (x ∈ m3.eids ↔ x ∈ m2.eids) ∧
      (x ∈ m3.eids_unc ↔ x ∈ m2.eids_unc) := by
  cases o with
  | none => exact absurd h (by simp)
  | some m3 =>
      have hpp : eidsProj x m3 = eidsProj x m2 := by
        simpa using h
      simp only [eidsProj, Prod.mk.injEq, decide_eq_decide] at hpp
      exact ⟨m3, rfl, hpp.1, hpp.2⟩

/-- The relinking fold of the merge never changes a mention outside its
list. -/
theorem fold_relink_findMention_ne (L : List Nat) (seEid teEid : Nat) :
    ∀ s : DocState, ∀ d, d ∉ L →
      ((L.foldl (fun s d =>
        let unc : Bool :=
          match s.findMention d with
          | some tm => tm.is_uncertain_to teEid
          | none => true
        s.add_mention seEid d unc) s).findMention d) = s.findMention d := by
  induction L with
  | nil =>
      intro s d _
      rfl
  | cons a L ih =>
      intro s d hd
      have hda : d ≠ a := fun hc => hd (hc ▸ List.mem_cons_self a L)
      rw [List.foldl_cons, ih _ d (fun hc => hd (List.mem_cons_of_mem a hc))]
      exact DocState.add_mention_findMention_ne s seEid a _ d hda

/-- The relinking fold of the merge never changes an entity other than the
surviving one. -/
theorem fold_relink_findEntity_ne (L : List Nat) (seEid teEid : Nat) :
    ∀ s : DocState, ∀ x, x ≠ seEid →
      ((L.foldl (fun s d =>
        let unc : Bool :=
          match s.findMention d with
          | some tm => tm.is_uncertain_to teEid
          | none => true
        s.add_mention seEid d unc) s).findEntity x) = s.findEntity x := by
  induction L with
  | nil =>
      intro s x _
      rfl
  | cons a L ih =>
      intro s x hx
      rw [List.foldl_cons, ih _ x hx]
      exact DocState.add_mention_findEntity_ne s seEid a _ x hx

/-- The relinking fold of the merge never changes the special-argument
list. -/
theorem fold_relink_specialArgs (L : List Nat) (seEid teEid : Nat) :
    ∀ s : DocState,
      ((L.foldl (fun s d =>
        let unc : Bool :=
          match s.findMention d with
          | some tm => tm.is_uncertain_to teEid
          | none => true
        s.add_mention seEid d unc) s).specialArgs) = s.specialArgs := by
  induction L with
  | nil =>
      intro s
      rfl
  | cons a L ih =>
      intro s
      rw [List.foldl_cons, ih _]
      exact DocState.add_mention_specialArgs_eq s seEid a _

/-- The relinking fold of the merge never changes the entity-table keys. -/
theorem fold_relink_entity_keys (L : List Nat) (seEid teEid : Nat) :
    ∀ s : DocState,
      ((L.foldl (fun s d =>
        let unc : Bool :=
          match s.findMention d with
          | some tm => tm.is_uncertain_to teEid
          | none => true
        s.add_mention seEid d unc) s).entities.map (fun e => e.eid)) =
        s.entities.map (fun e => e.eid) := by
  induction L with
  | nil =>
      intro s
      rfl
  | cons a L ih =>
      intro s
      rw [List.foldl_cons, ih _]
      exact DocState.add_mention_entity_keys s seEid a _

/-- The relinking fold of the merge never changes any entity's exophor. -/
theorem fold_relink_exophor (L : List Nat) (seEid teEid : Nat) :
    ∀ s : DocState, ∀ x,
      (((L.foldl (fun s d =>
        let unc : Bool :=
          match s.findMention d with
          | some tm => tm.is_uncertain_to teEid
          | none => true
        s.add_mention seEid d unc) s).findEntity x).map (fun e => e.exophor)) =
        (s.findEntity x).map (fun e => e.exophor) := by
  induction L with
  | nil =>
      intro s x
      rfl
  | cons a L ih =>
      intro s x
      rw [List.foldl_cons, ih _ x]
      exact DocState.add_mention_exophor_proj s seEid a _ x

/-- What the relinking fold of the merge does to each mention of its list:
a mention whose current edge to the dying entity is certain ends certainly
linked to the surviving entity; one whose edge is uncertain keeps its
certain-or-absent status toward the survivor and is uncertainly linked
exactly when it was not already certainly linked. -/
theorem fold_relink_char (L : List Nat) (seEid teEid : Nat) :
    ∀ s : DocState, L.Nodup → SInv s → (s.findEntity seEid).isSome →
      ∀ d ∈ L, ∀ dm, s.findMention d = some dm →
        ∃ m2, ((L.foldl (fun s d =>
            let unc : Bool :=
              match s.findMention d with
              | some tm => tm.is_uncertain_to teEid
              | none => true
            s.add_mention seEid d unc) s).findMention d) = some m2 ∧
          (dm.is_uncertain_to teEid = false → seEid ∈ m2.eids ∧ seEid ∉ m2.eids_unc) ∧
          (dm.is_uncertain_to teEid = true →
            (seEid ∈ m2.eids ↔ seEid ∈ dm.eids) ∧
            (seEid ∈ m2.eids_unc ↔ (seEid ∈ dm.eids_unc ∨ seEid ∉ dm.eids))) := by
  induction L with
  | nil =>
      intro s _ _ _ d hd
      exact absurd hd (List.not_mem_nil d)
  | cons a L ih =>
      intro s hnd hinv hse d hd dm hm
      obtain ⟨haL, hndL⟩ := List.nodup_cons.mp hnd
      rw [List.foldl_cons]
      dsimp only
      rcases List.mem_cons.mp hd with rfl | hdL
      · rw [hm]
        dsimp only
        obtain ⟨se0, hse0⟩ := Option.isSome_iff_exists.mp hse
        obtain ⟨hfe1, hfm1, _, _, _⟩ :=
          DocState.add_mention_find s seEid d (dm.is_uncertain_to teEid) hse0 hm
        have hkey : se0.eid = seEid := (find?_key_mem (fun y : Entity => y.eid) hse0).2
        have hseMem : se0 ∈ s.entities := (find?_key_mem (fun y : Entity => y.eid) hse0).1
        have hmMem : dm ∈ s.mentions := (find?_key_mem (fun y : Mention => y.dtid) hm).1
        obtain ⟨hb1, hb2⟩ := hinv.2.2.1 se0 hseMem dm hmMem
        have hchar := Entity.add_mention_link_char se0 dm (dm.is_uncertain_to teEid) hb1 hb2
        rw [hkey] at hchar
        refine ⟨(se0.add_mention dm (dm.is_uncertain_to teEid)).2, ?_, hchar.1, hchar.2⟩
        rw [fold_relink_findMention_ne L seEid teEid _ d haL]
        exact hfm1
      · have hda : d ≠ a := fun hc => haL (hc ▸ hdL)
        refine ih _ hndL ?_ ?_ d hdL dm ?_
        · exact sinv_add_mention _ _ _ _ hinv
        · rw [DocState.findEntity_isSome_iff, DocState.add_mention_entity_keys,
            ← DocState.findEntity_isSome_iff]
          exact hse
        · rw [DocState.add_mention_findMention_ne s seEid a _ d hda]
          exact hm

/-- Rewriting the special arguments and deleting the dying entity keeps
every mention's membership picture of the surviving eid. -/
theorem delete_args_mention_char (G : DocState) (args : List Nat) (seEid teEid : Nat)
    (hne : seEid ≠ teEid) (d : Nat) {m2 : Mention} (hm2 : G.findMention d = some m2) :
    ∃ m3, ((DocState.delete_entity { G with specialArgs := args } teEid).findMention d) =
        some m3 ∧
      (seEid ∈ m3.eids ↔ seEid ∈ m2.eids) ∧ (seEid ∈ m3.eids_unc ↔ seEid ∈ m2.eids_unc) := by
  have htr := DocState.delete_entity_eids_proj { G with specialArgs := args } teEid seEid hne d
  have hG : DocState.findMention { G with specialArgs := args } d = some m2 := hm2
  rw [hG] at htr
  exact eidsProj_transfer seEid htr

/-- The deleting tail of the merge, run from the state after the exophor
adoption: the dying entity's key is gone, its eid is rewritten to the
survivor in the special arguments, the survivor keeps its exophor, and
every mention in the dying entity's two sets ends linked to the survivor
by the certainty of its current edge to the dying entity. -/
theorem relink_delete_char (s : DocState) (seEid teEid : Nat) (te2 : Entity) (P : DocState)
    (hinv : SInv s) (hne : seEid ≠ teEid)
    (hnodL : (te2.mentions ++ te2.mentions_unc).Nodup)
    {se3 : Entity} (hse3 : s.findEntity seEid = some se3)
    (hP : P = DocState.delete_entity { ((te2.mentions ++ te2.mentions_unc).foldl (fun s d =>
        let unc : Bool :=
          match s.findMention d with
          | some tm => tm.is_uncertain_to teEid
          | none => true
        s.add_mention seEid d unc) s) with
      specialArgs := ((te2.mentions ++ te2.mentions_unc).foldl (fun s d =>
        let unc : Bool :=
          match s.findMention d with
          | some tm => tm.is_uncertain_to teEid
          | none => true
        s.add_mention seEid d unc) s).specialArgs.map
        (fun x => if x = teEid then seEid else x) } teEid) :
    P.findEntity teEid = none ∧
    P.specialArgs = s.specialArgs.map (fun x => if x = teEid then seEid else x) ∧
    (P.findEntity seEid).map (fun e => e.exophor) = some se3.exophor ∧
    (∀ d ∈ te2.mentions ++ te2.mentions_unc, ∀ dm, s.findMention d = some dm →
      ∃ m2, P.findMention d = some m2 ∧
        (dm.is_uncertain_to teEid = false → seEid ∈ m2.eids ∧ seEid ∉ m2.eids_unc) ∧
        (dm.is_uncertain_to teEid = true →
          (seEid ∈ m2.eids ↔ seEid ∈ dm.eids) ∧
          (seEid ∈ m2.eids_unc ↔ (seEid ∈ dm.eids_unc ∨ seEid ∉ dm.eids)))) := by
  subst hP
  set F := ((te2.mentions ++ te2.mentions_unc).foldl (fun s d =>
      let unc : Bool :=
        match s.findMention d with
        | some tm => tm.is_uncertain_to teEid
        | none => true
      s.add_mention seEid d unc) s) with hF
  have hFsa : F.specialArgs = s.specialArgs := by
    rw [hF]
    exact fold_relink_specialArgs (te2.mentions ++ te2.mentions_unc) seEid teEid s
  have hFex : (F.findEntity seEid).map (fun e => e.exophor) = some se3.exophor := by
    rw [hF, fold_relink_exophor (te2.mentions ++ te2.mentions_unc) seEid teEid s seEid, hse3]
    rfl
  refine ⟨DocState.delete_entity_find_self _ teEid, ?_, ?_, ?_⟩
  · rw [DocState.delete_entity_specialArgs]
    exact congrArg (List.map (fun x => if x = teEid then seEid else x)) hFsa
  · rw [DocState.delete_entity_find_ne _ teEid seEid hne]
    exact hFex
  · intro d hd dm hm
    obtain ⟨m2, hm2, hprops⟩ := fold_relink_char (te2.mentions ++ te2.mentions_unc) seEid teEid
      s hnodL hinv (by rw [hse3]; rfl) d hd dm hm
    have hm2F : F.findMention d = some m2 := hm2
    obtain ⟨m3, hm3, hiff1, hiff2⟩ := delete_args_mention_char F
      (F.specialArgs.map (fun x => if x = teEid then seEid else x)) seEid teEid hne d hm2F
    refine ⟨m3, hm3, ?_, ?_⟩
    · intro hb
      exact ⟨hiff1.mpr (hprops.1 hb).1, fun hc => (hprops.1 hb).2 (hiff2.mp hc)⟩
    · intro hb
      exact ⟨hiff1.trans ((hprops.2 hb).1), hiff2.trans ((hprops.2 hb).2)⟩

/-- Evaluation of the distinct-entity merge when all three uncertainty
signals are off and the exophors do not clash: the two add_mention calls,
the exophor adoption, the relinking fold, the special-argument rewrite and
the deletion of the target entity. -/
theorem merge_final_eval (st : DocState) (srcDtid td seEid teEid : Nat)
    {srcM tgtM : Mention} {se1 te2v : Entity}
    (hne : seEid ≠ teEid)
    (hsrc : st.findMention srcDtid = some srcM) (htgt : st.findMention td = some tgtM)
    (hus : srcM.is_uncertain_to seEid = false) (hut : tgtM.is_uncertain_to teEid = false)
    (hseSt2 : ((st.add_mention seEid td false).add_mention teEid srcDtid false).findEntity seEid
      = some se1)
    (hteSt2 : ((st.add_mention seEid td false).add_mention teEid srcDtid false).findEntity teEid
      = some te2v)
    (hexo2 : ¬ (se1.exophor.isSome ∧ te2v.exophor.isSome ∧ se1.exophor ≠ te2v.exophor)) :
    st.merge_entities srcDtid (some td) seEid teEid false =
      DocState.delete_entity
        { ((te2v.mentions ++ te2v.mentions_unc).foldl (fun s d =>
            let unc : Bool :=
              match s.findMention d with
              | some tm => tm.is_uncertain_to teEid
              | none => true
            s.add_mention seEid d unc)
            (if se1.exophor = none
             then ((st.add_mention seEid td false).add_mention teEid srcDtid false).setEntity
               { se1 with exophor := te2v.exophor }
             else (st.add_mention seEid td false).add_mention teEid srcDtid false)) with
          specialArgs := ((te2v.mentions ++ te2v.mentions_unc).foldl (fun s d =>
            let unc : Bool :=
              match s.findMention d with
              | some tm => tm.is_uncertain_to teEid
              | none => true
            s.add_mention seEid d unc)
            (if se1.exophor = none
             then ((st.add_mention seEid td false).add_mention teEid srcDtid false).setEntity
               { se1 with exophor := te2v.exophor }
             else (st.add_mention seEid td false).add_mention teEid srcDtid false)).specialArgs.map
            (fun x => if x = teEid then seEid else x) } teEid := by
  unfold DocState.merge_entities
  dsimp only
  rw [hsrc, htgt]
  dsimp only
  rw [hus, hut, if_neg hne]
  simp only [Bool.false_or, Bool.or_self]
  rw [if_neg (Bool.false_ne_true)]
  rw [hseSt2, hteSt2]
  dsimp only
  rw [if_neg hexo2]

/-- C1 (amended): for a merge of distinct entities in which the new link
and both existing edges are certain and the exophors do not clash, the
target entity's eid leaves the entity table, every SpecialArgument eid
equal to it is rewritten to the source entity's eid (none keeps the dead
eid), the source entity keeps its exophor unless it was None, in which
case it adopts the target's; every mention of the target entity's certain
set ends certainly linked to the source entity, as does the source
mention (even when its own edge to the target entity was uncertain — it
is promoted first); a mention of the target entity's uncertain set other
than the source mention ends certainly linked to the source entity iff it
already was, and uncertainly linked otherwise — not necessarily with the
certainty it had toward the target entity. -/
theorem merge_final_some (st : DocState) (h : Reach st)
    (srcDtid td seEid teEid : Nat) {srcM tgtM : Mention} {se te : Entity}
    (hne : seEid ≠ teEid) (hnd : srcDtid ≠ td)
    (hsrc : st.findMention srcDtid = some srcM) (htgt : st.findMention td = some tgtM)
    (hse : st.findEntity seEid = some se) (hte : st.findEntity teEid = some te)
    (hus : srcM.is_uncertain_to seEid = false) (hut : tgtM.is_uncertain_to teEid = false)
    (hexo : ¬ (se.exophor.isSome ∧ te.exophor.isSome ∧ se.exophor ≠ te.exophor)) :
    (st.merge_entities srcDtid (some td) seEid teEid false).findEntity teEid = none ∧
    (st.merge_entities srcDtid (some td) seEid teEid false).specialArgs =
      st.specialArgs.map (fun x => if x = teEid then seEid else x) ∧
    teEid ∉ (st.merge_entities srcDtid (some td) seEid teEid false).specialArgs ∧
    ((st.merge_entities srcDtid (some td) seEid teEid false).findEntity seEid).map
      (fun e => e.exophor) = some (if se.exophor = none then te.exophor else se.exophor) ∧
    (∀ d ∈ te.mentions, ∃ m2,
      (st.merge_entities srcDtid (some td) seEid teEid false).findMention d = some m2 ∧
      seEid ∈ m2.eids ∧ seEid ∉ m2.eids_unc) ∧
    (∃ m2, (st.merge_entities srcDtid (some td) seEid teEid false).findMention srcDtid =
      some m2 ∧ seEid ∈ m2.eids ∧ seEid ∉ m2.eids_unc) ∧
    (∀ d ∈ te.mentions_unc, d ≠ srcDtid → ∀ dm, st.findMention d = some dm →
      ∃ m2, (st.merge_entities srcDtid (some td) seEid teEid false).findMention d = some m2 ∧
        (seEid ∈ m2.eids ↔ seEid ∈ dm.eids) ∧
        (seEid ∈ m2.eids_unc ↔ (seEid ∈ dm.eids_unc ∨ seEid ∉ dm.eids))) := by
  have hinv := (reach_inv st h).1
  obtain ⟨hmnd, hend, hbic, hlive, hek, hedj, hmdj, hesn, hmsn⟩ := (reach_inv st h).1
  have hkse : se.eid = seEid := (find?_key_mem (fun y : Entity => y.eid) hse).2
  have hkte : te.eid = teEid := (find?_key_mem (fun y : Entity => y.eid) hte).2
  have hseMem : se ∈ st.entities := (find?_key_mem (fun y : Entity => y.eid) hse).1
  have hteMem : te ∈ st.entities := (find?_key_mem (fun y : Entity => y.eid) hte).1
  have hksrc : srcM.dtid = srcDtid := (find?_key_mem (fun y : Mention => y.dtid) hsrc).2
  have hktgt : tgtM.dtid = td := (find?_key_mem (fun y : Mention => y.dtid) htgt).2
  have hsrcMem : srcM ∈ st.mentions := (find?_key_mem (fun y : Mention => y.dtid) hsrc).1
  have htgtMem : tgtM ∈ st.mentions := (find?_key_mem (fun y : Mention => y.dtid) htgt).1
  have hseInSrc : seEid ∈ srcM.eids := (Mention.is_uncertain_to_false_iff srcM seEid).mp hus
  have hteInTgt : teEid ∈ tgtM.eids := (Mention.is_uncertain_to_false_iff tgtM teEid).mp hut
  have htdInTe : td ∈ te.mentions :=
    hktgt ▸ ((hbic te hteMem tgtM htgtMem).1.mpr (hkte.symm ▸ hteInTgt))
  obtain ⟨hfe1, hfm1, hfex1, hfmx1, hsa1⟩ := DocState.add_mention_find st seEid td false hse htgt
  have hteSt1 : (st.add_mention seEid td false).findEntity teEid = some te := by
    rw [hfex1 teEid (Ne.symm hne)]
    exact hte
  have hsrcSt1 : (st.add_mention seEid td false).findMention srcDtid = some srcM := by
    rw [hfmx1 srcDtid hnd]
    exact hsrc
  obtain ⟨hfe2, hfm2, hfex2, hfmx2, hsa2⟩ :=
    DocState.add_mention_find (st.add_mention seEid td false) teEid srcDtid false hteSt1 hsrcSt1
  have hseSt2 : ((st.add_mention seEid td false).add_mention teEid srcDtid false).findEntity seEid
      = some (se.add_mention tgtM false).1 := by
    rw [hfex2 seEid hne]
    exact hfe1
  have htdSt2 : ((st.add_mention seEid td false).add_mention teEid srcDtid false).findMention td
      = some (se.add_mention tgtM false).2 := by
    rw [hfmx2 td (fun hc => hnd hc.symm)]
    exact hfm1
  have hdSt2 : ∀ d, d ≠ td → d ≠ srcDtid →
      ((st.add_mention seEid td false).add_mention teEid srcDtid false).findMention d =
        st.findMention d := by
    intro d h1 h2
    rw [hfmx2 d h2, hfmx1 d h1]
  have hinv2 : SInv ((st.add_mention seEid td false).add_mention teEid srcDtid false) :=
    sinv_add_mention _ _ _ _ (sinv_add_mention _ _ _ _ hinv)
  have hpe : (se.add_mention tgtM false).1.exophor = se.exophor :=
    (Entity.add_mention_proj se tgtM false).2.2.1
  have hpte : (te.add_mention srcM false).1.exophor = te.exophor :=
    (Entity.add_mention_proj te srcM false).2.2.1
  have hkse1 : (se.add_mention tgtM false).1.eid = seEid :=
    ((Entity.add_mention_proj se tgtM false).1).trans hkse
  have hexo2 : ¬ ((se.add_mention tgtM false).1.exophor.isSome ∧
      (te.add_mention srcM false).1.exophor.isSome ∧
      (se.add_mention tgtM false).1.exophor ≠ (te.add_mention srcM false).1.exophor) := by
    rw [hpe, hpte]
    exact hexo
  have heval := merge_final_eval st srcDtid td seEid teEid hne hsrc htgt hus hut hseSt2 hfe2 hexo2
  have hinv3 : SInv (if (se.add_mention tgtM false).1.exophor = none
      then ((st.add_mention seEid td false).add_mention teEid srcDtid false).setEntity
        { (se.add_mention tgtM false).1 with exophor := (te.add_mention srcM false).1.exophor }
      else (st.add_mention seEid td false).add_mention teEid srcDtid false) := by
    by_cases hc : (se.add_mention tgtM false).1.exophor = none
    · rw [if_pos hc]
      exact sinv_set_exophor _ _ hseSt2 hinv2
    · rw [if_neg hc]
      exact hinv2
  have hse3v : (if (se.add_mention tgtM false).1.exophor = none
      then ((st.add_mention seEid td false).add_mention teEid srcDtid false).setEntity
        { (se.add_mention tgtM false).1 with exophor := (te.add_mention srcM false).1.exophor }
      else (st.add_mention seEid td false).add_mention teEid srcDtid false).findEntity seEid =
      some (if (se.add_mention tgtM false).1.exophor = none
        then { (se.add_mention tgtM false).1 with exophor := (te.add_mention srcM false).1.exophor }
        else (se.add_mention tgtM false).1) := by
    by_cases hc : (se.add_mention tgtM false).1.exophor = none
    · rw [if_pos hc, if_pos hc]
      have hkq : ({ (se.add_mention tgtM false).1 with
          exophor := (te.add_mention srcM false).1.exophor }).eid = seEid := hkse1
      have hsome : (((st.add_mention seEid td false).add_mention teEid
          srcDtid false).findEntity ({ (se.add_mention tgtM false).1 with
            exophor := (te.add_mention srcM false).1.exophor }).eid).isSome := by
        rw [hkq, hseSt2]
        rfl
      have hres := DocState.findEntity_setEntity_self
        ((st.add_mention seEid td false).add_mention teEid srcDtid false) hsome
      rwa [hkq] at hres
    · rw [if_neg hc, if_neg hc]
      exact hseSt2
  have hm3 : ∀ d, (if (se.add_mention tgtM false).1.exophor = none
      then ((st.add_mention seEid td false).add_mention teEid srcDtid false).setEntity
        { (se.add_mention tgtM false).1 with exophor := (te.add_mention srcM false).1.exophor }
      else (st.add_mention seEid td false).add_mention teEid srcDtid false).findMention d =
        ((st.add_mention seEid td false).add_mention teEid srcDtid false).findMention d := by
    intro d
    by_cases hc : (se.add_mention tgtM false).1.exophor = none
    · rw [if_pos hc]
      exact DocState.findMention_setEntity _ _ d
    · rw [if_neg hc]
  have hsa3 : (if (se.add_mention tgtM false).1.exophor = none
      then ((st.add_mention seEid td false).add_mention teEid srcDtid false).setEntity
        { (se.add_mention tgtM false).1 with exophor := (te.add_mention srcM false).1.exophor }
      else (st.add_mention seEid td false).add_mention teEid srcDtid false).specialArgs =
        st.specialArgs := by
    by_cases hc : (se.add_mention tgtM false).1.exophor = none
    · rw [if_pos hc, DocState.specialArgs_setEntity, hsa2, hsa1]
    · rw [if_neg hc, hsa2, hsa1]
  have hte2Mem : (te.add_mention srcM false).1 ∈
      ((st.add_mention seEid td false).add_mention teEid srcDtid false).entities :=
    (find?_key_mem (fun y : Entity => y.eid) hfe2).1
  have hnodL : ((te.add_mention srcM false).1.mentions ++
      (te.add_mention srcM false).1.mentions_unc).Nodup := by
    obtain ⟨hn1, hn2⟩ := hinv2.2.2.2.2.2.2.2.1 _ hte2Mem
    refine List.Nodup.append hn1 hn2 ?_
    intro a ha1 ha2
    exact (hinv2.2.2.2.2.2.1 _ hte2Mem a ha1) ha2
  have hmemch := (Entity.add_mention_members_char te srcM false
    (hbic te hteMem srcM hsrcMem).1 (hbic te hteMem srcM hsrcMem).2
    (fun hcc => Bool.noConfusion hcc.1)).1
  have hpipe := relink_delete_char
    (if (se.add_mention tgtM false).1.exophor = none
      then ((st.add_mention seEid td false).add_mention teEid srcDtid false).setEntity
        { (se.add_mention tgtM false).1 with exophor := (te.add_mention srcM false).1.exophor }
      else (st.add_mention seEid td false).add_mention teEid srcDtid false)
    seEid teEid (te.add_mention srcM false).1 _ hinv3 hne hnodL hse3v rfl
  rw [heval]
  have hsrcCase : ∃ m2, (DocState.delete_entity
      { (((te.add_mention srcM false).1.mentions ++
          (te.add_mention srcM false).1.mentions_unc).foldl (fun s d =>
          let unc : Bool :=
            match s.findMention d with
            | some tm => tm.is_uncertain_to teEid
            | none => true
          s.add_mention seEid d unc)
          (if (se.add_mention tgtM false).1.exophor = none
           then ((st.add_mention seEid td false).add_mention teEid srcDtid false).setEntity
             { (se.add_mention tgtM false).1 with
               exophor := (te.add_mention srcM false).1.exophor }
           else (st.add_mention seEid td false).add_mention teEid srcDtid false)) with
        specialArgs := (((te.add_mention srcM false).1.mentions ++
          (te.add_mention srcM false).1.mentions_unc).foldl (fun s d =>
          let unc : Bool :=
            match s.findMention d with
            | some tm => tm.is_uncertain_to teEid
            | none => true
          s.add_mention seEid d unc)
          (if (se.add_mention tgtM false).1.exophor = none
           then ((st.add_mention seEid td false).add_mention teEid srcDtid false).setEntity
             { (se.add_mention tgtM false).1 with
               exophor := (te.add_mention srcM false).1.exophor }
           else (st.add_mention seEid td false).add_mention teEid srcDtid false)).specialArgs.map
          (fun x => if x = teEid then seEid else x) } teEid).findMention srcDtid = some m2 ∧
      seEid ∈ m2.eids ∧ seEid ∉ m2.eids_unc := by
    have hdm3 : (if (se.add_mention tgtM false).1.exophor = none
        then ((st.add_mention seEid td false).add_mention teEid srcDtid false).setEntity
          { (se.add_mention tgtM false).1 with exophor := (te.add_mention srcM false).1.exophor }
        else (st.add_mention seEid td false).add_mention teEid srcDtid false).findMention srcDtid =
        some (te.add_mention srcM false).2 := (hm3 srcDtid).trans hfm2
    have hdL : srcDtid ∈ (te.add_mention srcM false).1.mentions ++
        (te.add_mention srcM false).1.mentions_unc :=
      List.mem_append.mpr ((hmemch srcDtid).mpr (Or.inr hksrc.symm))
    have hlink := Entity.add_mention_link_char te srcM false
      (hbic te hteMem srcM hsrcMem).1 (hbic te hteMem srcM hsrcMem).2
    have hteIn : teEid ∈ (te.add_mention srcM false).2.eids := hkte ▸ (hlink.1 rfl).1
    have hb : (te.add_mention srcM false).2.is_uncertain_to teEid = false :=
      (Mention.is_uncertain_to_false_iff _ _).mpr hteIn
    obtain ⟨m2, hm2, hprops⟩ := hpipe.2.2.2 srcDtid hdL _ hdm3
    exact ⟨m2, hm2, (hprops.1 hb).1, (hprops.1 hb).2⟩
  have hse3exo : (if (se.add_mention tgtM false).1.exophor = none
      then { (se.add_mention tgtM false).1 with exophor := (te.add_mention srcM false).1.exophor }
      else (se.add_mention tgtM false).1).exophor =
      (if se.exophor = none then te.exophor else se.exophor) := by
    by_cases hc0 : se.exophor = none
    · rw [if_pos hc0, if_pos (hpe.trans hc0)]
      exact hpte
    · rw [if_neg hc0, if_neg (fun hcc => hc0 (hpe.symm.trans hcc))]
      exact hpe
  have hsaEq := hpipe.2.1.trans
    (congrArg (List.map (fun x => if x = teEid then seEid else x)) hsa3)
  refine ⟨hpipe.1, hsaEq, ?_, hpipe.2.2.1.trans (congrArg some hse3exo), ?_, hsrcCase, ?_⟩
  · rw [hsaEq]
    intro hmem
    obtain ⟨x, _, hxeq⟩ := List.mem_map.mp hmem
    by_cases hx : x = teEid
    · rw [if_pos hx] at hxeq
      exact hne hxeq
    · rw [if_neg hx] at hxeq
      exact hx hxeq
  · intro d hd
    by_cases hdsrc : d = srcDtid
    · subst hdsrc
      exact hsrcCase
    · by_cases hdtd : d = td
      · subst hdtd
        have hdm3 := (hm3 d).trans htdSt2
        have hdL : d ∈ (te.add_mention srcM false).1.mentions ++
            (te.add_mention srcM false).1.mentions_unc :=
          List.mem_append.mpr ((hmemch d).mpr (Or.inl (Or.inl hd)))
        have hteIn : teEid ∈ (se.add_mention tgtM false).2.eids :=
          ((Entity.add_mention_eids_iff se tgtM false teEid
            (fun hcc => (Ne.symm hne) (hcc.trans hkse))).1).mpr hteInTgt
        have hb : (se.add_mention tgtM false).2.is_uncertain_to teEid = false :=
          (Mention.is_uncertain_to_false_iff _ _).mpr hteIn
        obtain ⟨m2, hm2, hprops⟩ := hpipe.2.2.2 d hdL _ hdm3
        exact ⟨m2, hm2, (hprops.1 hb).1, (hprops.1 hb).2⟩
      · have hsd : (st.findMention d).isSome := (hek te hteMem).1 d hd
        obtain ⟨dm, hdm⟩ := Option.isSome_iff_exists.mp hsd
        have hkdm : dm.dtid = d := (find?_key_mem (fun y : Mention => y.dtid) hdm).2
        have hdmMem : dm ∈ st.mentions := (find?_key_mem (fun y : Mention => y.dtid) hdm).1
        have hdm3 := (hm3 d).trans ((hdSt2 d hdtd hdsrc).trans hdm)
        have hdL : d ∈ (te.add_mention srcM false).1.mentions ++
            (te.add_mention srcM false).1.mentions_unc :=
          List.mem_append.mpr ((hmemch d).mpr (Or.inl (Or.inl hd)))
        have hteIn : teEid ∈ dm.eids :=
          hkte ▸ ((hbic te hteMem dm hdmMem).1.mp (hkdm.symm ▸ hd))
        have hb : dm.is_uncertain_to teEid = false :=
          (Mention.is_uncertain_to_false_iff dm teEid).mpr hteIn
        obtain ⟨m2, hm2, hprops⟩ := hpipe.2.2.2 d hdL dm hdm3
        exact ⟨m2, hm2, (hprops.1 hb).1, (hprops.1 hb).2⟩
  · intro d hd hdsrc dm hdm
    have hdtd : d ≠ td := by
      intro hcc
      exact (hedj te hteMem td htdInTe) (hcc ▸ hd)
    have hkdm : dm.dtid = d := (find?_key_mem (fun y : Mention => y.dtid) hdm).2
    have hdmMem : dm ∈ st.mentions := (find?_key_mem (fun y : Mention => y.dtid) hdm).1
    have hdm3 := (hm3 d).trans ((hdSt2 d hdtd hdsrc).trans hdm)
    have hdL : d ∈ (te.add_mention srcM false).1.mentions ++
        (te.add_mention srcM false).1.mentions_unc :=
      List.mem_append.mpr ((hmemch d).mpr (Or.inl (Or.inr hd)))
    have hteInU : teEid ∈ dm.eids_unc :=
      hkte ▸ ((hbic te hteMem dm hdmMem).2.mp (hkdm.symm ▸ hd))
    have hteNotIn : teEid ∉ dm.eids := fun hcc => (hmdj dm hdmMem teEid hcc) hteInU
    have hb : dm.is_uncertain_to teEid = true :=
      (Mention.is_uncertain_to_true_iff dm teEid).mpr hteNotIn
    obtain ⟨m2, hm2, hprops⟩ := hpipe.2.2.2 d hdL dm hdm3
    exact ⟨m2, hm2, (hprops.2 hb).1, (hprops.2 hb).2⟩

/-- C1 counterexample: a reachable document in which all the claim's
hypotheses hold (distinct entities, certain new link, source mention
certain to the source entity, target mention certain to the target
entity, no exophor clash) but the source mention sits in the target
entity's UNCERTAIN set; the merge first promotes that edge to certain
(te.add_mention(source_mention, uncertain=False)), so after the call the
mention is in the source entity's CERTAIN set — not in the uncertain set,
as the claimed same-certainty transfer demands. -/
theorem merge_final_certainty_counterexample :
    Reach (((((DocState.init.create_mention ⟨0, true, false⟩).create_mention
      ⟨1, false, false⟩).add_mention 1 0 true).add_special_arg 5).add_special_arg 1) ∧
    ((((DocState.init.create_mention ⟨0, true, false⟩).create_mention
      ⟨1, false, false⟩).add_mention 1 0 true).add_special_arg 5).add_special_arg 1 =
      ⟨[⟨0, true, false, [0], [1]⟩, ⟨1, false, false, [1], []⟩],
       [⟨0, none, [0], [], some false, some true⟩, ⟨1, none, [1], [0], some false, some false⟩],
       [5, 1]⟩ ∧
    Mention.is_uncertain_to ⟨0, true, false, [0], [1]⟩ 0 = false ∧
    Mention.is_uncertain_to ⟨1, false, false, [1], []⟩ 1 = false ∧
    0 ∈ Entity.mentions_unc ⟨1, none, [1], [0], some false, some false⟩ ∧
    (((((DocState.init.create_mention ⟨0, true, false⟩).create_mention
      ⟨1, false, false⟩).add_mention 1 0 true).add_special_arg 5).add_special_arg
        1).merge_entities 0 (some 1) 0 1 false =
      ⟨[⟨0, true, false, [0], []⟩, ⟨1, false, false, [0], []⟩],
       [⟨0, none, [0, 1], [], some false, some false⟩],
       [5, 0]⟩ ∧
    0 ∈ Entity.mentions ⟨0, none, [0, 1], [], some false, some false⟩ ∧
    0 ∉ Entity.mentions_unc ⟨0, none, [0, 1], [], some false, some false⟩ :=
  ⟨Reach.add_special_arg _ 1 (Reach.add_special_arg _ 5 (Reach.add_mention _ 1 0 true
    (Reach.create_mention _ ⟨1, false, false⟩
      (Reach.create_mention _ ⟨0, true, false⟩ Reach.init)))),
   by decide, by decide, by decide, by decide, by decide, by decide, by decide⟩

/-- C8 counterexample: the eid of a deleted entity IS reused. In a
two-mention document merged by a certain coreference link the target
entity (eid 1) is deleted; the next _create_entity call allocates
max(live eids)+1, which is 1 again. -/
theorem eid_reuse_counterexample :
    Reach (((DocState.init.create_mention ⟨0, true, false⟩).create_mention
      ⟨1, false, true⟩).merge_entities 0 (some 1) 0 1 false) ∧
    (((DocState.init.create_mention ⟨0, true, false⟩).create_mention
      ⟨1, false, true⟩).findEntity 1).isSome ∧
    (((DocState.init.create_mention ⟨0, true, false⟩).create_mention
      ⟨1, false, true⟩).merge_entities 0 (some 1) 0 1 false).findEntity 1 = none ∧
    ((((DocState.init.create_mention ⟨0, true, false⟩).create_mention
      ⟨1, false, true⟩).merge_entities 0 (some 1) 0 1 false).create_entity none none).2 = 1 ∧
    (((((DocState.init.create_mention ⟨0, true, false⟩).create_mention
      ⟨1, false, true⟩).merge_entities 0 (some 1) 0 1 false).create_entity
        none none).1.findEntity 1).isSome :=
  ⟨Reach.merge _ 0 (some 1) 0 1 false
    (Reach.create_mention _ ⟨1, false, true⟩
      (Reach.create_mention _ ⟨0, true, false⟩ Reach.init)),
   by decide, by decide, by decide, by decide⟩

/-- C8 (amended): eid allocation is fresh only with respect to the LIVE
entity table: whenever _create_entity actually creates an entity (no
singleton-exophor hit), the eid it returns — allocEid of the live keys
and the request — differs from every currently live eid (a collision or
an absent or negative request allocates max(live)+1), but the eid of a
previously deleted entity can be handed out again. -/
theorem create_entity_fresh (st : DocState) (exo : Option String) (req : Option Int)
    (hmiss : st.dedupEntity exo = none) :
    (st.create_entity exo req).2 ∉ st.entities.map (fun e => e.eid) ∧
    (st.create_entity exo req).2 = allocEid (st.entities.map (fun e => e.eid)) req := by
  have hstep : st.create_entity exo req =
      ({ st with entities := st.entities ++ [⟨allocEid (st.entities.map (fun e => e.eid)) req,
        exo, [], [], none, none⟩] }, allocEid (st.entities.map (fun e => e.eid)) req) := by
    unfold DocState.create_entity
    rw [hmiss]
  rw [hstep]
  exact ⟨allocEid_fresh _ _, rfl⟩

/-- Witness for the amended C8 at the post-merge document of the
counterexample: the freshly created entity's eid (the reused 1) is not
live at creation time. -/
theorem create_entity_fresh_witness :
    ((((DocState.init.create_mention ⟨0, true, false⟩).create_mention
      ⟨1, false, true⟩).merge_entities 0 (some 1) 0 1 false).create_entity none none).2 ∉
      ((((DocState.init.create_mention ⟨0, true, false⟩).create_mention
        ⟨1, false, true⟩).merge_entities 0 (some 1) 0 1 false).entities.map (fun e => e.eid)) ∧
    ((((DocState.init.create_mention ⟨0, true, false⟩).create_mention
      ⟨1, false, true⟩).merge_entities 0 (some 1) 0 1 false).create_entity none none).2 =
      allocEid (((((DocState.init.create_mention ⟨0, true, false⟩).create_mention
        ⟨1, false, true⟩).merge_entities 0 (some 1) 0 1 false).entities.map (fun e => e.eid)))
        none :=
  create_entity_fresh
    (((DocState.init.create_mention ⟨0, true, false⟩).create_mention
      ⟨1, false, true⟩).merge_entities 0 (some 1) 0 1 false)
    none none (by decide)

/-! ### The dependency-type classification of Pas._get_dep_type -/

/-- Python str.lstrip of the single honorific marker 判: drop every
leading 判 character. -/
def lstripHan (s : String) : String := ⟨s.data.dropWhile (fun c => c = '判')⟩

/-- Python str.rstrip of one character: drop every trailing occurrence. -/
def rstripChar (c : Char) (s : String) : String :=
  ⟨(s.data.reverse.dropWhile (fun x => x = c)).reverse⟩

/-- Pas._get_dep_type.  The argument tag's KNP features are modelled by
the list of its feature keys together with the value of its 係 feature
(features.get); the three tag relations by the booleans arg ∈
pred.children, arg is pred.parent, and sid_arg = sid_pred. -/
def getDepType (argIsChild argIsParent sidEq : Bool) (cas : String)
    (features : List String) (kakari : Option String) : String :=
  if argIsChild then
    if ((cas = "ノ" ∨ cas = "ノ？") ∧ (kakari = some "ノ格" ∨ kakari = some "ノ？格")) ∨
        lstripHan cas ∈ features then "overt"
    else "dep"
  else if argIsParent then "dep"
  else if sidEq then "intra"
  else "inter"

/-- The classification as the specification words it: the case role is
stripped of a trailing uncertainty marker ≒ and of a question-marker
suffix ？ (besides the honorific 判) before being matched against the
argument's recorded dependency-case feature. -/
def specDepType (argIsChild argIsParent sidEq : Bool) (cas : String)
    (features : List String) (kakari : Option String) : String :=
  if argIsChild then
    if ((cas = "ノ" ∨ cas = "ノ？") ∧ (kakari = some "ノ格" ∨ kakari = some "ノ？格")) ∨
        lstripHan (rstripChar '？' (rstripChar '≒' cas)) ∈ features then "overt"
    else "dep"
  else if argIsParent then "dep"
  else if sidEq then "intra"
  else "inter"

/-- The case labels of constants.ALL_CASES: the base labels and their
≒-suffixed uncertain variants. -/
def allCases : List String :=
  let base := ["ガ", "デ", "ト", "ニ", "ノ", "ヘ", "ヲ", "カラ", "ガ２", "ノ？", "マデ",
    "ヨリ", "トイウ", "トシテ", "トスル", "ニオク", "ニシテ", "ニツク", "ニトル", "ニヨル",
    "マデニ", "ニオイテ", "ニカワル", "ニソッテ", "ニツイテ", "ニトッテ", "ニムケテ",
    "ニムケル", "ニヨッテ", "ニヨラズ", "ニアワセテ", "ニカギッテ", "ニカギラズ",
    "ニカランデ", "ニカワッテ", "ニカンシテ", "ニカンスル", "ニクラベテ", "ニクワエテ",
    "ニタイシテ", "ニタイスル", "ニツヅイテ", "ニナランデ", "ヲツウジテ", "ヲツウジル",
    "ヲノゾイテ", "ヲフクメテ", "ヲメグッテ", "ニトモナッテ", "ニモトヅイテ", "無",
    "修飾", "判ガ", "時間", "外の関係"]
  base ++ base.map (fun c => c ++ "≒")

/-- C6 counterexample: the code strips only the leading honorific 判 from
the case role (case.lstrip), never a trailing ≒ or ？.  For the legal
case label ガ≒ on a syntactic child whose features record a plain ガ, the
code classifies dep, while the specification's stripped matching demands
overt. -/
theorem dep_type_strip_counterexample :
    "ガ≒" ∈ allCases ∧
    getDepType true false true "ガ≒" ["ガ"] none = "dep" ∧
    specDepType true false true "ガ≒" ["ガ"] none = "overt" ∧
    getDepType true false true "ガ≒" ["ガ"] none ≠
      specDepType true false true "ガ≒" ["ガ"] none :=
  ⟨by decide, by decide, by decide, by decide⟩

/-- C6 (amended): Pas._get_dep_type classifies overt exactly when the
argument is a syntactic child of the predicate and either the case role
is ノ or ノ？ with the argument's 係 feature being ノ格 or ノ？格, or the
case role stripped of its LEADING honorific 判 only (no stripping of a
trailing ≒ or ？ happens) is a key of the argument's features; dep when
it is a child without such a match or is the predicate's parent; intra
when neither holds and the sentences coincide; inter otherwise. -/
theorem getDepType_char (c p s : Bool) (cas : String) (features : List String)
    (kakari : Option String) :
    (getDepType c p s cas features kakari = "overt" ↔
      c = true ∧ (((cas = "ノ" ∨ cas = "ノ？") ∧
        (kakari = some "ノ格" ∨ kakari = some "ノ？格")) ∨ lstripHan cas ∈ features)) ∧
    (getDepType c p s cas features kakari = "dep" ↔
      ((c = true ∧ ¬ (((cas = "ノ" ∨ cas = "ノ？") ∧
        (kakari = some "ノ格" ∨ kakari = some "ノ？格")) ∨ lstripHan cas ∈ features)) ∨
       (c = false ∧ p = true))) ∧
    (getDepType c p s cas features kakari = "intra" ↔ (c = false ∧ p = false ∧ s = true)) ∧
    (getDepType c p s cas features kakari = "inter" ↔ (c = false ∧ p = false ∧ s = false)) := by
  cases c <;> cases p <;> cases s <;>
    by_cases hm : (((cas = "ノ" ∨ cas = "ノ？") ∧
      (kakari = some "ノ格" ∨ kakari = some "ノ？格")) ∨ lstripHan cas ∈ features) <;>
    simp [getDepType, hm]

/-! ### Sentence lookup of Document.__getitem__ and Document._get_bp -/

/-- The slice of kyoto_reader.Sentence the lookup code reads: the sentence
id and the list of base phrases (by tag id). -/
structure SentenceM where
  sid : String
  bps : List Nat
deriving Repr, DecidableEq

/-- The slice of Document the lookup code reads: sid2sentence as an
insertion-ordered association list. -/
structure DocumentM where
  sentences : List SentenceM
deriving Repr, DecidableEq

/-- Document.__getitem__: the sentence of the given sid, or None (after a
logger.error report) when the sid is not a key of sid2sentence. -/
def DocumentM.getItem (doc : DocumentM) (sid : String) : Option SentenceM :=
  doc.sentences.find? (fun s => s.sid == sid)

/-- Whether Document.__getitem__ emits its logger.error report: exactly
when the sid is missing. -/
def DocumentM.getItemLogsError (doc : DocumentM) (sid : String) : Bool :=
  !(doc.sentences.any (fun s => s.sid == sid))

/-- Document._get_bp.  sentence = self[sid]; the chained comparison
0 <= tid < len(sentence.bps) evaluates 0 <= tid first, so a missing
sentence raises AttributeError (len of None.bps) exactly when tid is
non-negative, and falls into the out-of-range warning branch (returning
None) when tid is negative. -/
def DocumentM.getBp (doc : DocumentM) (sid : String) (tid : Int) : Except String (Option Nat) :=
  match doc.getItem sid with
  | some sentence =>
      if 0 ≤ tid ∧ tid < (sentence.bps.length : Int) then .ok (sentence.bps[tid.toNat]?)
      else .ok none
  | none =>
      if 0 ≤ tid then .error "AttributeError"
      else .ok none

/-- C9: requesting a sentence id that is not in the document is a hard
failure reported to the caller: __getitem__ reports it with logger.error
and yields None instead of a sentence, and the library's own lookup path
_get_bp then raises AttributeError for every well-formed (non-negative)
tag id instead of recovering. -/
theorem missing_sid_hard_failure (doc : DocumentM) (sid : String)
    (hmiss : ∀ s ∈ doc.sentences, s.sid ≠ sid) :
    doc.getItem sid = none ∧
    doc.getItemLogsError sid = true ∧
    (∀ tid : Int, 0 ≤ tid → doc.getBp sid tid = .error "AttributeError") := by
  have hnone : doc.getItem sid = none := by
    unfold DocumentM.getItem
    apply List.find?_eq_none.mpr
    intro s hs
    simp [hmiss s hs]
  refine ⟨hnone, ?_, ?_⟩
  · unfold DocumentM.getItemLogsError
    simp only [Bool.not_eq_true', List.any_eq_false, beq_iff_eq]
    exact hmiss
  · intro tid htid
    unfold DocumentM.getBp
    rw [hnone]
    dsimp only
    rw [if_pos htid]

/-- Witness for C9 at a one-sentence document and an absent sid. -/
theorem missing_sid_hard_failure_witness :
    DocumentM.getItem ⟨[⟨"s1", [0, 1]⟩]⟩ "s2" = none ∧
    DocumentM.getItemLogsError ⟨[⟨"s1", [0, 1]⟩]⟩ "s2" = true ∧
    (∀ tid : Int, 0 ≤ tid →
      DocumentM.getBp ⟨[⟨"s1", [0, 1]⟩]⟩ "s2" tid = .error "AttributeError") :=
  missing_sid_hard_failure ⟨[⟨"s1", [0, 1]⟩]⟩ "s2" (by decide)

/-- Evaluation of the target-absent merge when it is stopped by the
uncertainty of the new link or of the source edge: only the source
mention is linked into the target entity, with the new link's
certainty (the absent target mention contributes uncertain_tgt =
false). -/
theorem merge_none_eval (st : DocState) (srcDtid seEid teEid : Nat) (unc : Bool)
    {srcM : Mention}
    (hne : seEid ≠ teEid) (hsrc : st.findMention srcDtid = some srcM)
    (hstop : (srcM.is_uncertain_to seEid || unc) = true) :
    st.merge_entities srcDtid none seEid teEid unc = st.add_mention teEid srcDtid unc := by
  unfold DocState.merge_entities
  dsimp only
  rw [hsrc]
  dsimp only
  rw [if_neg hne]
  simp only [Bool.or_false]
  rw [if_pos hstop]

/-- The target-absent stopped merge: no entity is deleted and the source
mention is linked into the target entity, certain iff the new link is
certain (an uncertain link leaves an existing certain link in place). -/
theorem merge_distinct_none (st : DocState) (h : Reach st)
    (srcDtid seEid teEid : Nat) (unc : Bool) {srcM : Mention} {te : Entity}
    (hne : seEid ≠ teEid)
    (hsrc : st.findMention srcDtid = some srcM)
    (hte : st.findEntity teEid = some te)
    (hstop : (srcM.is_uncertain_to seEid || unc) = true) :
    ∃ s2, (st.merge_entities srcDtid none seEid teEid unc).findMention srcDtid = some s2 ∧
      (unc = false → teEid ∈ s2.eids ∧ teEid ∉ s2.eids_unc) ∧
      (unc = true → (teEid ∈ s2.eids ↔ teEid ∈ srcM.eids) ∧
        (teEid ∈ s2.eids_unc ↔ (teEid ∈ srcM.eids_unc ∨ teEid ∉ srcM.eids))) ∧
      (st.merge_entities srcDtid none seEid teEid unc).entities.map (fun x => x.eid) =
        st.entities.map (fun x => x.eid) := by
  have heval := merge_none_eval st srcDtid seEid teEid unc hne hsrc hstop
  have hinv := (reach_inv st h).1
  have hkte : te.eid = teEid := (find?_key_mem (fun y : Entity => y.eid) hte).2
  have hteMem : te ∈ st.entities := (find?_key_mem (fun y : Entity => y.eid) hte).1
  have hsrcMem : srcM ∈ st.mentions := (find?_key_mem (fun y : Mention => y.dtid) hsrc).1
  obtain ⟨hbs1, hbs2⟩ := hinv.2.2.1 te hteMem srcM hsrcMem
  obtain ⟨hfe2, hfm2, _, _, _⟩ := DocState.add_mention_find st teEid srcDtid unc hte hsrc
  have hchar := Entity.add_mention_link_char te srcM unc hbs1 hbs2
  rw [hkte] at hchar
  rw [heval]
  exact ⟨(te.add_mention srcM unc).2, hfm2, hchar.1, hchar.2,
    DocState.add_mention_entity_keys st teEid srcDtid unc⟩

/-- C3 (amended): with distinct source and target entities, whenever the
new link is uncertain, or the source mention's existing edge is
uncertain, or the target mention (when present) has an uncertain
existing edge: no entity is deleted and the two entities are not merged;
the target mention, when present, is linked into the source entity —
certain unless the new link or the SOURCE mention's edge is uncertain —
and the source mention is linked into the target entity — certain unless
the new link or the TARGET mention's edge is uncertain, an absent target
mention counting as a certain edge.  Each new link's certainty ignores
the other side's edge, and an uncertain link lands in the uncertain eid
set only when the mention is not already linked to that entity. -/
theorem merge_distinct_link_rule (st : DocState) (h : Reach st)
    (srcDtid seEid teEid : Nat) (tgtDtid : Option Nat) (unc : Bool)
    {srcM : Mention} {se te : Entity}
    (hne : seEid ≠ teEid)
    (hsrc : st.findMention srcDtid = some srcM)
    (hse : st.findEntity seEid = some se) (hte : st.findEntity teEid = some te) :
    (∀ td, tgtDtid = some td → srcDtid ≠ td → ∀ tgtM, st.findMention td = some tgtM →
      (srcM.is_uncertain_to seEid || unc || tgtM.is_uncertain_to teEid) = true →
      ∃ m2 s2,
        (st.merge_entities srcDtid (some td) seEid teEid unc).findMention td = some m2 ∧
        (st.merge_entities srcDtid (some td) seEid teEid unc).findMention srcDtid = some s2 ∧
        ((unc || srcM.is_uncertain_to seEid) = false → seEid ∈ m2.eids ∧ seEid ∉ m2.eids_unc) ∧
        ((unc || srcM.is_uncertain_to seEid) = true →
          (seEid ∈ m2.eids ↔ seEid ∈ tgtM.eids) ∧
          (seEid ∈ m2.eids_unc ↔ (seEid ∈ tgtM.eids_unc ∨ seEid ∉ tgtM.eids))) ∧
        ((unc || tgtM.is_uncertain_to teEid) = false → teEid ∈ s2.eids ∧ teEid ∉ s2.eids_unc) ∧
        ((unc || tgtM.is_uncertain_to teEid) = true →
          (teEid ∈ s2.eids ↔ teEid ∈ srcM.eids) ∧
          (teEid ∈ s2.eids_unc ↔ (teEid ∈ srcM.eids_unc ∨ teEid ∉ srcM.eids))) ∧
        (st.merge_entities srcDtid (some td) seEid teEid unc).entities.map (fun x => x.eid)
          = st.entities.map (fun x => x.eid)) ∧
    (tgtDtid = none → (srcM.is_uncertain_to seEid || unc) = true →
      ∃ s2, (st.merge_entities srcDtid none seEid teEid unc).findMention srcDtid = some s2 ∧
        (unc = false → teEid ∈ s2.eids ∧ teEid ∉ s2.eids_unc) ∧
        (unc = true → (teEid ∈ s2.eids ↔ teEid ∈ srcM.eids) ∧
          (teEid ∈ s2.eids_unc ↔ (teEid ∈ srcM.eids_unc ∨ teEid ∉ srcM.eids))) ∧
        (st.merge_entities srcDtid none seEid teEid unc).entities.map (fun x => x.eid) =
          st.entities.map (fun x => x.eid)) := by
  constructor
  · intro td _ hnd tgtM htgt hstop
    exact merge_distinct_some st h srcDtid td seEid teEid unc hne hnd hsrc htgt hse hte hstop
  · intro _ hstop
    exact merge_distinct_none st h srcDtid seEid teEid unc hne hsrc hte hstop

/-- Witness for the amended C3 at a target-absent uncertain merge (the
coreference of a mention with an exophor entity by an uncertain marker):
the merge stops, deletes nothing, and links the source mention into the
target entity uncertainly. -/
theorem merge_distinct_link_rule_witness :
    (∀ td, (none : Option Nat) = some td → 0 ≠ td → ∀ tgtM,
      ((DocState.init.create_mention ⟨0, true, false⟩).create_mention
        ⟨1, false, true⟩).findMention td = some tgtM →
      (Mention.is_uncertain_to ⟨0, true, false, [0], []⟩ 0 || true ||
        tgtM.is_uncertain_to 1) = true →
      ∃ m2 s2,
        (((DocState.init.create_mention ⟨0, true, false⟩).create_mention
          ⟨1, false, true⟩).merge_entities 0 (some td) 0 1 true).findMention td = some m2 ∧
        (((DocState.init.create_mention ⟨0, true, false⟩).create_mention
          ⟨1, false, true⟩).merge_entities 0 (some td) 0 1 true).findMention 0 = some s2 ∧
        ((true || Mention.is_uncertain_to ⟨0, true, false, [0], []⟩ 0) = false →
          0 ∈ m2.eids ∧ 0 ∉ m2.eids_unc) ∧
        ((true || Mention.is_uncertain_to ⟨0, true, false, [0], []⟩ 0) = true →
          (0 ∈ m2.eids ↔ 0 ∈ tgtM.eids) ∧
          (0 ∈ m2.eids_unc ↔ (0 ∈ tgtM.eids_unc ∨ 0 ∉ tgtM.eids))) ∧
        ((true || tgtM.is_uncertain_to 1) = false → 1 ∈ s2.eids ∧ 1 ∉ s2.eids_unc) ∧
        ((true || tgtM.is_uncertain_to 1) = true →
          (1 ∈ s2.eids ↔ 1 ∈ Mention.eids ⟨0, true, false, [0], []⟩) ∧
          (1 ∈ s2.eids_unc ↔ (1 ∈ Mention.eids_unc ⟨0, true, false, [0], []⟩ ∨
            1 ∉ Mention.eids ⟨0, true, false, [0], []⟩))) ∧
        (((DocState.init.create_mention ⟨0, true, false⟩).create_mention
          ⟨1, false, true⟩).merge_entities 0 (some td) 0 1 true).entities.map (fun x => x.eid)
          = ((DocState.init.create_mention ⟨0, true, false⟩).create_mention
            ⟨1, false, true⟩).entities.map (fun x => x.eid)) ∧
    ((none : Option Nat) = none →
      (Mention.is_uncertain_to ⟨0, true, false, [0], []⟩ 0 || true) = true →
      ∃ s2, (((DocState.init.create_mention ⟨0, true, false⟩).create_mention
          ⟨1, false, true⟩).merge_entities 0 none 0 1 true).findMention 0 = some s2 ∧
        (true = false → 1 ∈ s2.eids ∧ 1 ∉ s2.eids_unc) ∧
        (true = true → (1 ∈ s2.eids ↔ 1 ∈ Mention.eids ⟨0, true, false, [0], []⟩) ∧
          (1 ∈ s2.eids_unc ↔ (1 ∈ Mention.eids_unc ⟨0, true, false, [0], []⟩ ∨
            1 ∉ Mention.eids ⟨0, true, false, [0], []⟩))) ∧
        (((DocState.init.create_mention ⟨0, true, false⟩).create_mention
          ⟨1, false, true⟩).merge_entities 0 none 0 1 true).entities.map (fun x => x.eid) =
          ((DocState.init.create_mention ⟨0, true, false⟩).create_mention
            ⟨1, false, true⟩).entities.map (fun x => x.eid)) :=
  merge_distinct_link_rule
    ((DocState.init.create_mention ⟨0, true, false⟩).create_mention ⟨1, false, true⟩)
    (Reach.create_mention _ ⟨1, false, true⟩
      (Reach.create_mention _ ⟨0, true, false⟩ Reach.init))
    0 0 1 none true
    (by decide)
    (by decide : ((DocState.init.create_mention ⟨0, true, false⟩).create_mention
      ⟨1, false, true⟩).findMention 0 = some ⟨0, true, false, [0], []⟩)
    (by decide : ((DocState.init.create_mention ⟨0, true, false⟩).create_mention
      ⟨1, false, true⟩).findEntity 0 = some ⟨0, none, [0], [], some false, some true⟩)
    (by decide : ((DocState.init.create_mention ⟨0, true, false⟩).create_mention
      ⟨1, false, true⟩).findEntity 1 = some ⟨1, none, [1], [], some true, some false⟩)

/-- Evaluation of the target-absent deleting merge: with a certain source
edge and no exophor clash, only the source mention is added (to the
target entity), then adoption, relinking, special-argument rewrite and
deletion run as in the two-mention case. -/
theorem merge_final_eval_none (st : DocState) (srcDtid seEid teEid : Nat)
    {srcM : Mention} {se1 te2v : Entity}
    (hne : seEid ≠ teEid)
    (hsrc : st.findMention srcDtid = some srcM)
    (hus : srcM.is_uncertain_to seEid = false)
    (hseSt2 : (st.add_mention teEid srcDtid false).findEntity seEid = some se1)
    (hteSt2 : (st.add_mention teEid srcDtid false).findEntity teEid = some te2v)
    (hexo2 : ¬ (se1.exophor.isSome ∧ te2v.exophor.isSome ∧ se1.exophor ≠ te2v.exophor)) :
    st.merge_entities srcDtid none seEid teEid false =
      DocState.delete_entity
        { ((te2v.mentions ++ te2v.mentions_unc).foldl (fun s d =>
            let unc : Bool :=
              match s.findMention d with
              | some tm => tm.is_uncertain_to teEid
              | none => true
            s.add_mention seEid d unc)
            (if se1.exophor = none
             then (st.add_mention teEid srcDtid false).setEntity
               { se1 with exophor := te2v.exophor }
             else st.add_mention teEid srcDtid false)) with
          specialArgs := ((te2v.mentions ++ te2v.mentions_unc).foldl (fun s d =>
            let unc : Bool :=
              match s.findMention d with
              | some tm => tm.is_uncertain_to teEid
              | none => true
            s.add_mention seEid d unc)
            (if se1.exophor = none
             then (st.add_mention teEid srcDtid false).setEntity
               { se1 with exophor := te2v.exophor }
             else st.add_mention teEid srcDtid false)).specialArgs.map
            (fun x => if x = teEid then seEid else x) } teEid := by
  unfold DocState.merge_entities
  dsimp only
  rw [hsrc]
  dsimp only
  rw [hus, if_neg hne]
  simp only [Bool.or_self, Bool.or_false]
  rw [if_neg (Bool.false_ne_true)]
  rw [hseSt2, hteSt2]
  dsimp only
  rw [if_neg hexo2]

/-- The target-absent deleting merge: the same postcondition as the
two-mention case — te deleted, special arguments rewritten, exophor
adoption, certain mentions (and the source mention) transferred
certainly, uncertain mentions keeping their certainty toward the
surviving entity. -/
theorem merge_final_none (st : DocState) (h : Reach st)
    (srcDtid seEid teEid : Nat) {srcM : Mention} {se te : Entity}
    (hne : seEid ≠ teEid)
    (hsrc : st.findMention srcDtid = some srcM)
    (hse : st.findEntity seEid = some se) (hte : st.findEntity teEid = some te)
    (hus : srcM.is_uncertain_to seEid = false)
    (hexo : ¬ (se.exophor.isSome ∧ te.exophor.isSome ∧ se.exophor ≠ te.exophor)) :
    (st.merge_entities srcDtid none seEid teEid false).findEntity teEid = none ∧
    (st.merge_entities srcDtid none seEid teEid false).specialArgs =
      st.specialArgs.map (fun x => if x = teEid then seEid else x) ∧
    teEid ∉ (st.merge_entities srcDtid none seEid teEid false).specialArgs ∧
    ((st.merge_entities srcDtid none seEid teEid false).findEntity seEid).map
      (fun e => e.exophor) = some (if se.exophor = none then te.exophor else se.exophor) ∧
    (∀ d ∈ te.mentions, ∃ m2,
      (st.merge_entities srcDtid none seEid teEid false).findMention d = some m2 ∧
      seEid ∈ m2.eids ∧ seEid ∉ m2.eids_unc) ∧
    (∃ m2, (st.merge_entities srcDtid none seEid teEid false).findMention srcDtid =
      some m2 ∧ seEid ∈ m2.eids ∧ seEid ∉ m2.eids_unc) ∧
    (∀ d ∈ te.mentions_unc, d ≠ srcDtid → ∀ dm, st.findMention d = some dm →
      ∃ m2, (st.merge_entities srcDtid none seEid teEid false).findMention d = some m2 ∧
        (seEid ∈ m2.eids ↔ seEid ∈ dm.eids) ∧
        (seEid ∈ m2.eids_unc ↔ (seEid ∈ dm.eids_unc ∨ seEid ∉ dm.eids))) := by
  have hinv := (reach_inv st h).1
  obtain ⟨hmnd, hend, hbic, hlive, hek, hedj, hmdj, hesn, hmsn⟩ := (reach_inv st h).1
  have hkse : se.eid = seEid := (find?_key_mem (fun y : Entity => y.eid) hse).2
  have hkte : te.eid = teEid := (find?_key_mem (fun y : Entity => y.eid) hte).2
  have hseMem : se ∈ st.entities := (find?_key_mem (fun y : Entity => y.eid) hse).1
  have hteMem : te ∈ st.entities := (find?_key_mem (fun y : Entity => y.eid) hte).1
  have hksrc : srcM.dtid = srcDtid := (find?_key_mem (fun y : Mention => y.dtid) hsrc).2
  have hsrcMem : srcM ∈ st.mentions := (find?_key_mem (fun y : Mention => y.dtid) hsrc).1
  obtain ⟨hfe2, hfm2, hfex2, hfmx2, hsa2⟩ :=
    DocState.add_mention_find st teEid srcDtid false hte hsrc
  have hseSt2 : (st.add_mention teEid srcDtid false).findEntity seEid = some se := by
    rw [hfex2 seEid hne]
    exact hse
  have hinv2 : SInv (st.add_mention teEid srcDtid false) := sinv_add_mention _ _ _ _ hinv
  have hpte : (te.add_mention srcM false).1.exophor = te.exophor :=
    (Entity.add_mention_proj te srcM false).2.2.1
  have hexo2 : ¬ (se.exophor.isSome ∧ (te.add_mention srcM false).1.exophor.isSome ∧
      se.exophor ≠ (te.add_mention srcM false).1.exophor) := by
    rw [hpte]
    exact hexo
  have heval := merge_final_eval_none st srcDtid seEid teEid hne hsrc hus hseSt2 hfe2 hexo2
  have hinv3 : SInv (if se.exophor = none
      then (st.add_mention teEid srcDtid false).setEntity
        { se with exophor := (te.add_mention srcM false).1.exophor }
      else st.add_mention teEid srcDtid false) := by
    by_cases hc : se.exophor = none
    · rw [if_pos hc]
      exact sinv_set_exophor _ _ hseSt2 hinv2
    · rw [if_neg hc]
      exact hinv2
  have hse3v : (if se.exophor = none
      then (st.add_mention teEid srcDtid false).setEntity
        { se with exophor := (te.add_mention srcM false).1.exophor }
      else st.add_mention teEid srcDtid false).findEntity seEid =
      some (if se.exophor = none
        then { se with exophor := (te.add_mention srcM false).1.exophor }
        else se) := by
    by_cases hc : se.exophor = none
    · rw [if_pos hc, if_pos hc]
      have hsome : ((st.add_mention teEid srcDtid false).findEntity se.eid).isSome := by
        rw [hkse, hseSt2]
        rfl
      have hres := @DocState.findEntity_setEntity_self (st.add_mention teEid srcDtid false)
        { se with exophor := (te.add_mention srcM false).1.exophor } hsome
      rw [show seEid = se.eid from hkse.symm]
      exact hres
    · rw [if_neg hc, if_neg hc]
      exact hseSt2
  have hm3 : ∀ d, (if se.exophor = none
      then (st.add_mention teEid srcDtid false).setEntity
        { se with exophor := (te.add_mention srcM false).1.exophor }
      else st.add_mention teEid srcDtid false).findMention d =
        (st.add_mention teEid srcDtid false).findMention d := by
    intro d
    by_cases hc : se.exophor = none
    · rw [if_pos hc]
      exact DocState.findMention_setEntity _ _ d
    · rw [if_neg hc]
  have hsa3 : (if se.exophor = none
      then (st.add_mention teEid srcDtid false).setEntity
        { se with exophor := (te.add_mention srcM false).1.exophor }
      else st.add_mention teEid srcDtid false).specialArgs = st.specialArgs := by
    by_cases hc : se.exophor = none
    · rw [if_pos hc, DocState.specialArgs_setEntity, hsa2]
    · rw [if_neg hc, hsa2]
  have hte2Mem : (te.add_mention srcM false).1 ∈
      (st.add_mention teEid srcDtid false).entities :=
    (find?_key_mem (fun y : Entity => y.eid) hfe2).1
  have hnodL : ((te.add_mention srcM false).1.mentions ++
      (te.add_mention srcM false).1.mentions_unc).Nodup := by
    obtain ⟨hn1, hn2⟩ := hinv2.2.2.2.2.2.2.2.1 _ hte2Mem
    refine List.Nodup.append hn1 hn2 ?_
    intro a ha1 ha2
    exact (hinv2.2.2.2.2.2.1 _ hte2Mem a ha1) ha2
  have hmemch := (Entity.add_mention_members_char te srcM false
    (hbic te hteMem srcM hsrcMem).1 (hbic te hteMem srcM hsrcMem).2
    (fun hcc => Bool.noConfusion hcc.1)).1
  have hpipe := relink_delete_char
    (if se.exophor = none
      then (st.add_mention teEid srcDtid false).setEntity
        { se with exophor := (te.add_mention srcM false).1.exophor }
      else st.add_mention teEid srcDtid false)
    seEid teEid (te.add_mention srcM false).1 _ hinv3 hne hnodL hse3v rfl
  rw [heval]
  have hsrcCase : ∃ m2, (DocState.delete_entity
      { (((te.add_mention srcM false).1.mentions ++
          (te.add_mention srcM false).1.mentions_unc).foldl (fun s d =>
          let unc : Bool :=
            match s.findMention d with
            | some tm => tm.is_uncertain_to teEid
            | none => true
          s.add_mention seEid d unc)
          (if se.exophor = none
           then (st.add_mention teEid srcDtid false).setEntity
             { se with exophor := (te.add_mention srcM false).1.exophor }
           else st.add_mention teEid srcDtid false)) with
        specialArgs := (((te.add_mention srcM false).1.mentions ++
          (te.add_mention srcM false).1.mentions_unc).foldl (fun s d =>
          let unc : Bool :=
            match s.findMention d with
            | some tm => tm.is_uncertain_to teEid
            | none => true
          s.add_mention seEid d unc)
          (if se.exophor = none
           then (st.add_mention teEid srcDtid false).setEntity
             { se with exophor := (te.add_mention srcM false).1.exophor }
           else st.add_mention teEid srcDtid false)).specialArgs.map
          (fun x => if x = teEid then seEid else x) } teEid).findMention srcDtid = some m2 ∧
      seEid ∈ m2.eids ∧ seEid ∉ m2.eids_unc := by
    have hdm3 : (if se.exophor = none
        then (st.add_mention teEid srcDtid false).setEntity
          { se with exophor := (te.add_mention srcM false).1.exophor }
        else st.add_mention teEid srcDtid false).findMention srcDtid =
        some (te.add_mention srcM false).2 := (hm3 srcDtid).trans hfm2
    have hdL : srcDtid ∈ (te.add_mention srcM false).1.mentions ++
        (te.add_mention srcM false).1.mentions_unc :=
      List.mem_append.mpr ((hmemch srcDtid).mpr (Or.inr hksrc.symm))
    have hlink := Entity.add_mention_link_char te srcM false
      (hbic te hteMem srcM hsrcMem).1 (hbic te hteMem srcM hsrcMem).2
    have hteIn : teEid ∈ (te.add_mention srcM false).2.eids := hkte ▸ (hlink.1 rfl).1
    have hb : (te.add_mention srcM false).2.is_uncertain_to teEid = false :=
      (Mention.is_uncertain_to_false_iff _ _).mpr hteIn
    obtain ⟨m2, hm2, hprops⟩ := hpipe.2.2.2 srcDtid hdL _ hdm3
    exact ⟨m2, hm2, (hprops.1 hb).1, (hprops.1 hb).2⟩
  have hse3exo : (if se.exophor = none
      then { se with exophor := (te.add_mention srcM false).1.exophor }
      else se).exophor = (if se.exophor = none then te.exophor else se.exophor) := by
    by_cases hc0 : se.exophor = none
    · rw [if_pos hc0, if_pos hc0]
      exact hpte
    · rw [if_neg hc0, if_neg hc0]
  have hsaEq := hpipe.2.1.trans
    (congrArg (List.map (fun x => if x = teEid then seEid else x)) hsa3)
  refine ⟨hpipe.1, hsaEq, ?_, hpipe.2.2.1.trans (congrArg some hse3exo), ?_, hsrcCase, ?_⟩
  · rw [hsaEq]
    intro hmem
    obtain ⟨x, _, hxeq⟩ := List.mem_map.mp hmem
    by_cases hx : x = teEid
    · rw [if_pos hx] at hxeq
      exact hne hxeq
    · rw [if_neg hx] at hxeq
      exact hx hxeq
  · intro d hd
    by_cases hdsrc : d = srcDtid
    · subst hdsrc
      exact hsrcCase
    · have hsd : (st.findMention d).isSome := (hek te hteMem).1 d hd
      obtain ⟨dm, hdm⟩ := Option.isSome_iff_exists.mp hsd
      have hkdm : dm.dtid = d := (find?_key_mem (fun y : Mention => y.dtid) hdm).2
      have hdmMem : dm ∈ st.mentions := (find?_key_mem (fun y : Mention => y.dtid) hdm).1
      have hdm3 := (hm3 d).trans ((hfmx2 d hdsrc).trans hdm)
      have hdL : d ∈ (te.add_mention srcM false).1.mentions ++
          (te.add_mention srcM false).1.mentions_unc :=
        List.mem_append.mpr ((hmemch d).mpr (Or.inl (Or.inl hd)))
      have hteIn : teEid ∈ dm.eids :=
        hkte ▸ ((hbic te hteMem dm hdmMem).1.mp (hkdm.symm ▸ hd))
      have hb : dm.is_uncertain_to teEid = false :=
        (Mention.is_uncertain_to_false_iff dm teEid).mpr hteIn
      obtain ⟨m2, hm2, hprops⟩ := hpipe.2.2.2 d hdL dm hdm3
      exact ⟨m2, hm2, (hprops.1 hb).1, (hprops.1 hb).2⟩
  · intro d hd hdsrc dm hdm
    have hkdm : dm.dtid = d := (find?_key_mem (fun y : Mention => y.dtid) hdm).2
    have hdmMem : dm ∈ st.mentions := (find?_key_mem (fun y : Mention => y.dtid) hdm).1
    have hdm3 := (hm3 d).trans ((hfmx2 d hdsrc).trans hdm)
    have hdL : d ∈ (te.add_mention srcM false).1.mentions ++
        (te.add_mention srcM false).1.mentions_unc :=
      List.mem_append.mpr ((hmemch d).mpr (Or.inl (Or.inr hd)))
    have hteInU : teEid ∈ dm.eids_unc :=
      hkte ▸ ((hbic te hteMem dm hdmMem).2.mp (hkdm.symm ▸ hd))
    have hteNotIn : teEid ∉ dm.eids := fun hcc => (hmdj dm hdmMem teEid hcc) hteInU
    have hb : dm.is_uncertain_to teEid = true :=
      (Mention.is_uncertain_to_true_iff dm teEid).mpr hteNotIn
    obtain ⟨m2, hm2, hprops⟩ := hpipe.2.2.2 d hdL dm hdm3
    exact ⟨m2, hm2, (hprops.2 hb).1, (hprops.2 hb).2⟩

/-- C1 (amended): for every merge of distinct entities — with or without
a target mention — in which the new link and the source edge are certain,
the target mention (when present) has a certain edge to the target
entity, and the exophors do not clash: the target entity's eid leaves the
entity table, every SpecialArgument eid equal to it is rewritten to the
source entity's eid (none keeps the dead eid), and the source entity
keeps its exophor unless it was None, in which case it adopts the
target's.  Every mention of the target entity's certain set ends
certainly linked to the source entity, as does the source mention even
when its own edge to the target entity was uncertain (it is promoted
first); any other mention of the target entity's uncertain set keeps its
certainty toward the SOURCE entity — certain iff it already was, else
uncertain — not necessarily the certainty it had toward the target. -/
theorem merge_final_char (st : DocState) (h : Reach st)
    (srcDtid seEid teEid : Nat) (tgtDtid : Option Nat) {srcM : Mention} {se te : Entity}
    (hne : seEid ≠ teEid)
    (hsrc : st.findMention srcDtid = some srcM)
    (hse : st.findEntity seEid = some se) (hte : st.findEntity teEid = some te)
    (hus : srcM.is_uncertain_to seEid = false)
    (hexo : ¬ (se.exophor.isSome ∧ te.exophor.isSome ∧ se.exophor ≠ te.exophor))
    (htgtOk : ∀ td, tgtDtid = some td → srcDtid ≠ td ∧
      ∃ tgtM, st.findMention td = some tgtM ∧ tgtM.is_uncertain_to teEid = false) :
    (st.merge_entities srcDtid tgtDtid seEid teEid false).findEntity teEid = none ∧
    (st.merge_entities srcDtid tgtDtid seEid teEid false).specialArgs =
      st.specialArgs.map (fun x => if x = teEid then seEid else x) ∧
    teEid ∉ (st.merge_entities srcDtid tgtDtid seEid teEid false).specialArgs ∧
    ((st.merge_entities srcDtid tgtDtid seEid teEid false).findEntity seEid).map
      (fun e => e.exophor) = some (if se.exophor = none then te.exophor else se.exophor) ∧
    (∀ d ∈ te.mentions, ∃ m2,
      (st.merge_entities srcDtid tgtDtid seEid teEid false).findMention d = some m2 ∧
      seEid ∈ m2.eids ∧ seEid ∉ m2.eids_unc) ∧
    (∃ m2, (st.merge_entities srcDtid tgtDtid seEid teEid false).findMention srcDtid =
      some m2 ∧ seEid ∈ m2.eids ∧ seEid ∉ m2.eids_unc) ∧
    (∀ d ∈ te.mentions_unc, d ≠ srcDtid → ∀ dm, st.findMention d = some dm →
      ∃ m2, (st.merge_entities srcDtid tgtDtid seEid teEid false).findMention d = some m2 ∧
        (seEid ∈ m2.eids ↔ seEid ∈ dm.eids) ∧
        (seEid ∈ m2.eids_unc ↔ (seEid ∈ dm.eids_unc ∨ seEid ∉ dm.eids))) := by
  cases tgtDtid with
  | none => exact merge_final_none st h srcDtid seEid teEid hne hsrc hse hte hus hexo
  | some td =>
      obtain ⟨hnd, tgtM, htgt, hut⟩ := htgtOk td rfl
      exact merge_final_some st h srcDtid td seEid teEid hne hnd hsrc htgt hse hte hus hut hexo

/-- Witness for the amended C1 at a target-absent deleting merge on a
reachable two-mention document with one SpecialArgument carrying the
dying eid. -/
theorem merge_final_char_witness :
    ((((DocState.init.create_mention ⟨0, true, false⟩).create_mention
      ⟨1, false, true⟩).add_special_arg 1).merge_entities 0 none 0 1 false).findEntity 1 =
        none ∧
    ((((DocState.init.create_mention ⟨0, true, false⟩).create_mention
      ⟨1, false, true⟩).add_special_arg 1).merge_entities 0 none 0 1 false).specialArgs =
      ([1] : List Nat).map (fun x => if x = 1 then 0 else x) ∧
    1 ∉ ((((DocState.init.create_mention ⟨0, true, false⟩).create_mention
      ⟨1, false, true⟩).add_special_arg 1).merge_entities 0 none 0 1 false).specialArgs ∧
    (((((DocState.init.create_mention ⟨0, true, false⟩).create_mention
      ⟨1, false, true⟩).add_special_arg 1).merge_entities 0 none 0 1 false).findEntity 0).map
      (fun e => e.exophor) = some (none : Option String) ∧
    (∀ d ∈ ([1] : List Nat), ∃ m2,
      ((((DocState.init.create_mention ⟨0, true, false⟩).create_mention
        ⟨1, false, true⟩).add_special_arg 1).merge_entities 0 none 0 1 false).findMention d =
          some m2 ∧
      0 ∈ m2.eids ∧ 0 ∉ m2.eids_unc) ∧
    (∃ m2, ((((DocState.init.create_mention ⟨0, true, false⟩).create_mention
      ⟨1, false, true⟩).add_special_arg 1).merge_entities 0 none 0 1 false).findMention 0 =
        some m2 ∧ 0 ∈ m2.eids ∧ 0 ∉ m2.eids_unc) ∧
    (∀ d ∈ ([] : List Nat), d ≠ 0 → ∀ dm,
      (((DocState.init.create_mention ⟨0, true, false⟩).create_mention
        ⟨1, false, true⟩).add_special_arg 1).findMention d = some dm →
      ∃ m2, ((((DocState.init.create_mention ⟨0, true, false⟩).create_mention
        ⟨1, false, true⟩).add_special_arg 1).merge_entities 0 none 0 1 false).findMention d =
          some m2 ∧
        (0 ∈ m2.eids ↔ 0 ∈ dm.eids) ∧
        (0 ∈ m2.eids_unc ↔ (0 ∈ dm.eids_unc ∨ 0 ∉ dm.eids))) :=
  merge_final_char
    (((DocState.init.create_mention ⟨0, true, false⟩).create_mention
      ⟨1, false, true⟩).add_special_arg 1)
    (Reach.add_special_arg _ 1
      (Reach.create_mention _ ⟨1, false, true⟩
        (Reach.create_mention _ ⟨0, true, false⟩ Reach.init)))
    0 0 1 none
    (by decide)
    (by decide : (((DocState.init.create_mention ⟨0, true, false⟩).create_mention
      ⟨1, false, true⟩).add_special_arg 1).findMention 0 = some ⟨0, true, false, [0], []⟩)
    (by decide : (((DocState.init.create_mention ⟨0, true, false⟩).create_mention
      ⟨1, false, true⟩).add_special_arg 1).findEntity 0 =
        some ⟨0, none, [0], [], some false, some true⟩)
    (by decide : (((DocState.init.create_mention ⟨0, true, false⟩).create_mention
      ⟨1, false, true⟩).add_special_arg 1).findEntity 1 =
        some ⟨1, none, [1], [], some true, some false⟩)
    (by decide) (by decide)
    (fun td hcontra => Option.noConfusion hcontra)
